import Mathlib

/-!
# ProChess board: a shallow embedding of `src/lib/board.c`, `src/lib/player.c`,
# `src/lib/pawn.c` and `src/prochess.c`

Conventions of the embedding.

* `unsigned int` and `unsigned short` values are naturals; every arithmetic
  operation the C code performs on them is written with an explicit
  reduction modulo `2^32`.
* `int` fields (`width`, `height`, queue ids, pids) are integers; where the C
  code mixes them with `unsigned int` operands they are converted by `toU32`.
* The flexible array `cells[]` is a list.  An access outside the list is
  undefined behaviour in C; the embedded functions return `none` there.
* `lrand48` is a list of draws that is consumed from the front.  A loop that
  is still running when the draws are used up has not returned: `none`.
* The per-cell semaphore is taken and released inside one call of every
  function that uses it, so a sequential run never observes it taken; it is
  not part of the cell record.  `nanosleep` and `printf` have no effect on
  the state and are left out.
* A process (coordinator, player, pawn) is the function that handles one
  message it received, from its variables to its new variables and the
  effects it has on the outside, in order.  `fork` and
  `generate_message_queue` are taken to succeed; the ids they return are
  arguments.
-/

namespace Prochess

/-- Conversion of a C `int` (or `time_t`) value to `unsigned int`. -/
def toU32 (i : Int) : Nat := (i % 4294967296).toNat

/-- Subtraction of two `unsigned int` values. -/
def subU32 (a b : Nat) : Nat := (a + 4294967296 - b % 4294967296) % 4294967296

/-- Record `coords_t` of `types.h`. -/
structure coords_t where
  x : Nat
  y : Nat
  index : Nat
deriving DecidableEq, Repr

/-- Record `cell_t` of `types.h` (without its semaphore). `occupant_type` is
0 for an empty cell, 1 for a flag, 2 for a pawn; `player_pseudo_name` 0 is
"no owner". -/
structure cell_t where
  player_pseudo_name : Nat
  flag_score : Nat
  occupant_type : Nat
  occupant_pid : Int
deriving DecidableEq, Repr

/-- Record `board_t` of `types.h`. `round_in_progress` is assigned by
`generate_board`, `exec_round` and `end_round`. -/
structure board_t where
  width : Int
  height : Int
  coordinator_mq_id : Int
  waiting_time : Int
  coordinator_pid : Int
  round_in_progress : Nat
  cells : List cell_t
deriving DecidableEq, Repr

/-- Record `player_t` of `types.h`. -/
structure player_t where
  mq_id : Int
  pid : Int
  pseudo_name : Nat
  available_moves : Nat
  total_moves : Nat
  total_score : Nat
  global_score : Nat
deriving DecidableEq, Repr

/-- Record `message_t` of `types.h`; the payload is never written nor read by
the protocol. -/
structure message_t where
  message_type : Nat
  player_pseudo_name : Nat
deriving DecidableEq, Repr

/-- A board as `generate_board` lays it out: positive dimensions, a cell
count that `int` arithmetic can hold, and exactly `width * height` cells. -/
def valid_board (b : board_t) : Prop :=
  0 < b.width ∧ 0 < b.height ∧ b.width * b.height < 2147483648 ∧
    (b.cells.length : Int) = b.width * b.height

instance (b : board_t) : Decidable (valid_board b) := by
  unfold valid_board; infer_instance

/-! ## board.c -/

/-- Function `compute_index` of board.c. -/
def compute_index (game_board : board_t) (coords : coords_t) : Nat :=
  (coords.x * toU32 game_board.height + coords.y) % 4294967296

/-- Function `compute_index_from_params` of board.c. -/
def compute_index_from_params (game_board : board_t) (x y : Nat) : Nat :=
  (x * toU32 game_board.height + y) % 4294967296

/-- The assignment `cells[index] = c`. -/
def set_cell (game_board : board_t) (index : Nat) (c : cell_t) : board_t :=
  { game_board with cells := game_board.cells.set index c }

/-- Function `get_random_position` of board.c. Each round of the do-while
loop takes two draws; the loop goes on while the sampled cell's occupant type
is above `min_occupant_type`. -/
def get_random_position (game_board : board_t) (allow_occupied_by_flags : Nat) :
    List Nat → Option (coords_t × List Nat)
  | r1 :: r2 :: rest =>
    let min_occupant_type : Nat := if allow_occupied_by_flags = 1 then 1 else 0
    if game_board.width = 0 ∨ game_board.height = 0 then none
    else
      let x := toU32 (Int.tmod (r1 : Int) game_board.width)
      let y := toU32 (Int.tmod (r2 : Int) game_board.height)
      let index := compute_index game_board { x := x, y := y, index := 0 }
      match game_board.cells[index]? with
      | none => none
      | some c =>
        if c.occupant_type > min_occupant_type then
          get_random_position game_board allow_occupied_by_flags rest
        else some ({ x := x, y := y, index := index }, rest)
  | _ => none

/-- Function `place_pawn` of board.c; the second component is
`has_conquered_flag`. -/
def place_pawn (game_board : board_t) (position : coords_t) (player_pseudo_name : Nat) :
    Option (board_t × Nat) :=
  match game_board.cells[position.index]? with
  | none => none
  | some c =>
    if c.occupant_type = 0 then
      some (set_cell game_board position.index
        { c with occupant_type := 2, player_pseudo_name := player_pseudo_name }, 0)
    else if c.occupant_type = 1 then
      some (set_cell game_board position.index
        { c with occupant_type := 2, player_pseudo_name := player_pseudo_name }, 1)
    else some (game_board, 0)

/-- Function `is_allowed_position` of board.c. -/
def is_allowed_position (game_board : board_t) (position : coords_t) : Option Nat :=
  match game_board.cells[position.index]? with
  | none => none
  | some c => some (if c.occupant_type ≤ 1 then 1 else 0)

/-- Function `move_pawn` of board.c. -/
def move_pawn (game_board : board_t) (old_position new_position : coords_t)
    (player_pseudo_name : Nat) : Option (board_t × Nat) :=
  match is_allowed_position game_board new_position with
  | none => none
  | some allowed =>
    if allowed = 1 then
      match game_board.cells[old_position.index]? with
      | none => none
      | some c =>
        place_pawn
          (set_cell game_board old_position.index
            { c with occupant_type := 0, player_pseudo_name := 0 })
          new_position player_pseudo_name
    else some (game_board, 0)

/-- A C loop `for (i = start; i < start + k; i++) body`, given `k` and
`start`; the body may fault. -/
def for_loop {σ : Type} (body : Nat → σ → Option σ) : Nat → Nat → σ → Option σ
  | 0, _, s => some s
  | k + 1, i, s =>
    match body i s with
    | none => none
    | some s1 => for_loop body k (i + 1) s1

/-- The variables that the `for` loop of `spawn_flags` updates. -/
structure spawn_state where
  game_board : board_t
  n : Nat
  max_score : Nat
  draws : List Nat
deriving DecidableEq, Repr

/-- The body of the `for` loop of `spawn_flags`. A zero modulus is a division
by zero. -/
def spawn_flags_body (_i : Nat) (s : spawn_state) : Option spawn_state :=
  match s.draws with
  | [] => none
  | r :: rest =>
    if subU32 s.max_score s.n = 0 then none
    else
      let score := (r % subU32 s.max_score s.n + 1) % 4294967296
      let max_score := subU32 s.max_score score
      let n := subU32 s.n 1
      match get_random_position s.game_board 0 rest with
      | none => none
      | some (position, rest) =>
        match s.game_board.cells[position.index]? with
        | none => none
        | some c =>
          some
            { game_board := set_cell s.game_board position.index
                { c with occupant_type := 1, player_pseudo_name := 0, flag_score := score },
              n := n, max_score := max_score, draws := rest }

/-- Function `spawn_flags` of board.c; returns the board, `flag_count` and the
draws that are left. -/
def spawn_flags (game_board : board_t) (min max max_score : Nat) (draws : List Nat) :
    Option (board_t × Nat × List Nat) :=
  match draws with
  | [] => none
  | r :: rest =>
    if subU32 ((max + 1) % 4294967296) min = 0 then none
    else
      let flag_count := (r % subU32 ((max + 1) % 4294967296) min + min) % 4294967296
      match for_loop spawn_flags_body flag_count 0
          { game_board := game_board, n := flag_count, max_score := max_score, draws := rest } with
      | none => none
      | some s => some (s.game_board, flag_count, s.draws)

/-- The body of the `for` loop of `remove_flags`. -/
def remove_flags_body (i : Nat) (game_board : board_t) : Option board_t :=
  match game_board.cells[i]? with
  | none => none
  | some c =>
    let c1 : cell_t := if c.occupant_type = 1 then { c with occupant_type := 0 } else c
    some (set_cell game_board i { c1 with flag_score := 0 })

/-- Function `remove_flags` of board.c. The `int` product `width * height` is
stored in an `unsigned int`. -/
def remove_flags (game_board : board_t) : Option board_t :=
  for_loop remove_flags_body (toU32 (game_board.width * game_board.height)) 0 game_board

/-! ## player.c -/

/-- What the coordinator process does to the world outside its own memory. -/
inductive effect where
  | send (mq_id : Int) (msg : message_t)
  | alarm (seconds : Nat)
  | close_message_queue (mq_id : Int)
  | sem_destroy (index : Nat)
  | exit (status : Nat)
deriving DecidableEq, Repr

/-- Function `allow_pawn_placing` of player.c. -/
def allow_pawn_placing (player : player_t) : List effect :=
  [effect.send player.mq_id { message_type := 2, player_pseudo_name := 0 }]

/-- The body of the `for` loop of `broadcast_signal_to_players`; the state is
the list of messages sent so far. -/
def broadcast_signal_body (player_list : List player_t) (type : Nat) (i : Nat)
    (out : List effect) : Option (List effect) :=
  match player_list[i]? with
  | none => none
  | some p => some (out ++ [effect.send p.mq_id { message_type := type, player_pseudo_name := 0 }])

/-- Function `broadcast_signal_to_players` of player.c. -/
def broadcast_signal_to_players (player_list : List player_t) (player_count : Nat)
    (type : Nat) : Option (List effect) :=
  for_loop (broadcast_signal_body player_list type) player_count 0 []

/-- The body of the `while` loop of `get_player_index`; the state is `index`,
with 4294967295 for the C value `-1`. -/
def get_player_index_body (player_list : List player_t) (player_pseudo_name : Nat)
    (i : Nat) (index : Nat) : Option Nat :=
  if index = 4294967295 then
    match player_list[i]? with
    | none => none
    | some p => some (if p.pseudo_name = player_pseudo_name then i else index)
  else some index

/-- Function `get_player_index` of player.c. Once `index` is set the `while`
loop stops; the remaining rounds of the bounded loop leave it as it is. -/
def get_player_index (player_list : List player_t) (player_count : Nat)
    (player_pseudo_name : Nat) : Option Nat :=
  for_loop (get_player_index_body player_list player_pseudo_name) player_count 0 4294967295

/-- The body of the `for` loop of `get_player_score`; the state is `score`. -/
def get_player_score_body (game_board : board_t) (player_pseudo_name : Nat)
    (i : Nat) (score : Nat) : Option Nat :=
  match game_board.cells[i]? with
  | none => none
  | some c =>
    some (if c.player_pseudo_name = player_pseudo_name
      then (score + c.flag_score) % 4294967296 else score)

/-- Function `get_player_score` of player.c. -/
def get_player_score (game_board : board_t) (player_pseudo_name : Nat) : Option Nat :=
  for_loop (get_player_score_body game_board player_pseudo_name)
    (toU32 (game_board.width * game_board.height)) 0 0

/-- The body of the first `for` loop of `update_players_score`. -/
def update_total_body (game_board : board_t) (i : Nat) (player_list : List player_t) :
    Option (List player_t) :=
  match player_list[i]? with
  | none => none
  | some p =>
    match get_player_score game_board p.pseudo_name with
    | none => none
    | some score => some (player_list.set i { p with total_score := score })

/-- The body of the second `for` loop of `update_players_score`. -/
def update_global_body (i : Nat) (player_list : List player_t) : Option (List player_t) :=
  match player_list[i]? with
  | none => none
  | some p =>
    some (player_list.set i
      { p with global_score := (p.global_score + p.total_score) % 4294967296 })

/-- Function `update_players_score` of player.c. The board is only read. -/
def update_players_score (game_board : board_t) (player_list : List player_t)
    (player_count : Nat) (update_glob : Nat) : Option (List player_t) :=
  match for_loop (update_total_body game_board) player_count 0 player_list with
  | none => none
  | some player_list =>
    if update_glob = 1 then for_loop update_global_body player_count 0 player_list
    else some player_list

/-! ## prochess.c -/

/-- The `#define` constants of prochess.c. -/
structure config where
  SO_NUM_G : Nat
  SO_NUM_P : Nat
  SO_MAX_TIME : Nat
  SO_BASE : Nat
  SO_ALTEZZA : Nat
  SO_FLAG_MIN : Nat
  SO_FLAG_MAX : Nat
  SO_ROUND_SCORE : Nat
  SO_N_MOVES : Nat
  SO_MIN_HOLD_NSEC : Nat
deriving DecidableEq, Repr

/-- The block of constants that prochess.c leaves uncommented ("EASY"). -/
def easy_config : config :=
  { SO_NUM_G := 2, SO_NUM_P := 10, SO_MAX_TIME := 3, SO_BASE := 60, SO_ALTEZZA := 20,
    SO_FLAG_MIN := 5, SO_FLAG_MAX := 5, SO_ROUND_SCORE := 10, SO_N_MOVES := 20,
    SO_MIN_HOLD_NSEC := 100000000 }

/-- The global variables of prochess.c, the shared board they point to, and
the `lrand48` draws the coordinator process has yet to take. -/
structure coordinator_t where
  ready_players : Nat
  current_placing_player : Nat
  current_round : Nat
  total_playing_time : Nat
  conquered_flags : Nat
  flag_count : Nat
  player_list : List player_t
  round_start_time : Int
  game_board_shm_id : Int
  game_board : board_t
  draws : List Nat
deriving DecidableEq, Repr

/-- Function `exec_round` of prochess.c. -/
def exec_round (cfg : config) (s : coordinator_t) : Option (coordinator_t × List effect) :=
  let s := { s with conquered_flags := 0 }
  let s := { s with current_round := (s.current_round + 1) % 4294967296 }
  let s := { s with game_board := { s.game_board with round_in_progress := 1 } }
  match spawn_flags s.game_board cfg.SO_FLAG_MIN cfg.SO_FLAG_MAX cfg.SO_ROUND_SCORE s.draws with
  | none => none
  | some (game_board, flag_count, draws) =>
    let s := { s with game_board := game_board, flag_count := flag_count, draws := draws }
    match broadcast_signal_to_players s.player_list cfg.SO_NUM_G 5 with
    | none => none
    | some out => some (s, out)

/-- Function `end_round` of prochess.c; `now` is the value of `time(NULL)`. -/
def end_round (cfg : config) (now : Int) (s : coordinator_t) :
    Option (coordinator_t × List effect) :=
  let s := { s with game_board := { s.game_board with round_in_progress := 0 } }
  match update_players_score s.game_board s.player_list cfg.SO_NUM_G 1 with
  | none => none
  | some player_list =>
    let s := { s with player_list := player_list }
    let s := { s with
      total_playing_time := toU32 ((s.total_playing_time : Int) + (now - s.round_start_time)) }
    some (s, [effect.alarm 0])

/-- The body of the `for` loop of `start_over_again`. -/
def restore_moves_body (moves : Nat) (i : Nat) (player_list : List player_t) :
    Option (List player_t) :=
  match player_list[i]? with
  | none => none
  | some p => some (player_list.set i { p with available_moves := moves })

/-- Function `start_over_again` of prochess.c. -/
def start_over_again (cfg : config) (s : coordinator_t) :
    Option (coordinator_t × List effect) :=
  let moves := (cfg.SO_NUM_P * cfg.SO_N_MOVES) % 4294967296
  match for_loop (restore_moves_body moves) cfg.SO_NUM_G 0 s.player_list with
  | none => none
  | some player_list =>
    let s := { s with player_list := player_list }
    match remove_flags s.game_board with
    | none => none
    | some game_board =>
      let s := { s with game_board := game_board }
      match broadcast_signal_to_players s.player_list cfg.SO_NUM_G 12 with
      | none => none
      | some out1 =>
        match exec_round cfg s with
        | none => none
        | some (s, out2) => some (s, out1 ++ out2)

/-- The body of the `for` loop of `kill_em_all`. -/
def close_queues_body (player_list : List player_t) (i : Nat) (out : List effect) :
    Option (List effect) :=
  match player_list[i]? with
  | none => none
  | some p => some (out ++ [effect.close_message_queue p.mq_id])

/-- Function `kill_em_all` of prochess.c. -/
def kill_em_all (cfg : config) (s : coordinator_t) : Option (List effect) :=
  match broadcast_signal_to_players s.player_list cfg.SO_NUM_G 11 with
  | none => none
  | some out1 =>
    match for_loop (close_queues_body s.player_list) cfg.SO_NUM_G 0 [] with
    | none => none
    | some out2 => some (out1 ++ out2)

/-- The body of the `for` loop of `destroy_board`. -/
def destroy_board_body (game_board : board_t) (i : Nat) (out : List effect) :
    Option (List effect) :=
  match game_board.cells[i]? with
  | none => none
  | some _ => some (out ++ [effect.sem_destroy i])

/-- Function `destroy_board` of board.c, every `sem_destroy` succeeding. -/
def destroy_board (game_board : board_t) : Option (List effect) :=
  match for_loop (destroy_board_body game_board)
      (toU32 (game_board.width * game_board.height)) 0 [] with
  | none => none
  | some out => some (out ++ [effect.close_message_queue game_board.coordinator_mq_id])

/-- Function `end_game` of prochess.c. -/
def end_game (cfg : config) (now : Int) (s : coordinator_t) :
    Option (coordinator_t × List effect) :=
  match end_round cfg now s with
  | none => none
  | some (s, out1) =>
    match kill_em_all cfg s with
    | none => none
    | some out2 =>
      match destroy_board s.game_board with
      | none => none
      | some out3 => some (s, out1 ++ out2 ++ out3 ++ [effect.exit 0])

/-- The signal number `SIGALRM`. -/
def SIGALRM : Int := 14

/-- Function `signal_handler` of prochess.c. -/
def signal_handler (cfg : config) (now : Int) (s : coordinator_t) (signo : Int) :
    Option (coordinator_t × List effect) :=
  if signo = SIGALRM then end_game cfg now s else some (s, [])

/-- Function `handle_message` of prochess.c; `now` is the value `time(NULL)`
has while the message is handled. -/
def handle_message (cfg : config) (now : Int) (s : coordinator_t) (message : message_t) :
    Option (coordinator_t × List effect) :=
  if message.message_type = 1 then
    let s := { s with ready_players := (s.ready_players + 1) % 4294967296 }
    if s.ready_players = cfg.SO_NUM_G then
      let s := { s with ready_players := 0, current_placing_player := 0 }
      match s.player_list[s.current_placing_player]? with
      | none => none
      | some p => some (s, allow_pawn_placing p)
    else some (s, [])
  else if message.message_type = 3 then
    let s := { s with current_placing_player := (s.current_placing_player + 1) % 4294967296 }
    let s :=
      if s.current_placing_player = cfg.SO_NUM_G then { s with current_placing_player := 0 }
      else s
    match s.player_list[s.current_placing_player]? with
    | none => none
    | some p => some (s, allow_pawn_placing p)
  else if message.message_type = 4 then
    exec_round cfg s
  else if message.message_type = 6 then
    let s := { s with ready_players := (s.ready_players + 1) % 4294967296 }
    if s.ready_players = cfg.SO_NUM_G then
      let s := { s with ready_players := 0 }
      let s := { s with round_start_time := now }
      match broadcast_signal_to_players s.player_list cfg.SO_NUM_G 7 with
      | none => none
      | some out => some (s, effect.alarm cfg.SO_MAX_TIME :: out)
    else some (s, [])
  else if message.message_type = 9 then
    match broadcast_signal_to_players s.player_list cfg.SO_NUM_G 9 with
    | none => none
    | some out1 =>
      let s := { s with conquered_flags := (s.conquered_flags + 1) % 4294967296 }
      if s.conquered_flags = s.flag_count then
        match end_round cfg now s with
        | none => none
        | some (s, out2) =>
          match start_over_again cfg s with
          | none => none
          | some (s, out3) => some (s, out1 ++ out2 ++ out3)
      else some (s, out1)
  else if message.message_type = 10 then
    match get_player_index s.player_list cfg.SO_NUM_G message.player_pseudo_name with
    | none => none
    | some index =>
      if index ≠ 4294967295 then
        match s.player_list[index]? with
        | none => none
        | some p =>
          let p1 : player_t := { p with available_moves := subU32 p.available_moves 1 }
          some ({ s with player_list := s.player_list.set index p1 }, [])
      else some (s, [])
  else some (s, [])

/-- The messages the `while (1)` loop of `main` hands to `handle_message`, one
after the other; the effects are collected in order. -/
def handle_messages (cfg : config) (now : Int) :
    coordinator_t → List message_t → Option (coordinator_t × List effect)
  | s, [] => some (s, [])
  | s, m :: ms =>
    match handle_message cfg now s m with
    | none => none
    | some (s1, out1) =>
      match handle_messages cfg now s1 ms with
      | none => none
      | some (s2, out2) => some (s2, out1 ++ out2)

/-! ## Observations on a board -/

/-- The occupant type of cell `i`, when the board has such a cell. -/
def occupant_at (b : board_t) (i : Nat) : Option Nat :=
  (b.cells[i]?).map (fun c => c.occupant_type)

/-- The owner (pseudo name) recorded in cell `i`. -/
def owner_at (b : board_t) (i : Nat) : Option Nat :=
  (b.cells[i]?).map (fun c => c.player_pseudo_name)

/-- The flag score recorded in cell `i`. -/
def score_at (b : board_t) (i : Nat) : Option Nat :=
  (b.cells[i]?).map (fun c => c.flag_score)

/-- The sum of `flag_score` over the cells whose occupant is a Flag. -/
def flag_score_sum (b : board_t) : Nat :=
  ((b.cells.filter (fun c => c.occupant_type = 1)).map (fun c => c.flag_score)).sum

/-- The number of cells whose occupant is a Flag. -/
def flag_cells (b : board_t) : Nat :=
  (b.cells.filter (fun c => c.occupant_type = 1)).length

/-- The number of cells whose occupant is Empty. -/
def empty_cells (b : board_t) : Nat :=
  (b.cells.filter (fun c => c.occupant_type = 0)).length

/-- Board `b1` is board `b0` with Flags put on the cells listed in `placed`:
the listed cells are pairwise distinct, each was Empty in `b0` and is a Flag
without owner in `b1`, and every cell that is not listed is the same in both. -/
def flags_placed (b0 b1 : board_t) (placed : List Nat) : Prop :=
  b1.cells.length = b0.cells.length ∧ placed.Nodup ∧
    (∀ j, j ∈ placed →
      occupant_at b0 j = some 0 ∧ occupant_at b1 j = some 1 ∧ owner_at b1 j = some 0) ∧
    (∀ j, j ∉ placed → b1.cells[j]? = b0.cells[j]?)

/-- A 3 by 3 board whose nine cells are Empty. -/
def empty_board_3x3 : board_t :=
  ⟨3, 3, 0, 0, 0, 0, List.replicate 9 ⟨0, 0, 0, 0⟩⟩

/-- The cell that one round of the loop of `remove_flags` leaves in the place
of `c`. -/
def cleared (c : cell_t) : cell_t :=
  { (if c.occupant_type = 1 then { c with occupant_type := 0 } else c) with flag_score := 0 }

/-- The sum of `flag_score` over the cells whose owner is `name`, as a
natural number (no wrap-around). -/
def owned_score (b : board_t) (name : Nat) : Nat :=
  ((b.cells.filter (fun c => c.player_pseudo_name = name)).map (fun c => c.flag_score)).sum

/-- A 1 by 2 board whose two cells are pawns of player 65 standing on scores
4294967295 and 1, which sum to 2^32. -/
def overflow_board : board_t :=
  ⟨1, 2, 0, 0, 0, 0, [⟨65, 4294967295, 2, 0⟩, ⟨65, 1, 2, 0⟩]⟩

/-- The constants of the scenario of the specification: 2 players, 1 pawn
each, 1 move, a 3 by 3 board. -/
def scenario_config : config :=
  { SO_NUM_G := 2, SO_NUM_P := 1, SO_MAX_TIME := 3, SO_BASE := 3, SO_ALTEZZA := 3,
    SO_FLAG_MIN := 1, SO_FLAG_MAX := 2, SO_ROUND_SCORE := 5, SO_N_MOVES := 1,
    SO_MIN_HOLD_NSEC := 100000000 }

/-- The coordinator of the scenario after `spawn_players`: zeroed counters,
players 65 and 66 with queues 101 and 102, the Empty 3 by 3 board. -/
def scenario_state : coordinator_t :=
  { ready_players := 0, current_placing_player := 0, current_round := 0,
    total_playing_time := 0, conquered_flags := 0, flag_count := 0,
    player_list := [⟨101, 1001, 65, 1, 1, 0, 0⟩, ⟨102, 1002, 66, 1, 1, 0, 0⟩],
    round_start_time := 0, game_board_shm_id := 1, game_board := empty_board_3x3,
    draws := [3, 7, 1, 1, 2, 0, 2] }

/-- One message of type `type`, without sender identity, to the queue of each
player of the list, in the order of the list. -/
def signal_to_all (ps : List player_t) (type : Nat) : List effect :=
  ps.map (fun p => effect.send p.mq_id { message_type := type, player_pseudo_name := 0 })

/-- Player `p` after the scores of board `b` have been finalized:
`total_score` is the sum of the scores on the cells `p` owns and
`global_score` has grown by it, both in `unsigned int` arithmetic. -/
def scored (b : board_t) (p : player_t) : player_t :=
  { p with
    total_score := owned_score b p.pseudo_name % 4294967296,
    global_score := (p.global_score + owned_score b p.pseudo_name % 4294967296) % 4294967296 }

/-- The effect is a message of type `type` to some queue. -/
def is_send_of_type (type : Nat) (e : effect) : Bool :=
  match e with
  | effect.send _ msg => msg.message_type = type
  | _ => false


/-- The two calls `end_round(); start_over_again();` that case 9 of
`handle_message` makes when the last flag has been conquered
(`print_status` between them only prints). -/
def round_end_transition (cfg : config) (now : Int) (s : coordinator_t) :
    Option (coordinator_t × List effect) :=
  match end_round cfg now s with
  | none => none
  | some (s, out2) =>
    match start_over_again cfg s with
    | none => none
    | some (s, out3) => some (s, out2 ++ out3)

/-- Player `p` at the start of the next round: scores finalized on board `b`
and `available_moves` back at `SO_NUM_P * SO_N_MOVES`. -/
def next_round_player (cfg : config) (b : board_t) (p : player_t) : player_t :=
  { scored b p with available_moves := (cfg.SO_NUM_P * cfg.SO_N_MOVES) % 4294967296 }

/-- The board that `start_over_again` hands to `spawn_flags`: every cell
cleared by `remove_flags`, `round_in_progress` set by `exec_round`. -/
def next_round_board (b : board_t) : board_t :=
  { b with round_in_progress := 1, cells := b.cells.map cleared }


/-- A state of the scenario in the middle of a round with one flag spawned
and none conquered yet; the pawn of player 65 stands on cell 0, whose score
is 2 (the flag it has just conquered), the pawn of player 66 on cell 8. -/
def last_capture_state : coordinator_t :=
  { ready_players := 0, current_placing_player := 0, current_round := 1,
    total_playing_time := 0, conquered_flags := 0, flag_count := 1,
    player_list := [⟨101, 1001, 65, 0, 1, 0, 4⟩, ⟨102, 1002, 66, 1, 1, 0, 0⟩],
    round_start_time := 40, game_board_shm_id := 1,
    game_board := ⟨3, 3, 0, 0, 0, 1,
      [⟨65, 2, 2, 0⟩, ⟨0, 0, 0, 0⟩, ⟨0, 0, 0, 0⟩, ⟨0, 0, 0, 0⟩, ⟨0, 0, 0, 0⟩,
       ⟨0, 0, 0, 0⟩, ⟨0, 0, 0, 0⟩, ⟨0, 0, 0, 0⟩, ⟨66, 0, 2, 0⟩]⟩,
    draws := [3, 7, 1, 1, 2, 0, 2] }


/-- What wakes the coordinator: a message taken from its queue by the loop of
`main`, or a signal. A signal is taken between two messages. -/
inductive event where
  | message (m : message_t)
  | signal (signo : Int)
deriving DecidableEq, Repr

/-- The effect is a call of `exit`. -/
def is_exit (e : effect) : Bool :=
  match e with
  | effect.exit _ => true
  | _ => false

/-- One event handled by the coordinator: `handle_message` for a message,
`signal_handler` for a signal. -/
def coordinator_step (cfg : config) (now : Int) (s : coordinator_t) :
    event → Option (coordinator_t × List effect)
  | event.message m => handle_message cfg now s m
  | event.signal signo => signal_handler cfg now s signo

/-- The coordinator process over a list of events: once a step has called
`exit` the process is gone and the events that follow are not handled. -/
def coordinator_run (cfg : config) (now : Int) :
    coordinator_t → List event → Option (coordinator_t × List effect)
  | s, [] => some (s, [])
  | s, ev :: evs =>
    match coordinator_step cfg now s ev with
    | none => none
    | some (s1, out1) =>
      if out1.any is_exit then some (s1, out1)
      else
        match coordinator_run cfg now s1 evs with
        | none => none
        | some (s2, out2) => some (s2, out1 ++ out2)

/-- The effects of `end_game` on a valid board with the players `ps`:
`alarm(0)`, Terminate (type 11) to each player, the players' queues closed,
every cell's semaphore destroyed, the coordinator's queue closed, `exit(0)`. -/
def end_game_effects (b : board_t) (ps : List player_t) : List effect :=
  [effect.alarm 0] ++ signal_to_all ps 11 ++
    ps.map (fun p => effect.close_message_queue p.mq_id) ++
    (List.range b.cells.length).map effect.sem_destroy ++
    [effect.close_message_queue b.coordinator_mq_id] ++ [effect.exit 0]


/-- The three assignments that `generate_board` makes to a cell. -/
def zeroed (c : cell_t) : cell_t :=
  { c with flag_score := 0, occupant_type := 0, player_pseudo_name := 0 }

/-- The body of the inner `for` loop (over `y`) of `generate_board`. -/
def generate_board_cell (x : Nat) (y : Nat) (game_board : board_t) : Option board_t :=
  let index := compute_index_from_params game_board x y
  match game_board.cells[index]? with
  | none => none
  | some c => some (set_cell game_board index (zeroed c))

/-- The body of the outer `for` loop (over `x`) of `generate_board`. -/
def generate_board_column (height : Int) (x : Nat) (game_board : board_t) : Option board_t :=
  for_loop (generate_board_cell x) (toU32 height) 0 game_board

/-- Function `generate_board` of board.c, returning the board that the new
segment holds. `memory` is what the segment's `width * height` cells hold
before the loops, `mq_id` the new message queue, `pid` the value of
`getpid()`. -/
def generate_board (width height : Int) (memory : List cell_t) (mq_id pid : Int) :
    Option board_t :=
  for_loop (generate_board_column height) (toU32 width) 0
    { width := width, height := height, coordinator_mq_id := mq_id, waiting_time := 0,
      coordinator_pid := pid, round_in_progress := 0, cells := memory }

/-- Every cell whose `flag_score` is not 0 has occupant Flag or Pawn. -/
def scores_on_occupied (b : board_t) : Prop :=
  ∀ c ∈ b.cells, c.flag_score ≠ 0 → c.occupant_type = 1 ∨ c.occupant_type = 2

instance (b : board_t) : Decidable (scores_on_occupied b) := by
  unfold scores_on_occupied; infer_instance

/-- A 1 by 2 board: a pawn of player 65 on cell 0, whose score is 2 (a flag
it has conquered), and an Empty cell. -/
def captured_flag_board : board_t :=
  ⟨1, 2, 0, 0, 0, 1, [⟨65, 2, 2, 0⟩, ⟨0, 0, 0, 0⟩]⟩


/-! ## pawn.c -/

/-- Function `get_next_position` of pawn.c. Each round of the do-while loop
takes one draw; a rejected direction starts the next round. The fields `x`
and `y` of the result are those assigned in the accepted round. -/
def get_next_position (game_board : board_t) (current_position : coords_t) :
    List Nat → Option (coords_t × List Nat)
  | [] => none
  | r :: rest =>
    let orientation := Int.tmod (r : Int) 5
    if orientation = 1 then
      if current_position.y = 0 then get_next_position game_board current_position rest
      else
        let x := current_position.x
        let y := subU32 current_position.y 1
        some ({ x := x, y := y,
                index := compute_index game_board { x := x, y := y, index := 0 } }, rest)
    else if orientation = 2 then
      if current_position.x = toU32 game_board.width then
        get_next_position game_board current_position rest
      else
        let x := (current_position.x + 1) % 4294967296
        let y := current_position.y
        some ({ x := x, y := y,
                index := compute_index game_board { x := x, y := y, index := 0 } }, rest)
    else if orientation = 3 then
      if current_position.y = toU32 game_board.height then
        get_next_position game_board current_position rest
      else
        let x := current_position.x
        let y := (current_position.y + 1) % 4294967296
        some ({ x := x, y := y,
                index := compute_index game_board { x := x, y := y, index := 0 } }, rest)
    else if orientation = 4 then
      if current_position.x = 0 then get_next_position game_board current_position rest
      else
        let x := subU32 current_position.x 1
        let y := current_position.y
        some ({ x := x, y := y,
                index := compute_index game_board { x := x, y := y, index := 0 } }, rest)
    else get_next_position game_board current_position rest


/-- Function `signal_achievement` of pawn.c. -/
def signal_achievement (game_board : board_t) (player_pseudo_name : Nat) : List effect :=
  [effect.send game_board.coordinator_mq_id
    { message_type := 9, player_pseudo_name := player_pseudo_name }]

/-- Function `notify_movement` of pawn.c. -/
def notify_movement (game_board : board_t) (player_pseudo_name : Nat) : List effect :=
  [effect.send game_board.coordinator_mq_id
    { message_type := 10, player_pseudo_name := player_pseudo_name }]

/-- The local variables of the child process of `spawn_pawn`, the board it
has attached, and the `lrand48` draws it has yet to take. The board changes
only through this pawn's own calls. -/
structure pawn_proc where
  available_moves : Nat
  max_moves : Nat
  player_pseudo_name : Nat
  position : coords_t
  local_game_board : board_t
  draws : List Nat
deriving DecidableEq, Repr

/-- The body of `while ( available_moves > 0 )` in case 8 of `spawn_pawn`:
one move attempt. The result holds the new state, the value of
`has_conquered_flag`, and the messages sent. -/
def pawn_move (s : pawn_proc) : Option (pawn_proc × Nat × List effect) :=
  match get_next_position s.local_game_board s.position s.draws with
  | none => none
  | some (next_position, draws) =>
    match move_pawn s.local_game_board s.position next_position s.player_pseudo_name with
    | none => none
    | some (game_board, has_conquered_flag) =>
      let s := { s with local_game_board := game_board, draws := draws }
      let s := { s with position := next_position }
      let s := { s with available_moves := subU32 s.available_moves 1 }
      let out := notify_movement s.local_game_board s.player_pseudo_name
      if has_conquered_flag = 1 then
        some ({ s with available_moves := 0 }, has_conquered_flag,
          out ++ signal_achievement s.local_game_board s.player_pseudo_name)
      else some (s, has_conquered_flag, out)

/-- The loop `while ( available_moves > 0 )` of case 8, with a bound `fuel`
on the number of rounds: `none` also when the bound is reached while the
condition still holds. The result lists the attempts in order, each with its
`has_conquered_flag` and the messages it sent. -/
def moving_loop : Nat → pawn_proc → Option (pawn_proc × List (Nat × List effect))
  | 0, s => if s.available_moves > 0 then none else some (s, [])
  | fuel + 1, s =>
    if s.available_moves > 0 then
      match pawn_move s with
      | none => none
      | some (s1, has_conquered_flag, out1) =>
        match moving_loop fuel s1 with
        | none => none
        | some (s2, attempts) => some (s2, (has_conquered_flag, out1) :: attempts)
    else some (s, [])

/-- The `switch` of the child process of `spawn_pawn` on one message. Every
round of the loop of case 8 lowers `available_moves`, so `available_moves`
rounds are enough. -/
def pawn_handle_message (s : pawn_proc) (message : message_t) :
    Option (pawn_proc × List effect) :=
  if message.message_type = 8 then
    match moving_loop s.available_moves s with
    | none => none
    | some (s1, attempts) => some (s1, (attempts.map (fun a => a.2)).flatten)
  else if message.message_type = 11 then some (s, [effect.exit 0])
  else if message.message_type = 12 then some ({ s with available_moves := s.max_moves }, [])
  else some (s, [])

/-- A pawn of player 65 at (0, 0) of a 3 by 3 board with a flag on cell 2,
that is (0, 2), with 3 moves left of 3. -/
def scenario_pawn : pawn_proc :=
  { available_moves := 3, max_moves := 3, player_pseudo_name := 65, position := ⟨0, 0, 0⟩,
    local_game_board := ⟨3, 3, 77, 0, 0, 1,
      [⟨65, 0, 2, 0⟩, ⟨0, 0, 0, 0⟩, ⟨0, 4, 1, 0⟩, ⟨0, 0, 0, 0⟩, ⟨0, 0, 0, 0⟩,
       ⟨0, 0, 0, 0⟩, ⟨0, 0, 0, 0⟩, ⟨0, 0, 0, 0⟩, ⟨0, 0, 0, 0⟩]⟩,
    draws := [3, 0, 3, 2, 2] }


/-- Record `pawn_t` of `types.h`. -/
structure pawn_t where
  owner_mq_id : Int
  mq_id : Int
  pid : Int
deriving DecidableEq, Repr

/-- The body of the `for` loop of `broadcast_signal_to_pawns` of pawn.c. An
entry of the list that was never written is `none`; reading it is a fault. -/
def broadcast_signal_to_pawns_body (pawn_list : List (Option pawn_t)) (type : Nat) (i : Nat)
    (out : List effect) : Option (List effect) :=
  match pawn_list[i]? with
  | some (some pawn) =>
    some (out ++ [effect.send pawn.mq_id { message_type := type, player_pseudo_name := 0 }])
  | _ => none

/-- Function `broadcast_signal_to_pawns` of pawn.c. -/
def broadcast_signal_to_pawns (pawn_list : List (Option pawn_t)) (pawn_count : Nat)
    (type : Nat) : Option (List effect) :=
  for_loop (broadcast_signal_to_pawns_body pawn_list type) pawn_count 0 []

/-! ## player.c: the player process -/

/-- Function `send_signal_message_to_master` of player.c. -/
def send_signal_message_to_master (game_board : board_t) (type : Nat) : List effect :=
  [effect.send game_board.coordinator_mq_id { message_type := type, player_pseudo_name := 0 }]

/-- Function `end_placement` of player.c. -/
def end_placement (game_board : board_t) (all_placed : Nat) : List effect :=
  let message_type := if all_placed = 1 then 4 else 3
  send_signal_message_to_master game_board message_type

/-- Function `ready_up` of player.c. -/
def ready_up (game_board : board_t) : List effect :=
  send_signal_message_to_master game_board 1

/-- Function `organization_completed` of player.c. -/
def organization_completed (game_board : board_t) : List effect :=
  send_signal_message_to_master game_board 6

/-- The body of the `for` loop of `destroy_pawns`. -/
def destroy_pawns_body (pawn_list : List (Option pawn_t)) (i : Nat) (out : List effect) :
    Option (List effect) :=
  match pawn_list[i]? with
  | some (some pawn) => some (out ++ [effect.close_message_queue pawn.mq_id])
  | _ => none

/-- Function `destroy_pawns` of player.c. -/
def destroy_pawns (pawn_list : List (Option pawn_t)) (pawn_count : Nat) : Option (List effect) :=
  match broadcast_signal_to_pawns pawn_list pawn_count 11 with
  | none => none
  | some out1 =>
    match for_loop (destroy_pawns_body pawn_list) pawn_count 0 [] with
    | none => none
    | some out2 => some (out1 ++ out2)

/-- The variables of a player process, the child branch of `spawn_players`:
`pawn_list` is the array `pawn_t pawn_list[pawn_count]`, whose entries hold
nothing until they are written. -/
structure player_proc where
  player_mq_id : Int
  pseudo_name : Nat
  pawn_count : Int
  max_pawn_moves : Nat
  remaining_pawns : Int
  pawn_list : List (Option pawn_t)
deriving DecidableEq, Repr

/-- The player process when it enters its `while (1)` loop. `pawn_count` is
the length of an array, `0 ≤ pawn_count`, so that `pawn_count - 1` does not
leave the range of `int`. -/
def player_start (player_mq_id : Int) (pseudo_name : Nat) (pawn_count : Int)
    (max_pawn_moves : Nat) : player_proc :=
  { player_mq_id := player_mq_id, pseudo_name := pseudo_name, pawn_count := pawn_count,
    max_pawn_moves := max_pawn_moves, remaining_pawns := pawn_count - 1,
    pawn_list := List.replicate pawn_count.toNat none }

/-- One round of the `while (1)` loop of the player process: the `switch` on
the message that `receive_message` returned. `pawn` is the record that
`spawn_pawn` returns in the parent if it is called (the queue and the process
of the new pawn; `generate_message_queue` and `fork` are taken to succeed).
The result is the new variables, the pawns forked, and the effects. -/
def player_handle_message (game_board : board_t) (pawn : pawn_t) (s : player_proc)
    (message : message_t) : Option (player_proc × List pawn_t × List effect) :=
  if message.message_type = 2 then
    if s.remaining_pawns ≥ 0 then
      if s.remaining_pawns.toNat < s.pawn_list.length then
        let s1 := { s with pawn_list := s.pawn_list.set s.remaining_pawns.toNat (some pawn) }
        let s1 := { s1 with remaining_pawns := s1.remaining_pawns - 1 }
        some (s1, [pawn], end_placement game_board 0)
      else none
    else some (s, [], end_placement game_board 1)
  else if message.message_type = 5 then
    some (s, [], organization_completed game_board)
  else if message.message_type = 7 then
    match broadcast_signal_to_pawns s.pawn_list (toU32 s.pawn_count) 8 with
    | none => none
    | some out => some (s, [], out)
  else if message.message_type = 9 then
    match broadcast_signal_to_pawns s.pawn_list (toU32 s.pawn_count) 9 with
    | none => none
    | some out => some (s, [], out)
  else if message.message_type = 11 then
    match destroy_pawns s.pawn_list (toU32 s.pawn_count) with
    | none => none
    | some out => some (s, [], out ++ [effect.exit 0])
  else if message.message_type = 12 then
    match broadcast_signal_to_pawns s.pawn_list (toU32 s.pawn_count) 12 with
    | none => none
    | some out => some (s, [], out)
  else some (s, [], [])

/-- The player process over the messages it receives, each with the record
`spawn_pawn` would return; the result lists, per message, the pawns forked and
the effects. Once a round has called `exit` the process is gone. -/
def player_run (game_board : board_t) :
    player_proc → List (pawn_t × message_t) →
      Option (player_proc × List (List pawn_t × List effect))
  | s, [] => some (s, [])
  | s, x :: xs =>
    match player_handle_message game_board x.1 s x.2 with
    | none => none
    | some (s1, pawns, out) =>
      if out.any is_exit then some (s1, [(pawns, out)])
      else
        match player_run game_board s1 xs with
        | none => none
        | some (s2, outs) => some (s2, (pawns, out) :: outs)

/-- The pawns a player holds: the written entries of `pawn_list`. -/
def held_pawns (s : player_proc) : List pawn_t :=
  s.pawn_list.filterMap id


/-- The variables of the player started by `player_start` with `M` pawns once
it has forked the pawns `spawned`, the newest first: the array is filled from
its last entry down. -/
def player_after (player_mq_id : Int) (pseudo_name M max_pawn_moves : Nat)
    (spawned : List pawn_t) : player_proc :=
  { player_mq_id := player_mq_id, pseudo_name := pseudo_name, pawn_count := (M : Int),
    max_pawn_moves := max_pawn_moves, remaining_pawns := (M : Int) - 1 - spawned.length,
    pawn_list := List.replicate (M - spawned.length) none ++ spawned.map some }


/-! ## The coordinator and the players together -/

/-- A message in a queue: the queue it was sent to, the queue of the process
that sent it (the process's identity here), and the message. -/
structure in_flight where
  dest : Int
  sender : Int
  msg : message_t
deriving DecidableEq, Repr

/-- The messages among the effects of a process, in the order sent. -/
def sends_of (sender : Int) : List effect → List in_flight
  | [] => []
  | effect.send mq_id msg :: out => ⟨mq_id, sender, msg⟩ :: sends_of sender out
  | _ :: out => sends_of sender out

/-- The state of the `for` loop of `spawn_players`: the coordinator's
`player_list`, the player processes forked so far, and the Ready messages
they send when they start. -/
structure spawn_players_state where
  player_list : List player_t
  children : List player_proc
  out : List in_flight
deriving DecidableEq, Repr

/-- The body of the `for` loop of `spawn_players`. `fresh` lists, per round,
the queue id returned by `generate_message_queue` and the process id returned
by `fork` (taken to succeed). The parent writes `player_list[i]`; the child
is the player process of `player_start`, which sends Ready at once. The
`char` `pseudo_name` is kept as a byte. -/
def spawn_players_body (game_board : board_t) (pawn_count : Int) (max_pawn_moves : Nat)
    (fresh : List (Int × Int)) (i : Nat) (st : spawn_players_state) :
    Option spawn_players_state :=
  match fresh[i]? with
  | none => none
  | some (player_mq_id, player_pid) =>
    let pseudo_name := (i + 65) % 256
    if i < st.player_list.length then
      let moves := (toU32 pawn_count * max_pawn_moves) % 4294967296
      some
        { player_list := st.player_list.set i
            ⟨player_mq_id, player_pid, pseudo_name, moves, moves, 0, 0⟩,
          children := st.children ++
            [player_start player_mq_id pseudo_name pawn_count max_pawn_moves],
          out := st.out ++ sends_of player_mq_id (ready_up game_board) }
    else none

/-- Function `spawn_players` of player.c. -/
def spawn_players (game_board : board_t) (player_list : List player_t) (player_count : Nat)
    (pawn_count : Int) (max_pawn_moves : Nat) (fresh : List (Int × Int)) :
    Option spawn_players_state :=
  for_loop (spawn_players_body game_board pawn_count max_pawn_moves fresh) player_count 0
    { player_list := player_list, children := [], out := [] }

/-- The coordinator and the player processes, with the messages sent and not
yet received, oldest first. `exited` lists the queues of the processes that
have called `exit`, `handled` the messages the coordinator has received, and
`forked` the pawns forked, each with the queue of the player that forked it.
The pawn processes are not part of the state: they appear as events. -/
structure system where
  coordinator : coordinator_t
  players : List player_proc
  queue : List in_flight
  exited : List Int
  handled : List message_t
  forked : List (Int × pawn_t)
deriving DecidableEq, Repr

/-- What happens next in the system. `deliver`: the oldest message is
received by the process that reads its queue, at time `now`; `pawn` is what
`spawn_pawn` returns if it is called. `timeout`: the coordinator's timer
expires. `pawn_start`: a pawn that was forked places itself, which rewrites
cells of the shared board. `pawn_move`: a pawn runs one round of its moving
loop, which rewrites cells and sends PawnMoved and, after a capture,
FlagCaptured to the coordinator. -/
inductive sys_event where
  | deliver (now : Int) (pawn : pawn_t)
  | timeout (now : Int)
  | pawn_start (cells : List cell_t)
  | pawn_move (pawn_mq_id : Int) (cells : List cell_t) (player_pseudo_name : Nat)
      (has_conquered_flag : Nat)
deriving DecidableEq, Repr

/-- The index of the first player process that reads queue `mq_id`. -/
def find_player : List player_proc → Int → Option Nat
  | [], _ => none
  | p :: ps, mq_id =>
    if p.player_mq_id = mq_id then some 0
    else
      match find_player ps mq_id with
      | none => none
      | some i => some (i + 1)

/-- The queues of the processes that have exited, after a process reading
`mq_id` has produced the effects `out`. -/
def exited_after (exited : List Int) (mq_id : Int) (out : List effect) : List Int :=
  if out.any is_exit then mq_id :: exited else exited

/-- One event of the system. A message to a process that has exited, or to a
queue that neither the coordinator nor a player reads (a pawn's queue), is
taken out of the queue and has no effect here. A message to the coordinator's
queue goes through `handle_message`, a message to a player's queue through
`player_handle_message`; what they send is put at the end of the queue. -/
def system_step (cfg : config) (sys : system) : sys_event → Option system
  | sys_event.deliver now pawn =>
    match sys.queue with
    | [] => some sys
    | m :: rest =>
      if m.dest ∈ sys.exited then some { sys with queue := rest }
      else if m.dest = sys.coordinator.game_board.coordinator_mq_id then
        match handle_message cfg now sys.coordinator m.msg with
        | none => none
        | some (c, out) =>
          some { sys with
            coordinator := c, queue := rest ++ sends_of m.dest out,
            exited := exited_after sys.exited m.dest out,
            handled := sys.handled ++ [m.msg] }
      else
        match find_player sys.players m.dest with
        | none => some { sys with queue := rest }
        | some i =>
          match sys.players[i]? with
          | none => none
          | some p =>
            match player_handle_message sys.coordinator.game_board pawn p m.msg with
            | none => none
            | some (p1, pawns, out) =>
              some { sys with
                players := sys.players.set i p1, queue := rest ++ sends_of m.dest out,
                exited := exited_after sys.exited m.dest out,
                forked := sys.forked ++ pawns.map (fun w => (m.dest, w)) }
  | sys_event.timeout now =>
    if sys.coordinator.game_board.coordinator_mq_id ∈ sys.exited then some sys
    else
      match signal_handler cfg now sys.coordinator SIGALRM with
      | none => none
      | some (c, out) =>
        some { sys with
          coordinator := c,
          queue := sys.queue ++ sends_of sys.coordinator.game_board.coordinator_mq_id out,
          exited := exited_after sys.exited sys.coordinator.game_board.coordinator_mq_id out }
  | sys_event.pawn_start cells =>
    some { sys with
      coordinator := { sys.coordinator with
        game_board := { sys.coordinator.game_board with cells := cells } } }
  | sys_event.pawn_move pawn_mq_id cells player_pseudo_name has_conquered_flag =>
    let game_board := { sys.coordinator.game_board with cells := cells }
    some { sys with
      coordinator := { sys.coordinator with game_board := game_board },
      queue := sys.queue ++
        sends_of pawn_mq_id (notify_movement game_board player_pseudo_name ++
          (if has_conquered_flag = 1 then signal_achievement game_board player_pseudo_name
           else [])) }

/-- The system over a list of events. -/
def system_run (cfg : config) : system → List sys_event → Option system
  | sys, [] => some sys
  | sys, ev :: evs =>
    match system_step cfg sys ev with
    | none => none
    | some sys1 => system_run cfg sys1 evs

/-- The event is the delivery of a message. -/
def is_deliver : sys_event → Bool
  | sys_event.deliver _ _ => true
  | _ => false

/-- The event is a pawn placing itself. -/
def is_pawn_start : sys_event → Bool
  | sys_event.pawn_start _ => true
  | _ => false

/-- The system when `main` has called `spawn_players` from the coordinator
state `c` (whose `player_list` is the array of `SO_NUM_G` entries): the
players have started and their Ready messages are in the coordinator's
queue. -/
def system_start (cfg : config) (c : coordinator_t) (fresh : List (Int × Int)) :
    Option system :=
  match spawn_players c.game_board c.player_list cfg.SO_NUM_G (cfg.SO_NUM_P : Int)
      cfg.SO_N_MOVES fresh with
  | none => none
  | some st =>
    some
      { coordinator := { c with player_list := st.player_list },
        players := st.children,
        queue := st.out,
        exited := [], handled := [], forked := [] }

/-- The pawns that the player reading `mq_id` has forked. -/
def forked_by (sys : system) (mq_id : Int) : List pawn_t :=
  (sys.forked.filter (fun f => decide (f.1 = mq_id))).map (fun f => f.2)

/-- The scenario before `spawn_players`: two entries in `player_list`, the
3 by 3 board with the coordinator's queue 77. -/
def scenario_before_spawn : coordinator_t :=
  { scenario_state with
    player_list := [⟨0, 0, 0, 0, 0, 0, 0⟩, ⟨0, 0, 0, 0, 0, 0, 0⟩],
    game_board := { empty_board_3x3 with coordinator_mq_id := 77 } }

/-- Where the placement protocol stands: `ready k`, the coordinator has
received `k` Ready messages; `allow q i`, AllowPlacement is on its way to
player `i`, every player has forked `q` pawns and the players before `i` one
more; `placed q i`, the PawnPlaced of player `i` is on its way; `all_placed`,
the AllPawnsPlaced of player 0 is on its way. -/
inductive placing_phase where
  | ready (k : Nat)
  | allow (q i : Nat)
  | placed (q i : Nat)
  | all_placed
deriving DecidableEq, Repr

/-- The phases that occur with `N` players of `M` pawns. -/
def phase_valid (N M : Nat) : placing_phase → Prop
  | placing_phase.ready k => k < N
  | placing_phase.allow q i => i < N ∧ (q < M ∨ (q = M ∧ i = 0))
  | placing_phase.placed q i => i < N ∧ q < M
  | placing_phase.all_placed => True

/-- The phase after the next delivery. -/
def phase_next (N M : Nat) : placing_phase → placing_phase
  | placing_phase.ready k =>
    if k + 1 < N then placing_phase.ready (k + 1) else placing_phase.allow 0 0
  | placing_phase.allow q i =>
    if q < M then placing_phase.placed q i else placing_phase.all_placed
  | placing_phase.placed q i =>
    if i + 1 < N then placing_phase.allow q (i + 1) else placing_phase.allow (q + 1) 0
  | placing_phase.all_placed => placing_phase.all_placed

/-- The number of deliveries that lead to the phase. -/
def phase_steps (N M : Nat) : placing_phase → Nat
  | placing_phase.ready k => k
  | placing_phase.allow q i => N + 2 * (q * N + i)
  | placing_phase.placed q i => N + 2 * (q * N + i) + 1
  | placing_phase.all_placed => N + 2 * (M * N) + 1

/-- What holds in every phase of the placement, for players reading the
queues `ids` and the coordinator reading `cq`: nobody has exited, the
coordinator knows the players' queues, each player process is the one
started by `spawn_players` after the pawns it has forked, and the coordinator
has received Ready and PawnPlaced messages only. -/
structure placing_inv (cfg : config) (ids : List Int) (cq : Int) (sys : system) : Prop where
  exited_nil : sys.exited = []
  queue_id : sys.coordinator.game_board.coordinator_mq_id = cq
  list_ids : sys.coordinator.player_list.map (fun p => p.mq_id) = ids
  players_len : sys.players.length = ids.length
  players_get : ∀ (j : Nat) (mq : Int), ids[j]? = some mq →
    sys.players[j]? = some (player_after mq ((j + 65) % 256) cfg.SO_NUM_P cfg.SO_N_MOVES
      (forked_by sys mq).reverse)
  forked_ids : ∀ f ∈ sys.forked, f.1 ∈ ids
  handled_types : ∀ m ∈ sys.handled, m.message_type = 1 ∨ m.message_type = 3

/-- The system is in the given phase. -/
def phase_holds (cfg : config) (ids : List Int) (cq : Int) (sys : system) :
    placing_phase → Prop
  | placing_phase.ready k =>
    placing_inv cfg ids cq sys ∧ sys.coordinator.ready_players = k ∧
    sys.queue = (ids.drop k).map (fun mq => ⟨cq, mq, ⟨1, 0⟩⟩) ∧ sys.forked = []
  | placing_phase.allow q i =>
    placing_inv cfg ids cq sys ∧ sys.coordinator.current_placing_player = i ∧
    (∃ mq, ids[i]? = some mq ∧ sys.queue = [⟨mq, cq, ⟨2, 0⟩⟩]) ∧
    sys.forked.length = q * ids.length + i ∧
    ∀ (j : Nat) (mq : Int), ids[j]? = some mq →
      (forked_by sys mq).length = q + (if j < i then 1 else 0)
  | placing_phase.placed q i =>
    placing_inv cfg ids cq sys ∧ sys.coordinator.current_placing_player = i ∧
    (∃ mq, ids[i]? = some mq ∧ sys.queue = [⟨cq, mq, ⟨3, 0⟩⟩]) ∧
    sys.forked.length = q * ids.length + i + 1 ∧
    ∀ (j : Nat) (mq : Int), ids[j]? = some mq →
      (forked_by sys mq).length = q + (if j ≤ i then 1 else 0)
  | placing_phase.all_placed =>
    placing_inv cfg ids cq sys ∧
    (∃ mq, ids[0]? = some mq ∧ sys.queue = [⟨cq, mq, ⟨4, 0⟩⟩]) ∧
    sys.forked.length = cfg.SO_NUM_P * ids.length ∧
    ∀ (j : Nat) (mq : Int), ids[j]? = some mq → (forked_by sys mq).length = cfg.SO_NUM_P


/-- A pawn of player 65 at (0, 0) with two moves left, next to the pawn of
player 66 at (0, 1), on the 3 by 3 board; the draws are down, then right. -/
def blocked_pawn : pawn_proc :=
  { available_moves := 2, max_moves := 2, player_pseudo_name := 65, position := ⟨0, 0, 0⟩,
    local_game_board := ⟨3, 3, 77, 0, 0, 1,
      [⟨65, 0, 2, 0⟩, ⟨66, 0, 2, 0⟩, ⟨0, 0, 0, 0⟩, ⟨0, 0, 0, 0⟩, ⟨0, 0, 0, 0⟩,
       ⟨0, 0, 0, 0⟩, ⟨0, 0, 0, 0⟩, ⟨0, 0, 0, 0⟩, ⟨0, 0, 0, 0⟩]⟩,
    draws := [3, 2] }

/-- One step of a pawn on the shared board: a call of `place_pawn`, a call of
`move_pawn` that no other step interleaves with, or, for a call of `move_pawn`
that other steps interleave with, its part under the semaphore of the old
cell (`vacate`), whose `place_pawn` is then a step of its own. -/
inductive board_op where
  | place (position : coords_t) (player_pseudo_name : Nat)
  | move (old_position new_position : coords_t) (player_pseudo_name : Nat)
  | vacate (old_position : coords_t)
deriving DecidableEq, Repr

/-- The call made on the board; the result is the new board and the value
returned, `has_conquered_flag`. -/
def apply_op (game_board : board_t) : board_op → Option (board_t × Nat)
  | board_op.place position name => place_pawn game_board position name
  | board_op.move old_position new_position name =>
    move_pawn game_board old_position new_position name
  | board_op.vacate old_position =>
    match game_board.cells[old_position.index]? with
    | none => none
    | some c =>
      some (set_cell game_board old_position.index
        { c with occupant_type := 0, player_pseudo_name := 0 }, 0)

/-- The index of the cell a step puts the pawn on (for `vacate`, which puts
no pawn, the cell it clears). -/
def op_target : board_op → Nat
  | board_op.place position _ => position.index
  | board_op.move _ new_position _ => new_position.index
  | board_op.vacate old_position => old_position.index

/-- A sequence of steps, one after the other (each cell is changed under its
semaphore); the result is the last board and the indices of the cells where a
step returned 1, in order. -/
def run_ops : board_t → List board_op → Option (board_t × List Nat)
  | game_board, [] => some (game_board, [])
  | game_board, op :: ops =>
    match apply_op game_board op with
    | none => none
    | some (b1, r) =>
      match run_ops b1 ops with
      | none => none
      | some (b2, captured) =>
        some (b2, if r = 1 then op_target op :: captured else captured)


/-- A pawn of player 65 on the last column of the 3 by 3 board, at (2, 1),
with three moves left; the first draw is 2, to the right. -/
def edge_pawn : pawn_proc :=
  { available_moves := 3, max_moves := 3, player_pseudo_name := 65, position := ⟨2, 1, 7⟩,
    local_game_board := ⟨3, 3, 77, 0, 0, 1,
      [⟨0, 0, 0, 0⟩, ⟨0, 0, 0, 0⟩, ⟨0, 0, 0, 0⟩, ⟨0, 0, 0, 0⟩, ⟨0, 0, 0, 0⟩,
       ⟨0, 0, 0, 0⟩, ⟨0, 0, 0, 0⟩, ⟨65, 0, 2, 0⟩, ⟨0, 0, 0, 0⟩]⟩,
    draws := [2] }


/-- The state `last_capture_state` with the `global_score` of player 65 at
4294967295, the largest `unsigned int`. -/
def full_score_state : coordinator_t :=
  { last_capture_state with
    player_list := [⟨101, 1001, 65, 0, 1, 0, 4294967295⟩, ⟨102, 1002, 66, 1, 1, 0, 0⟩] }


/-! ## Index arithmetic -/

theorem toU32_of_nonneg (i : Int) (h0 : 0 ≤ i) (h1 : i < 4294967296) : (toU32 i : Int) = i := by
  unfold toU32; omega

theorem index_lt_cells (w h : Int) (x y : Nat) (hh : 0 < h)
    (hx : (x : Int) < w) (hy : (y : Int) < h) : (x : Int) * h + y < w * h := by
  have h1 : ((x : Int) + 1) * h ≤ w * h := by
    apply mul_le_mul_of_nonneg_right <;> omega
  have h2 : ((x : Int) + 1) * h = x * h + h := by ring
  omega

theorem height_lt_of_cells_lt (w h n : Int) (hw : 0 < w) (hh : 0 < h) (hlt : w * h < n) :
    h < n := by
  have h1 : 1 * h ≤ w * h := by
    apply mul_le_mul_of_nonneg_right <;> omega
  omega

theorem compute_index_eq (b : board_t) (c : coords_t)
    (hw : 0 < b.width) (hh : 0 < b.height) (hlt : b.width * b.height < 4294967296)
    (hx : (c.x : Int) < b.width) (hy : (c.y : Int) < b.height) :
    (compute_index b c : Int) = c.x * b.height + c.y := by
  have h1 := height_lt_of_cells_lt b.width b.height _ hw hh hlt
  have h2 := toU32_of_nonneg b.height (by omega) h1
  have h3 := index_lt_cells b.width b.height c.x c.y hh hx hy
  unfold compute_index
  push_cast
  rw [h2]
  have h4 : (0 : Int) ≤ c.x * b.height := by positivity
  omega

/-- C1: on a board with positive width and height and fewer than 2^32 cells,
`compute_index` of coordinates inside the board is `x * height + y`, agrees
with `compute_index_from_params`, is below `width * height`, gives `x` back as
`index / height` and `y` as `index % height`, and no other coordinates inside
the board have the same index. -/
theorem compute_index_injective_with_inverse (b : board_t) (c : coords_t)
    (hw : 0 < b.width) (hh : 0 < b.height) (hlt : b.width * b.height < 4294967296)
    (hx : (c.x : Int) < b.width) (hy : (c.y : Int) < b.height) :
    (compute_index b c : Int) = c.x * b.height + c.y ∧
    compute_index_from_params b c.x c.y = compute_index b c ∧
    (compute_index b c : Int) < b.width * b.height ∧
    (compute_index b c : Int) / b.height = c.x ∧
    (compute_index b c : Int) % b.height = c.y ∧
    ∀ d : coords_t, (d.x : Int) < b.width → (d.y : Int) < b.height →
      compute_index b d = compute_index b c → d.x = c.x ∧ d.y = c.y := by
  have hc := compute_index_eq b c hw hh hlt hx hy
  have hdiv : ∀ x y : Nat, (y : Int) < b.height →
      ((x : Int) * b.height + y) / b.height = x ∧ ((x : Int) * b.height + y) % b.height = y := by
    intro x y hy
    constructor
    · rw [add_comm, Int.add_mul_ediv_right _ _ (by omega), Int.ediv_eq_zero_of_lt (by omega) hy]
      simp
    · rw [add_comm, Int.add_mul_emod_self, Int.emod_eq_of_lt (by omega) hy]
  refine ⟨hc, rfl, ?_, ?_, ?_, ?_⟩
  · rw [hc]; exact index_lt_cells _ _ _ _ hh hx hy
  · rw [hc]; exact (hdiv c.x c.y hy).1
  · rw [hc]; exact (hdiv c.x c.y hy).2
  · intro d hdx hdy hEq
    have hd := compute_index_eq b d hw hh hlt hdx hdy
    have hEq2 : (d.x : Int) * b.height + d.y = c.x * b.height + c.y := by
      rw [← hd, ← hc, hEq]
    have e1 := (hdiv d.x d.y hdy).1
    have e2 := (hdiv d.x d.y hdy).2
    rw [hEq2] at e1 e2
    rw [(hdiv c.x c.y hy).1] at e1
    rw [(hdiv c.x c.y hy).2] at e2
    constructor <;> omega

/-- C1 at the cell (2, 1) of a 3 by 4 board. -/
theorem compute_index_injective_with_inverse_witness :
    (compute_index ⟨3, 4, 0, 0, 0, 0, []⟩ ⟨2, 1, 0⟩ : Int) = (2 : Nat) * 4 + (1 : Nat) ∧
    compute_index ⟨3, 4, 0, 0, 0, 0, []⟩ ⟨2, 1, 0⟩ = 9 :=
  ⟨(compute_index_injective_with_inverse ⟨3, 4, 0, 0, 0, 0, []⟩ ⟨2, 1, 0⟩
    (by decide) (by decide) (by decide) (by decide) (by decide)).1, by decide⟩

/-! ## Single-cell operations -/

theorem cells_set_cell (b : board_t) (i : Nat) (c : cell_t) :
    (set_cell b i c).cells = b.cells.set i c := rfl

theorem occupant_at_set_cell_self (b : board_t) (i : Nat) (c : cell_t)
    (h : i < b.cells.length) : occupant_at (set_cell b i c) i = some c.occupant_type := by
  simp [occupant_at, set_cell, List.getElem?_set_self h]

theorem owner_at_set_cell_self (b : board_t) (i : Nat) (c : cell_t)
    (h : i < b.cells.length) : owner_at (set_cell b i c) i = some c.player_pseudo_name := by
  simp [owner_at, set_cell, List.getElem?_set_self h]

theorem occupant_at_set_cell_ne (b : board_t) (i j : Nat) (c : cell_t) (h : i ≠ j) :
    occupant_at (set_cell b i c) j = occupant_at b j := by
  simp [occupant_at, set_cell, List.getElem?_set_ne h]

theorem owner_at_set_cell_ne (b : board_t) (i j : Nat) (c : cell_t) (h : i ≠ j) :
    owner_at (set_cell b i c) j = owner_at b j := by
  simp [owner_at, set_cell, List.getElem?_set_ne h]

theorem exists_cell_of_lt (b : board_t) (i : Nat) (h : i < b.cells.length) :
    ∃ c, b.cells[i]? = some c := ⟨b.cells[i], List.getElem?_eq_getElem h⟩

theorem place_pawn_empty (b : board_t) (position : coords_t) (name : Nat) (c : cell_t)
    (hc : b.cells[position.index]? = some c) (h0 : c.occupant_type = 0) :
    place_pawn b position name = some (set_cell b position.index
      { c with occupant_type := 2, player_pseudo_name := name }, 0) := by
  simp [place_pawn, hc, h0]

theorem place_pawn_flag (b : board_t) (position : coords_t) (name : Nat) (c : cell_t)
    (hc : b.cells[position.index]? = some c) (h1 : c.occupant_type = 1) :
    place_pawn b position name = some (set_cell b position.index
      { c with occupant_type := 2, player_pseudo_name := name }, 1) := by
  simp [place_pawn, hc, h1]

theorem place_pawn_other (b : board_t) (position : coords_t) (name : Nat) (c : cell_t)
    (hc : b.cells[position.index]? = some c) (h0 : c.occupant_type ≠ 0)
    (h1 : c.occupant_type ≠ 1) : place_pawn b position name = some (b, 0) := by
  simp [place_pawn, hc, h0, h1]

/-- C2: `place_pawn` at a position inside the board returns, and by the
occupant of the cell: on an Empty cell the cell becomes a Pawn of the caller
and the result is 0; on a Flag cell the cell becomes a Pawn of the caller and
the result is 1; on a Pawn cell the board is unchanged and the result is 0. -/
theorem place_pawn_by_occupant (b : board_t) (position : coords_t) (name : Nat)
    (hin : position.index < b.cells.length) :
    ∃ b1 r, place_pawn b position name = some (b1, r) ∧
      (occupant_at b position.index = some 0 →
        r = 0 ∧ occupant_at b1 position.index = some 2 ∧
          owner_at b1 position.index = some name) ∧
      (occupant_at b position.index = some 1 →
        r = 1 ∧ occupant_at b1 position.index = some 2 ∧
          owner_at b1 position.index = some name) ∧
      (occupant_at b position.index = some 2 → r = 0 ∧ b1 = b) := by
  obtain ⟨c, hc⟩ := exists_cell_of_lt b position.index hin
  have hocc : occupant_at b position.index = some c.occupant_type := by
    simp [occupant_at, hc]
  rw [hocc]
  by_cases h0 : c.occupant_type = 0
  · refine ⟨_, _, place_pawn_empty b position name c hc h0, ?_, ?_, ?_⟩
    · intro _
      exact ⟨rfl, occupant_at_set_cell_self _ _ _ hin, owner_at_set_cell_self _ _ _ hin⟩
    · intro h; simp [h0] at h
    · intro h; simp [h0] at h
  · by_cases h1 : c.occupant_type = 1
    · refine ⟨_, _, place_pawn_flag b position name c hc h1, ?_, ?_, ?_⟩
      · intro h; simp [h1] at h
      · intro _
        exact ⟨rfl, occupant_at_set_cell_self _ _ _ hin, owner_at_set_cell_self _ _ _ hin⟩
      · intro h; simp [h1] at h
    · refine ⟨_, _, place_pawn_other b position name c hc h0 h1, ?_, ?_, ?_⟩
      · intro h; simp at h; exact absurd h h0
      · intro h; simp at h; exact absurd h h1
      · intro _; exact ⟨rfl, rfl⟩

/-- C2 on a board of three cells, Empty, Flag and Pawn, at the Flag cell. -/
theorem place_pawn_by_occupant_witness :
    ∃ b1 r, place_pawn ⟨1, 3, 0, 0, 0, 0, [⟨0, 0, 0, 0⟩, ⟨0, 4, 1, 0⟩, ⟨66, 0, 2, 0⟩]⟩
        ⟨0, 1, 1⟩ 65 = some (b1, r) ∧
      (occupant_at ⟨1, 3, 0, 0, 0, 0, [⟨0, 0, 0, 0⟩, ⟨0, 4, 1, 0⟩, ⟨66, 0, 2, 0⟩]⟩ 1 = some 0 →
        r = 0 ∧ occupant_at b1 1 = some 2 ∧ owner_at b1 1 = some 65) ∧
      (occupant_at ⟨1, 3, 0, 0, 0, 0, [⟨0, 0, 0, 0⟩, ⟨0, 4, 1, 0⟩, ⟨66, 0, 2, 0⟩]⟩ 1 = some 1 →
        r = 1 ∧ occupant_at b1 1 = some 2 ∧ owner_at b1 1 = some 65) ∧
      (occupant_at ⟨1, 3, 0, 0, 0, 0, [⟨0, 0, 0, 0⟩, ⟨0, 4, 1, 0⟩, ⟨66, 0, 2, 0⟩]⟩ 1 = some 2 →
        r = 0 ∧ b1 = ⟨1, 3, 0, 0, 0, 0, [⟨0, 0, 0, 0⟩, ⟨0, 4, 1, 0⟩, ⟨66, 0, 2, 0⟩]⟩) :=
  place_pawn_by_occupant ⟨1, 3, 0, 0, 0, 0, [⟨0, 0, 0, 0⟩, ⟨0, 4, 1, 0⟩, ⟨66, 0, 2, 0⟩]⟩
    ⟨0, 1, 1⟩ 65 (by decide)

/-- C3: `move_pawn` to a position whose cell holds a Pawn returns 0 and
leaves the board as it was, whatever the old position is. -/
theorem move_pawn_onto_pawn (b : board_t) (old_position new_position : coords_t) (name : Nat)
    (hpawn : occupant_at b new_position.index = some 2) :
    move_pawn b old_position new_position name = some (b, 0) := by
  unfold occupant_at at hpawn
  cases hc : b.cells[new_position.index]? with
  | none => rw [hc] at hpawn; simp at hpawn
  | some c =>
    rw [hc] at hpawn
    simp only [Option.map_some', Option.some.injEq] at hpawn
    simp [move_pawn, is_allowed_position, hc, hpawn]

/-- C3 on a board with two pawns: moving the pawn of cell 0 onto cell 1. -/
theorem move_pawn_onto_pawn_witness :
    occupant_at ⟨1, 2, 0, 0, 0, 0, [⟨65, 0, 2, 0⟩, ⟨66, 0, 2, 0⟩]⟩ 1 = some 2 ∧
    move_pawn ⟨1, 2, 0, 0, 0, 0, [⟨65, 0, 2, 0⟩, ⟨66, 0, 2, 0⟩]⟩ ⟨0, 0, 0⟩ ⟨0, 1, 1⟩ 65 =
      some (⟨1, 2, 0, 0, 0, 0, [⟨65, 0, 2, 0⟩, ⟨66, 0, 2, 0⟩]⟩, 0) :=
  ⟨by decide, move_pawn_onto_pawn _ _ _ _ (by decide)⟩

theorem is_allowed_position_iff (b : board_t) (position : coords_t)
    (hin : position.index < b.cells.length) :
    is_allowed_position b position = some 1 ↔
      (occupant_at b position.index = some 0 ∨ occupant_at b position.index = some 1) := by
  obtain ⟨c, hc⟩ := exists_cell_of_lt b position.index hin
  simp only [is_allowed_position, occupant_at, hc, Option.map_some', Option.some.injEq]
  constructor
  · intro h
    by_cases hle : c.occupant_type ≤ 1
    · omega
    · simp [hle] at h
  · intro h
    have hle : c.occupant_type ≤ 1 := by omega
    simp [hle]

/-- C4: for a new position inside the board, `is_allowed_position` returns 1
exactly when the cell is Empty or Flag; and then, for an old position inside
the board on another cell, `move_pawn` returns, leaves the old cell Empty
with owner 0 and the new cell a Pawn of the caller, and its result is 1 if
the new cell held a Flag before the call and 0 if not. -/
theorem move_pawn_to_allowed (b : board_t) (old_position new_position : coords_t) (name : Nat)
    (hold : old_position.index < b.cells.length)
    (hnew : new_position.index < b.cells.length)
    (hne : old_position.index ≠ new_position.index) :
    (is_allowed_position b new_position = some 1 ↔
      (occupant_at b new_position.index = some 0 ∨
        occupant_at b new_position.index = some 1)) ∧
    ((occupant_at b new_position.index = some 0 ∨
        occupant_at b new_position.index = some 1) →
      ∃ b1 r, move_pawn b old_position new_position name = some (b1, r) ∧
        occupant_at b1 old_position.index = some 0 ∧
        owner_at b1 old_position.index = some 0 ∧
        occupant_at b1 new_position.index = some 2 ∧
        owner_at b1 new_position.index = some name ∧
        (r = 1 ↔ occupant_at b new_position.index = some 1) ∧
        (r = 0 ↔ occupant_at b new_position.index = some 0)) := by
  refine ⟨is_allowed_position_iff b new_position hnew, ?_⟩
  intro hocc
  have hallow := (is_allowed_position_iff b new_position hnew).2 hocc
  obtain ⟨co, hco⟩ := exists_cell_of_lt b old_position.index hold
  obtain ⟨cn, hcn⟩ := exists_cell_of_lt b new_position.index hnew
  have hoccn : occupant_at b new_position.index = some cn.occupant_type := by
    simp [occupant_at, hcn]
  rw [hoccn] at hocc ⊢
  simp only [Option.some.injEq] at hocc ⊢
  -- the board after the old cell has been cleared
  have hcn1 : (set_cell b old_position.index
      { co with occupant_type := 0, player_pseudo_name := 0 }).cells[new_position.index]? =
      some cn := by
    rw [cells_set_cell, List.getElem?_set_ne hne]; exact hcn
  have hlen : new_position.index < (set_cell b old_position.index
      { co with occupant_type := 0, player_pseudo_name := 0 }).cells.length := by
    rw [cells_set_cell, List.length_set]; exact hnew
  have hmove : move_pawn b old_position new_position name =
      place_pawn (set_cell b old_position.index
        { co with occupant_type := 0, player_pseudo_name := 0 }) new_position name := by
    simp [move_pawn, hallow, hco]
  have hne1 : new_position.index ≠ old_position.index := fun h => hne h.symm
  have hold_occ : ∀ c1 : cell_t, occupant_at (set_cell (set_cell b old_position.index
      { co with occupant_type := 0, player_pseudo_name := 0 }) new_position.index c1)
      old_position.index = some 0 := by
    intro c1
    rw [occupant_at_set_cell_ne _ _ _ _ hne1, occupant_at_set_cell_self _ _ _ hold]
  have hold_own : ∀ c1 : cell_t, owner_at (set_cell (set_cell b old_position.index
      { co with occupant_type := 0, player_pseudo_name := 0 }) new_position.index c1)
      old_position.index = some 0 := by
    intro c1
    rw [owner_at_set_cell_ne _ _ _ _ hne1, owner_at_set_cell_self _ _ _ hold]
  rw [hmove]
  rcases hocc with h0 | h1
  · refine ⟨_, _, place_pawn_empty _ new_position name cn hcn1 h0, hold_occ _, hold_own _,
      occupant_at_set_cell_self _ _ _ hlen, owner_at_set_cell_self _ _ _ hlen, ?_, ?_⟩
    · simp [h0]
    · simp [h0]
  · refine ⟨_, _, place_pawn_flag _ new_position name cn hcn1 h1, hold_occ _, hold_own _,
      occupant_at_set_cell_self _ _ _ hlen, owner_at_set_cell_self _ _ _ hlen, ?_, ?_⟩
    · simp [h1]
    · simp [h1]

/-- C4 on a board with a pawn at cell 0 and a flag at cell 1. -/
theorem move_pawn_to_allowed_witness :
    (occupant_at ⟨1, 2, 0, 0, 0, 0, [⟨65, 0, 2, 0⟩, ⟨0, 3, 1, 0⟩]⟩ 1 = some 0 ∨
      occupant_at ⟨1, 2, 0, 0, 0, 0, [⟨65, 0, 2, 0⟩, ⟨0, 3, 1, 0⟩]⟩ 1 = some 1) ∧
    ∃ b1 r, move_pawn ⟨1, 2, 0, 0, 0, 0, [⟨65, 0, 2, 0⟩, ⟨0, 3, 1, 0⟩]⟩
        ⟨0, 0, 0⟩ ⟨0, 1, 1⟩ 65 = some (b1, r) ∧
      occupant_at b1 0 = some 0 ∧ owner_at b1 0 = some 0 ∧
      occupant_at b1 1 = some 2 ∧ owner_at b1 1 = some 65 ∧
      (r = 1 ↔ occupant_at ⟨1, 2, 0, 0, 0, 0, [⟨65, 0, 2, 0⟩, ⟨0, 3, 1, 0⟩]⟩ 1 = some 1) ∧
      (r = 0 ↔ occupant_at ⟨1, 2, 0, 0, 0, 0, [⟨65, 0, 2, 0⟩, ⟨0, 3, 1, 0⟩]⟩ 1 = some 0) :=
  ⟨by decide,
    (move_pawn_to_allowed ⟨1, 2, 0, 0, 0, 0, [⟨65, 0, 2, 0⟩, ⟨0, 3, 1, 0⟩]⟩
      ⟨0, 0, 0⟩ ⟨0, 1, 1⟩ 65 (by decide) (by decide) (by decide)).2 (by decide)⟩

/-! ## Loops -/

theorem for_loop_invariant {σ : Type} (body : Nat → σ → Option σ) (P : Nat → σ → Prop)
    (hstep : ∀ i s s1, P i s → body i s = some s1 → P (i + 1) s1) :
    ∀ k i s s1, P i s → for_loop body k i s = some s1 → P (i + k) s1 := by
  intro k
  induction k with
  | zero =>
    intro i s s1 hP h
    simp only [for_loop, Option.some.injEq] at h
    subst h
    simpa using hP
  | succ k ih =>
    intro i s s1 hP h
    unfold for_loop at h
    cases hb : body i s with
    | none => rw [hb] at h; simp at h
    | some s2 =>
      rw [hb] at h
      have := ih (i + 1) s2 s1 (hstep i s s2 hP hb) h
      have e : i + 1 + k = i + (k + 1) := by omega
      rw [e] at this
      exact this

theorem for_loop_total {σ : Type} (body : Nat → σ → Option σ) (P : Nat → σ → Prop) (n : Nat)
    (hstep : ∀ i s, i < n → P i s → ∃ s1, body i s = some s1 ∧ P (i + 1) s1) :
    ∀ k i s, i + k ≤ n → P i s → ∃ s1, for_loop body k i s = some s1 ∧ P (i + k) s1 := by
  intro k
  induction k with
  | zero =>
    intro i s _ hP
    exact ⟨s, rfl, by simpa using hP⟩
  | succ k ih =>
    intro i s hle hP
    obtain ⟨s2, hb, hP2⟩ := hstep i s (by omega) hP
    obtain ⟨s1, hl, hP1⟩ := ih (i + 1) s2 (by omega) hP2
    refine ⟨s1, ?_, ?_⟩
    · unfold for_loop; rw [hb]; exact hl
    · have e : i + 1 + k = i + (k + 1) := by omega
      rw [e] at hP1
      exact hP1

/-! ## Flag spawning -/

theorem get_random_position_cell (b : board_t) (allow : Nat) :
    ∀ (n : Nat) (draws : List Nat), draws.length ≤ n → ∀ (pos : coords_t) (rest : List Nat),
      get_random_position b allow draws = some (pos, rest) →
      ∃ c, b.cells[pos.index]? = some c ∧
        c.occupant_type ≤ (if allow = 1 then 1 else 0) := by
  intro n
  induction n with
  | zero =>
    intro draws hlen pos rest h
    cases draws with
    | nil => simp [get_random_position] at h
    | cons a t => simp at hlen
  | succ n ih =>
    intro draws hlen pos rest h
    match draws, hlen, h with
    | [], _, h => simp [get_random_position] at h
    | [_], _, h => simp [get_random_position] at h
    | r1 :: r2 :: t, hlen, h =>
      simp only [get_random_position] at h
      split at h
      · simp at h
      · split at h
        · simp at h
        · rename_i c hc
          by_cases hgt : c.occupant_type > (if allow = 1 then 1 else 0)
          · rw [if_pos hgt] at h
            exact ih t (by simp at hlen; omega) pos rest h
          · rw [if_neg hgt] at h
            simp only [Option.some.injEq, Prod.mk.injEq] at h
            obtain ⟨hpos, _⟩ := h
            subst hpos
            exact ⟨c, hc, by omega⟩

theorem spawn_flags_body_places (b0 : board_t) (i : Nat) (s s1 : spawn_state)
    (placed : List Nat) (hinv : flags_placed b0 s.game_board placed)
    (hb : spawn_flags_body i s = some s1) :
    ∃ p, flags_placed b0 s1.game_board (p :: placed) := by
  obtain ⟨hlen, hnd, hpl, hfr⟩ := hinv
  unfold spawn_flags_body at hb
  split at hb
  · simp at hb
  · rename_i r rest hdraws
    split at hb
    · simp at hb
    · split at hb
      · simp at hb
      · rename_i position rest1 hpos
        obtain ⟨c, hc, hocc⟩ := get_random_position_cell s.game_board 0 _ _ (le_refl _) _ _ hpos
        simp only [Nat.zero_ne_one, if_false, Nat.le_zero] at hocc
        rw [hc] at hb
        simp only [Option.some.injEq] at hb
        subst hb
        have hin : position.index < s.game_board.cells.length := by
          by_contra hge
          rw [List.getElem?_eq_none (by omega)] at hc
          simp at hc
        have hnot : position.index ∉ placed := by
          intro hmem
          have h1 := (hpl _ hmem).2.1
          simp [occupant_at, hc, hocc] at h1
        refine ⟨position.index, ?_, List.nodup_cons.2 ⟨hnot, hnd⟩, ?_, ?_⟩
        · simp [cells_set_cell, hlen]
        · intro j hj
          rcases List.mem_cons.1 hj with hj | hj
          · subst hj
            refine ⟨?_, occupant_at_set_cell_self _ _ _ hin, owner_at_set_cell_self _ _ _ hin⟩
            unfold occupant_at
            rw [← hfr _ hnot, hc]
            simp [hocc]
          · have hne : position.index ≠ j := by
              intro h; subst h; exact hnot hj
            refine ⟨(hpl j hj).1, ?_, ?_⟩
            · rw [occupant_at_set_cell_ne _ _ _ _ hne]; exact (hpl j hj).2.1
            · rw [owner_at_set_cell_ne _ _ _ _ hne]; exact (hpl j hj).2.2
        · intro j hj
          have hne : position.index ≠ j := by
            intro h; subst h; exact hj (List.mem_cons_self _ _)
          have hj2 : j ∉ placed := fun h => hj (List.mem_cons_of_mem _ h)
          rw [cells_set_cell, List.getElem?_set_ne hne]
          exact hfr j hj2

theorem spawn_flags_loop_places (b0 : board_t) (k : Nat) (s s1 : spawn_state)
    (hl : for_loop spawn_flags_body k 0 s = some s1) (hs : s.game_board = b0) :
    ∃ placed : List Nat, placed.length = k ∧ flags_placed b0 s1.game_board placed := by
  have h := for_loop_invariant spawn_flags_body
    (fun i t => ∃ placed : List Nat, placed.length = i ∧ flags_placed b0 t.game_board placed)
    (by
      intro i t t1 ⟨placed, hlen, hinv⟩ hb
      obtain ⟨p, hp⟩ := spawn_flags_body_places b0 i t t1 placed hinv hb
      exact ⟨p :: placed, by simp [hlen], hp⟩)
    k 0 s s1
    ⟨[], rfl, by
      subst hs
      exact ⟨rfl, List.nodup_nil, by simp, by simp⟩⟩
    hl
  simpa using h

theorem flag_count_range (r min max : Nat) (hmin : min ≤ max) (hmax : max + 1 < 4294967296) :
    subU32 ((max + 1) % 4294967296) min = max + 1 - min ∧
    min ≤ (r % (max + 1 - min) + min) % 4294967296 ∧
    (r % (max + 1 - min) + min) % 4294967296 ≤ max := by
  have h1 : subU32 ((max + 1) % 4294967296) min = max + 1 - min := by
    unfold subU32; omega
  have h2 : r % (max + 1 - min) < max + 1 - min := Nat.mod_lt _ (by omega)
  refine ⟨h1, ?_, ?_⟩ <;> omega

theorem spawn_flags_count (b b1 : board_t) (min max max_score c : Nat)
    (draws rest : List Nat) (hmin : min ≤ max) (hmax : max + 1 < 4294967296)
    (hret : spawn_flags b min max max_score draws = some (b1, c, rest)) :
    min ≤ c ∧ c ≤ max := by
  unfold spawn_flags at hret
  cases draws with
  | nil => simp at hret
  | cons r t =>
    obtain ⟨hsub, hlo, hhi⟩ := flag_count_range r min max hmin hmax
    simp only [hsub] at hret
    rw [if_neg (by omega)] at hret
    split at hret
    · simp at hret
    · simp only [Option.some.injEq, Prod.mk.injEq] at hret
      obtain ⟨_, hc, _⟩ := hret
      omega

/-- C6: when `min <= max < max_score` and `spawn_flags` returns, its count `c`
lies between `min` and `max`, and there are `c` pairwise distinct cells, each
Empty before the call and a Flag with owner 0 after it, outside of which the
board is unchanged; in particular a cell that held a Flag or a Pawn is not
changed. -/
theorem spawn_flags_places_distinct_flags (b b1 : board_t) (min max max_score c : Nat)
    (draws rest : List Nat) (hmin : min ≤ max) (hmax : max < max_score)
    (hpool : max_score < 4294967296)
    (hret : spawn_flags b min max max_score draws = some (b1, c, rest)) :
    min ≤ c ∧ c ≤ max ∧
    (∃ placed : List Nat, placed.length = c ∧ flags_placed b b1 placed) ∧
    (∀ i, (occupant_at b i = some 1 ∨ occupant_at b i = some 2) →
      b1.cells[i]? = b.cells[i]?) := by
  unfold spawn_flags at hret
  cases draws with
  | nil => simp at hret
  | cons r t =>
    obtain ⟨hsub, hlo, hhi⟩ := flag_count_range r min max hmin (by omega)
    simp only [hsub] at hret
    rw [if_neg (by omega)] at hret
    split at hret
    · simp at hret
    · rename_i s hloop
      simp only [Option.some.injEq, Prod.mk.injEq] at hret
      obtain ⟨hb1, hc, _⟩ := hret
      subst hb1
      obtain ⟨placed, hlen, hpl⟩ := spawn_flags_loop_places b _ _ s hloop rfl
      refine ⟨by omega, by omega, ⟨placed, by omega, hpl⟩, ?_⟩
      intro i hi
      apply hpl.2.2.2
      intro hmem
      have h0 := (hpl.2.2.1 i hmem).1
      rcases hi with hi | hi <;> rw [hi] at h0 <;> simp at h0

/-- C6 on the 3 by 3 Empty board with `min = 1`, `max = 2`, `max_score = 5`:
the draws give two flags, on cells 4 and 2. -/
theorem spawn_flags_places_distinct_flags_witness :
    spawn_flags empty_board_3x3 1 2 5 [3, 7, 1, 1, 2, 0, 2] =
      some (⟨3, 3, 0, 0, 0, 0, [⟨0, 0, 0, 0⟩, ⟨0, 0, 0, 0⟩, ⟨0, 1, 1, 0⟩, ⟨0, 0, 0, 0⟩,
        ⟨0, 2, 1, 0⟩, ⟨0, 0, 0, 0⟩, ⟨0, 0, 0, 0⟩, ⟨0, 0, 0, 0⟩, ⟨0, 0, 0, 0⟩]⟩, 2, []) ∧
    (1 ≤ 2 ∧ 2 ≤ 2 ∧
    (∃ placed : List Nat, placed.length = 2 ∧
      flags_placed empty_board_3x3
        ⟨3, 3, 0, 0, 0, 0, [⟨0, 0, 0, 0⟩, ⟨0, 0, 0, 0⟩, ⟨0, 1, 1, 0⟩, ⟨0, 0, 0, 0⟩,
          ⟨0, 2, 1, 0⟩, ⟨0, 0, 0, 0⟩, ⟨0, 0, 0, 0⟩, ⟨0, 0, 0, 0⟩, ⟨0, 0, 0, 0⟩]⟩ placed) ∧
    (∀ i, (occupant_at empty_board_3x3 i = some 1 ∨ occupant_at empty_board_3x3 i = some 2) →
      (⟨3, 3, 0, 0, 0, 0, [⟨0, 0, 0, 0⟩, ⟨0, 0, 0, 0⟩, ⟨0, 1, 1, 0⟩, ⟨0, 0, 0, 0⟩,
        ⟨0, 2, 1, 0⟩, ⟨0, 0, 0, 0⟩, ⟨0, 0, 0, 0⟩, ⟨0, 0, 0, 0⟩, ⟨0, 0, 0, 0⟩]⟩ :
          board_t).cells[i]? = empty_board_3x3.cells[i]?)) :=
  ⟨by decide,
    spawn_flags_places_distinct_flags empty_board_3x3 _ 1 2 5 2 [3, 7, 1, 1, 2, 0, 2] []
      (by decide) (by decide) (by decide) (by decide)⟩

theorem flag_filter_set (l : List cell_t) :
    ∀ (p : Nat) (c c1 : cell_t), l[p]? = some c → c.occupant_type ≠ 1 → c1.occupant_type = 1 →
      ((l.set p c1).filter (fun c => c.occupant_type = 1)).length =
        (l.filter (fun c => c.occupant_type = 1)).length + 1 ∧
      (((l.set p c1).filter (fun c => c.occupant_type = 1)).map (fun c => c.flag_score)).sum =
        ((l.filter (fun c => c.occupant_type = 1)).map (fun c => c.flag_score)).sum +
          c1.flag_score := by
  induction l with
  | nil => intro p c c1 h; simp at h
  | cons a t ih =>
    intro p c c1 h hc hc1
    cases p with
    | zero =>
      simp only [List.getElem?_cons_zero, Option.some.injEq] at h
      subst h
      simp [List.set, List.filter, hc, hc1]
      omega
    | succ p =>
      simp only [List.getElem?_cons_succ] at h
      obtain ⟨h1, h2⟩ := ih p c c1 h hc hc1
      by_cases ha : a.occupant_type = 1
      · simp only [List.set, List.filter, ha, decide_True, List.length_cons, List.map_cons,
          List.sum_cons]
        omega
      · simp only [List.set, List.filter, ha, decide_False]
        exact ⟨h1, h2⟩

theorem flag_cells_set_cell (b : board_t) (p : Nat) (c c1 : cell_t) (hc : b.cells[p]? = some c)
    (h0 : c.occupant_type ≠ 1) (h1 : c1.occupant_type = 1) :
    flag_cells (set_cell b p c1) = flag_cells b + 1 ∧
    flag_score_sum (set_cell b p c1) = flag_score_sum b + c1.flag_score :=
  flag_filter_set b.cells p c c1 hc h0 h1

theorem spawn_flags_body_scores (b0 : board_t) (pool0 c i : Nat) (s s1 : spawn_state)
    (hi : i < c)
    (hinv : s.n + i = c ∧ s.n < s.max_score ∧ s.max_score < 4294967296 ∧
      flag_cells s.game_board = flag_cells b0 + i ∧
      flag_score_sum s.game_board + s.max_score = flag_score_sum b0 + pool0 ∧
      flag_score_sum b0 + i ≤ flag_score_sum s.game_board ∧
      ((∀ x ∈ b0.cells, x.occupant_type = 1 → 1 ≤ x.flag_score) →
        ∀ x ∈ s.game_board.cells, x.occupant_type = 1 → 1 ≤ x.flag_score))
    (hb : spawn_flags_body i s = some s1) :
    s1.n + (i + 1) = c ∧ s1.n < s1.max_score ∧ s1.max_score < 4294967296 ∧
      flag_cells s1.game_board = flag_cells b0 + (i + 1) ∧
      flag_score_sum s1.game_board + s1.max_score = flag_score_sum b0 + pool0 ∧
      flag_score_sum b0 + (i + 1) ≤ flag_score_sum s1.game_board ∧
      ((∀ x ∈ b0.cells, x.occupant_type = 1 → 1 ≤ x.flag_score) →
        ∀ x ∈ s1.game_board.cells, x.occupant_type = 1 → 1 ≤ x.flag_score) := by
  obtain ⟨hn, hlt, hpool, hcells, hsum, hlow, hpos⟩ := hinv
  unfold spawn_flags_body at hb
  split at hb
  · simp at hb
  · rename_i r rest hdraws
    have hm : subU32 s.max_score s.n = s.max_score - s.n := by unfold subU32; omega
    have hr : r % (s.max_score - s.n) < s.max_score - s.n := Nat.mod_lt _ (by omega)
    have hscore : (r % (s.max_score - s.n) + 1) % 4294967296 = r % (s.max_score - s.n) + 1 := by
      omega
    simp only [hm, hscore] at hb
    have hm2 : subU32 s.max_score (r % (s.max_score - s.n) + 1) =
        s.max_score - (r % (s.max_score - s.n) + 1) := by unfold subU32; omega
    have hn1 : subU32 s.n 1 = s.n - 1 := by unfold subU32; omega
    simp only [hm2, hn1] at hb
    split at hb
    · simp at hb
    · split at hb
      · simp at hb
      · rename_i position rest1 hpos1
        obtain ⟨c0, hc0, hocc⟩ :=
          get_random_position_cell s.game_board 0 _ _ (le_refl _) _ _ hpos1
        simp only [Nat.zero_ne_one, if_false, Nat.le_zero] at hocc
        rw [hc0] at hb
        simp only [Option.some.injEq] at hb
        subst hb
        obtain ⟨hf1, hf2⟩ := flag_cells_set_cell s.game_board position.index c0
          { c0 with occupant_type := 1, player_pseudo_name := 0,
                    flag_score := r % (s.max_score - s.n) + 1 } hc0 (by omega) rfl
        simp only at hf1 hf2 ⊢
        refine ⟨by omega, by omega, by omega, by omega, by omega, by omega, ?_⟩
        intro hb0 x hx hx1
        rw [cells_set_cell] at hx
        rcases List.mem_or_eq_of_mem_set hx with hx | hx
        · exact hpos hb0 x hx hx1
        · subst hx; simp

/-- Whenever `spawn_flags` returns with `min <= max < max_score`: the number
of Flag cells grows by the returned count, and the scores of the Flag cells
grow by at least one per flag and by less than `max_score` in total. -/
theorem spawn_flags_scores (b b1 : board_t) (min max max_score c : Nat)
    (draws rest : List Nat) (hmin : min ≤ max) (hmax : max < max_score)
    (hpool : max_score < 4294967296)
    (hret : spawn_flags b min max max_score draws = some (b1, c, rest)) :
    flag_cells b1 = flag_cells b + c ∧
    flag_score_sum b + c ≤ flag_score_sum b1 ∧
    flag_score_sum b1 < flag_score_sum b + max_score ∧
    ((∀ x ∈ b.cells, x.occupant_type = 1 → 1 ≤ x.flag_score) →
      ∀ x ∈ b1.cells, x.occupant_type = 1 → 1 ≤ x.flag_score) := by
  unfold spawn_flags at hret
  cases draws with
  | nil => simp at hret
  | cons r t =>
    obtain ⟨hsub, hlo, hhi⟩ := flag_count_range r min max hmin (by omega)
    simp only [hsub] at hret
    rw [if_neg (by omega)] at hret
    split at hret
    · simp at hret
    · rename_i s hloop
      simp only [Option.some.injEq, Prod.mk.injEq] at hret
      obtain ⟨hb1, hc, _⟩ := hret
      subst hb1
      have h := for_loop_invariant spawn_flags_body
        (fun i t => i ≤ c → (t.n + i = c ∧ t.n < t.max_score ∧ t.max_score < 4294967296 ∧
          flag_cells t.game_board = flag_cells b + i ∧
          flag_score_sum t.game_board + t.max_score = flag_score_sum b + max_score ∧
          flag_score_sum b + i ≤ flag_score_sum t.game_board ∧
          ((∀ x ∈ b.cells, x.occupant_type = 1 → 1 ≤ x.flag_score) →
            ∀ x ∈ t.game_board.cells, x.occupant_type = 1 → 1 ≤ x.flag_score)))
        (by
          intro i t t1 hP hb hle
          exact spawn_flags_body_scores b max_score c i t t1 (by omega) (hP (by omega)) hb)
        _ 0 _ s
        (by
          intro _
          refine ⟨by simp; omega, by simp; omega, hpool, by simp, by simp, by simp, ?_⟩
          intro h; exact h)
        hloop
      simp only [Nat.zero_add] at h
      obtain ⟨h1, h2, h3, h4, h5, h6, h7⟩ := h (by omega)
      rw [hc] at h4 h6
      refine ⟨h4, h6, by omega, h7⟩

theorem no_flags_of_all_empty (b : board_t) (hempty : ∀ x ∈ b.cells, x.occupant_type = 0) :
    flag_cells b = 0 ∧ flag_score_sum b = 0 := by
  have h : b.cells.filter (fun c => c.occupant_type = 1) = [] := by
    rw [List.filter_eq_nil_iff]
    intro x hx
    simp [hempty x hx]
  simp [flag_cells, flag_score_sum, h]

/-- With the parameters 5, 5 and 10 on a board whose cells are all Empty,
whenever `spawn_flags` returns: it returns 5, there are exactly 5 Flag cells,
every Flag cell has a score of at least 1, and the scores of the Flag cells
sum to at least 5 and at most 9. -/
theorem spawn_flags_5_5_10 (b b1 : board_t) (c : Nat) (draws rest : List Nat)
    (hempty : ∀ x ∈ b.cells, x.occupant_type = 0)
    (hret : spawn_flags b 5 5 10 draws = some (b1, c, rest)) :
    c = 5 ∧ flag_cells b1 = 5 ∧
    (∀ x ∈ b1.cells, x.occupant_type = 1 → 1 ≤ x.flag_score) ∧
    5 ≤ flag_score_sum b1 ∧ flag_score_sum b1 ≤ 9 := by
  obtain ⟨h1, h2⟩ := no_flags_of_all_empty b hempty
  obtain ⟨hc1, hc2⟩ := spawn_flags_count b b1 5 5 10 c draws rest
    (by omega) (by omega) hret
  obtain ⟨h3, h4, h5, h6⟩ := spawn_flags_scores b b1 5 5 10 c draws rest
    (by omega) (by omega) (by omega) hret
  have hc : c = 5 := by omega
  subst hc
  refine ⟨rfl, by omega, ?_, by omega, by omega⟩
  apply h6
  intro x hx hx1
  rw [hempty x hx] at hx1
  omega

/-- C5 at the 3 by 3 Empty board, every draw for a score being 0: `spawn_flags`
with `min = 5`, `max = 5`, `max_score = 10` returns 5 and leaves 5 Flag cells,
each of score 1, so the scores sum to 5, not to 10. -/
theorem spawn_flags_5_5_10_scores_sum_to_5 :
    (spawn_flags empty_board_3x3 5 5 10
        [0, 0, 0, 0, 0, 0, 1, 0, 0, 2, 0, 1, 0, 0, 1, 1]).map
      (fun r => (r.2.1, flag_cells r.1, r.1.cells.map (fun c => c.flag_score),
        flag_score_sum r.1)) = some (5, 5, [1, 1, 1, 1, 1, 0, 0, 0, 0], 5) := by
  decide

/-- With the largest score the first draw can give (5), the four other flags
get one point each: the scores sum to 9, the most `spawn_flags` hands out of a
pool of 10. -/
theorem spawn_flags_5_5_10_scores_sum_to_9 :
    (spawn_flags empty_board_3x3 5 5 10
        [0, 4, 0, 0, 7, 0, 1, 7, 0, 2, 7, 1, 0, 7, 1, 1]).map
      (fun r => (r.2.1, flag_cells r.1, r.1.cells.map (fun c => c.flag_score),
        flag_score_sum r.1)) = some (5, 5, [5, 1, 1, 1, 1, 0, 0, 0, 0], 9) := by
  decide

/-! ## Flag spawning returns on suitable draws -/

theorem toU32_natCast (n : Nat) (h : n < 4294967296) : toU32 (n : Int) = n := by
  unfold toU32; omega

theorem get_random_position_hit (b : board_t) (hv : valid_board b) (i : Nat) (c : cell_t)
    (hc : b.cells[i]? = some c) (hocc : c.occupant_type = 0) (rest : List Nat) :
    get_random_position b 0 (i / b.height.toNat :: i % b.height.toNat :: rest) =
      some (⟨i / b.height.toNat, i % b.height.toNat, i⟩, rest) := by
  obtain ⟨hw, hh, hlt, hlen⟩ := hv
  have hi : i < b.cells.length := by
    by_contra hge
    rw [List.getElem?_eq_none (by omega)] at hc
    simp at hc
  have hhn : (b.height.toNat : Int) = b.height := Int.toNat_of_nonneg (by omega)
  have hwn : (b.width.toNat : Int) = b.width := Int.toNat_of_nonneg (by omega)
  have hlenN : b.cells.length = b.width.toNat * b.height.toNat := by
    have : (b.cells.length : Int) = ((b.width.toNat * b.height.toNat : Nat) : Int) := by
      push_cast; rw [hhn, hwn]; exact hlen
    exact_mod_cast this
  have hhm : toU32 b.height = b.height.toNat := by
    have h1 := height_lt_of_cells_lt b.width b.height _ hw hh hlt
    unfold toU32; omega
  generalize b.height.toNat = h at *
  generalize b.width.toNat = w at *
  have hpos : 0 < h := by omega
  have hwpos : 0 < w := by omega
  have hy : i % h < h := Nat.mod_lt _ hpos
  have hx : i / h < w := by
    rw [Nat.div_lt_iff_lt_mul hpos]; omega
  have hdm : h * (i / h) + i % h = i := Nat.div_add_mod i h
  have hcomm : i / h * h = h * (i / h) := Nat.mul_comm _ _
  have hwle : w ≤ w * h := Nat.le_mul_of_pos_right w hpos
  have hcells : w * h < 2147483648 := by
    have : ((w * h : Nat) : Int) < 2147483648 := by push_cast; rw [hhn, hwn]; exact hlt
    exact_mod_cast this
  generalize i / h = x at *
  generalize i % h = y at *
  have hxm : Int.tmod (x : Int) b.width = (x : Int) := Int.tmod_eq_of_lt (by omega) (by omega)
  have hym : Int.tmod (y : Int) b.height = (y : Int) := Int.tmod_eq_of_lt (by omega) (by omega)
  have hux : toU32 (x : Int) = x := toU32_natCast x (by omega)
  have huy : toU32 (y : Int) = y := toU32_natCast y (by omega)
  have hidx : compute_index b ⟨x, y, 0⟩ = i := by
    simp only [compute_index, hhm]
    omega
  have hwz : ¬ (b.width = 0 ∨ b.height = 0) := by omega
  simp only [get_random_position, hwz, if_false, hxm, hym, hux, huy, hidx, hc, hocc]
  simp

theorem empty_filter_set (l : List cell_t) :
    ∀ (p : Nat) (c c1 : cell_t), l[p]? = some c → c.occupant_type = 0 → c1.occupant_type ≠ 0 →
      ((l.set p c1).filter (fun c => c.occupant_type = 0)).length + 1 =
        (l.filter (fun c => c.occupant_type = 0)).length := by
  induction l with
  | nil => intro p c c1 h; simp at h
  | cons a t ih =>
    intro p c c1 h hc hc1
    cases p with
    | zero =>
      simp only [List.getElem?_cons_zero, Option.some.injEq] at h
      subst h
      simp [List.set, List.filter, hc, hc1]
    | succ p =>
      simp only [List.getElem?_cons_succ] at h
      have h1 := ih p c c1 h hc hc1
      by_cases ha : a.occupant_type = 0
      · simp only [List.set, List.filter, ha, decide_True, List.length_cons]
        omega
      · simp only [List.set, List.filter, ha, decide_False]
        exact h1

theorem exists_empty_cell (b : board_t) (h : 0 < empty_cells b) :
    ∃ (i : Nat) (c : cell_t), b.cells[i]? = some c ∧ c.occupant_type = 0 := by
  obtain ⟨c, hc⟩ := List.exists_mem_of_length_pos h
  rw [List.mem_filter] at hc
  obtain ⟨i, hi⟩ := List.mem_iff_getElem?.1 hc.1
  exact ⟨i, c, hi, by simpa using hc.2⟩

theorem valid_board_set_cell (b : board_t) (i : Nat) (c : cell_t) (hv : valid_board b) :
    valid_board (set_cell b i c) := by
  obtain ⟨hw, hh, hlt, hlen⟩ := hv
  exact ⟨hw, hh, hlt, by simpa [set_cell] using hlen⟩

theorem spawn_flags_loop_returns (k : Nat) :
    ∀ (i : Nat) (b : board_t) (n max_score : Nat), valid_board b → k ≤ empty_cells b →
      n = k → n < max_score → max_score < 4294967296 →
      ∃ draws s1, for_loop spawn_flags_body k i
        { game_board := b, n := n, max_score := max_score, draws := draws } = some s1 := by
  induction k with
  | zero =>
    intro i b n max_score _ _ _ _ _
    exact ⟨[], _, rfl⟩
  | succ k ih =>
    intro i b n max_score hv hroom hn hlt hpool
    obtain ⟨j, c, hc, hocc⟩ := exists_empty_cell b (by omega)
    have hm : subU32 max_score n = max_score - n := by unfold subU32; omega
    have hscore : (0 % (max_score - n) + 1) % 4294967296 = 1 := by simp
    have hm2 : subU32 max_score 1 = max_score - 1 := by unfold subU32; omega
    have hn1 : subU32 n 1 = k := by unfold subU32; omega
    have hroom1 : k ≤ empty_cells (set_cell b j
        { c with occupant_type := 1, player_pseudo_name := 0, flag_score := 1 }) := by
      have := empty_filter_set b.cells j c
        { c with occupant_type := 1, player_pseudo_name := 0, flag_score := 1 } hc hocc
        (by simp)
      unfold empty_cells at hroom ⊢
      rw [cells_set_cell]
      omega
    obtain ⟨draws, s1, hloop⟩ := ih (i + 1) _ k (max_score - 1)
      (valid_board_set_cell b j _ hv) hroom1 rfl (by omega) (by omega)
    refine ⟨0 :: j / b.height.toNat :: j % b.height.toNat :: draws, s1, ?_⟩
    unfold for_loop
    have hbody : spawn_flags_body i
        { game_board := b, n := n, max_score := max_score,
          draws := 0 :: j / b.height.toNat :: j % b.height.toNat :: draws } =
        some { game_board := set_cell b j
                { c with occupant_type := 1, player_pseudo_name := 0, flag_score := 1 },
               n := k, max_score := max_score - 1, draws := draws } := by
      simp only [spawn_flags_body, hm, hscore, hm2, hn1,
        get_random_position_hit b hv j c hc hocc draws, hc]
      rw [if_neg (by omega)]
    rw [hbody]
    exact hloop

/-- On a valid board with more than `max` Empty cells, and `min <= max <
max_score`, there are draws on which `spawn_flags` returns, whatever the
first draw (the one for the count) is. -/
theorem spawn_flags_can_return (b : board_t) (min max max_score r : Nat)
    (hv : valid_board b) (hmin : min ≤ max) (hmax : max < max_score)
    (hpool : max_score < 4294967296) (hroom : max < empty_cells b) :
    ∃ draws b1 c rest, spawn_flags b min max max_score (r :: draws) = some (b1, c, rest) := by
  obtain ⟨hsub, hlo, hhi⟩ := flag_count_range r min max hmin (by omega)
  obtain ⟨draws, s1, hloop⟩ := spawn_flags_loop_returns
    ((r % (max + 1 - min) + min) % 4294967296) 0 b _ max_score hv (by omega) rfl
    (by omega) hpool
  refine ⟨draws, s1.game_board, (r % (max + 1 - min) + min) % 4294967296, s1.draws, ?_⟩
  simp only [spawn_flags, hsub]
  rw [if_neg (by omega), hloop]

/-! ## Flag removal -/

theorem toU32_cells (b : board_t) (hv : valid_board b) :
    toU32 (b.width * b.height) = b.cells.length := by
  obtain ⟨_, _, hlt, hlen⟩ := hv
  unfold toU32
  omega

theorem remove_flags_body_eq (b : board_t) (i : Nat) (c : cell_t) (hc : b.cells[i]? = some c) :
    remove_flags_body i b = some (set_cell b i (cleared c)) := by
  simp [remove_flags_body, hc, cleared]

theorem remove_flags_body_step (b0 : board_t) (i : Nat) (b : board_t)
    (hi : i < b0.cells.length)
    (hinv : b = { b0 with cells := (b0.cells.take i).map cleared ++ b0.cells.drop i }) :
    ∃ b1, remove_flags_body i b = some b1 ∧
      b1 = { b0 with cells := (b0.cells.take (i + 1)).map cleared ++ b0.cells.drop (i + 1) } := by
  subst hinv
  have hget : ((b0.cells.take i).map cleared ++ b0.cells.drop i)[i]? = some b0.cells[i] := by
    rw [List.getElem?_append_right (by simp)]
    simp [List.getElem?_drop, Nat.min_eq_left (Nat.le_of_lt hi), List.getElem?_eq_getElem hi]
  refine ⟨_, remove_flags_body_eq _ _ _ hget, ?_⟩
  simp only [set_cell]
  congr 1
  apply List.ext_getElem?
  intro j
  rw [List.getElem?_set]
  by_cases hj : i = j
  · subst hj
    have hlen : i < ((b0.cells.take i).map cleared ++ b0.cells.drop i).length := by
      simp; omega
    rw [if_pos rfl, if_pos hlen]
    rw [List.getElem?_append_left (by simp; omega)]
    simp [List.getElem?_take, List.getElem?_eq_getElem hi, cleared]
  · rw [if_neg hj]
    by_cases hlt : j < i
    · rw [List.getElem?_append_left (by simp; omega),
        List.getElem?_append_left (by simp; omega)]
      simp [List.getElem?_take, hlt, show j < i + 1 by omega]
    · rw [List.getElem?_append_right (by simp; omega),
        List.getElem?_append_right (by simp; omega)]
      simp only [List.length_map, List.length_take, List.getElem?_drop]
      congr 1
      omega

theorem remove_flags_eq (b : board_t) (hv : valid_board b) :
    remove_flags b = some { b with cells := b.cells.map cleared } := by
  unfold remove_flags
  rw [toU32_cells b hv]
  obtain ⟨b1, h1, h2⟩ := for_loop_total remove_flags_body
    (fun i t => t = { b with cells := (b.cells.take i).map cleared ++ b.cells.drop i })
    b.cells.length
    (by
      intro i t hi hP
      exact remove_flags_body_step b i t hi hP)
    b.cells.length 0 b (by omega) (by simp)
  rw [h1, h2]
  simp

/-- C7: on a valid board `remove_flags` returns; afterwards no cell has
occupant Flag and every cell has score 0, every cell that held a Pawn still
holds a Pawn of the same owner, and every Empty cell is still Empty. -/
theorem remove_flags_clears (b : board_t) (hv : valid_board b) :
    ∃ b1, remove_flags b = some b1 ∧ b1.cells.length = b.cells.length ∧
      (∀ i, occupant_at b1 i ≠ some 1) ∧
      (∀ i, i < b.cells.length → score_at b1 i = some 0) ∧
      (∀ i, occupant_at b i = some 2 →
        occupant_at b1 i = some 2 ∧ owner_at b1 i = owner_at b i) ∧
      (∀ i, occupant_at b i = some 0 → occupant_at b1 i = some 0) := by
  refine ⟨_, remove_flags_eq b hv, by simp, ?_, ?_, ?_, ?_⟩
  · intro i
    simp only [occupant_at, List.getElem?_map]
    cases h : b.cells[i]? with
    | none => simp
    | some c =>
      by_cases h1 : c.occupant_type = 1 <;> simp [cleared, h1]
  · intro i hi
    simp [score_at, List.getElem?_map, List.getElem?_eq_getElem hi, cleared]
  · intro i
    simp only [occupant_at, owner_at, List.getElem?_map]
    cases h : b.cells[i]? with
    | none => simp
    | some c =>
      intro h2
      simp only [Option.map_some', Option.some.injEq] at h2
      simp [cleared, h2]
  · intro i
    simp only [occupant_at, List.getElem?_map]
    cases h : b.cells[i]? with
    | none => simp
    | some c =>
      intro h2
      simp only [Option.map_some', Option.some.injEq] at h2
      simp [cleared, h2]

/-- C7 on a 1 by 3 board with a flag, a pawn standing on a captured flag and
an Empty cell. -/
theorem remove_flags_clears_witness :
    valid_board ⟨1, 3, 0, 0, 0, 0, [⟨0, 4, 1, 0⟩, ⟨65, 6, 2, 0⟩, ⟨0, 0, 0, 0⟩]⟩ ∧
    remove_flags ⟨1, 3, 0, 0, 0, 0, [⟨0, 4, 1, 0⟩, ⟨65, 6, 2, 0⟩, ⟨0, 0, 0, 0⟩]⟩ =
      some ⟨1, 3, 0, 0, 0, 0, [⟨0, 0, 0, 0⟩, ⟨65, 0, 2, 0⟩, ⟨0, 0, 0, 0⟩]⟩ ∧
    ∃ b1, remove_flags ⟨1, 3, 0, 0, 0, 0, [⟨0, 4, 1, 0⟩, ⟨65, 6, 2, 0⟩, ⟨0, 0, 0, 0⟩]⟩ =
        some b1 ∧
      b1.cells.length =
        (⟨1, 3, 0, 0, 0, 0, [⟨0, 4, 1, 0⟩, ⟨65, 6, 2, 0⟩, ⟨0, 0, 0, 0⟩]⟩ : board_t).cells.length ∧
      (∀ i, occupant_at b1 i ≠ some 1) ∧
      (∀ i, i < (⟨1, 3, 0, 0, 0, 0, [⟨0, 4, 1, 0⟩, ⟨65, 6, 2, 0⟩, ⟨0, 0, 0, 0⟩]⟩ :
          board_t).cells.length → score_at b1 i = some 0) ∧
      (∀ i, occupant_at ⟨1, 3, 0, 0, 0, 0, [⟨0, 4, 1, 0⟩, ⟨65, 6, 2, 0⟩, ⟨0, 0, 0, 0⟩]⟩ i =
          some 2 →
        occupant_at b1 i = some 2 ∧ owner_at b1 i =
          owner_at ⟨1, 3, 0, 0, 0, 0, [⟨0, 4, 1, 0⟩, ⟨65, 6, 2, 0⟩, ⟨0, 0, 0, 0⟩]⟩ i) ∧
      (∀ i, occupant_at ⟨1, 3, 0, 0, 0, 0, [⟨0, 4, 1, 0⟩, ⟨65, 6, 2, 0⟩, ⟨0, 0, 0, 0⟩]⟩ i =
          some 0 → occupant_at b1 i = some 0) :=
  ⟨by decide, by decide,
    remove_flags_clears ⟨1, 3, 0, 0, 0, 0, [⟨0, 4, 1, 0⟩, ⟨65, 6, 2, 0⟩, ⟨0, 0, 0, 0⟩]⟩
      (by decide)⟩

/-! ## Loops over a list -/

theorem for_loop_fold {α σ : Type} (l : List α) (g : σ → α → σ) (body : Nat → σ → Option σ)
    (hbody : ∀ i s a, l[i]? = some a → body i s = some (g s a)) :
    ∀ k i s, i + k = l.length → for_loop body k i s = some ((l.drop i).foldl g s) := by
  intro k
  induction k with
  | zero =>
    intro i s h
    have hd : l.drop i = [] := List.drop_eq_nil_of_le (by omega)
    simp [for_loop, hd]
  | succ k ih =>
    intro i s h
    have hi : i < l.length := by omega
    unfold for_loop
    rw [hbody i s l[i] (List.getElem?_eq_getElem hi)]
    simp only
    rw [ih (i + 1) _ (by omega), List.drop_eq_getElem_cons hi, List.foldl_cons]

theorem for_loop_map {α : Type} (f : α → α) (body : Nat → List α → Option (List α))
    (hbody : ∀ i l a, l[i]? = some a → body i l = some (l.set i (f a))) (l : List α) :
    for_loop body l.length 0 l = some (l.map f) := by
  obtain ⟨l1, h1, h2⟩ := for_loop_total body
    (fun i t => t = (l.take i).map f ++ l.drop i) l.length
    (by
      intro i t hi hP
      subst hP
      have hget : ((l.take i).map f ++ l.drop i)[i]? = some l[i] := by
        rw [List.getElem?_append_right (by simp)]
        simp [List.getElem?_drop, Nat.min_eq_left (Nat.le_of_lt hi),
          List.getElem?_eq_getElem hi]
      refine ⟨_, hbody i _ _ hget, ?_⟩
      apply List.ext_getElem?
      intro j
      rw [List.getElem?_set]
      by_cases hj : i = j
      · subst hj
        have hlen : i < ((l.take i).map f ++ l.drop i).length := by
          simp; omega
        rw [if_pos rfl, if_pos hlen]
        rw [List.getElem?_append_left (by simp; omega)]
        simp [List.getElem?_take, List.getElem?_eq_getElem hi]
      · rw [if_neg hj]
        by_cases hlt : j < i
        · rw [List.getElem?_append_left (by simp; omega),
            List.getElem?_append_left (by simp; omega)]
          simp [List.getElem?_take, hlt, show j < i + 1 by omega]
        · rw [List.getElem?_append_right (by simp; omega),
            List.getElem?_append_right (by simp; omega)]
          simp only [List.length_map, List.length_take, List.getElem?_drop]
          congr 1
          omega)
    l.length 0 l (by omega) (by simp)
  rw [h1, h2]
  simp

/-! ## Scores -/

theorem score_foldl (name : Nat) (l : List cell_t) :
    ∀ s : Nat, s < 4294967296 →
      l.foldl (fun score c =>
        if c.player_pseudo_name = name then (score + c.flag_score) % 4294967296 else score) s =
      (s + ((l.filter (fun c => c.player_pseudo_name = name)).map
        (fun c => c.flag_score)).sum) % 4294967296 := by
  induction l with
  | nil => intro s hs; simp; omega
  | cons a t ih =>
    intro s hs
    rw [List.foldl_cons]
    by_cases ha : a.player_pseudo_name = name
    · rw [if_pos ha, ih _ (Nat.mod_lt _ (by omega))]
      simp only [List.filter, ha, decide_True, List.map_cons, List.sum_cons]
      omega
    · rw [if_neg ha, ih s hs]
      simp only [List.filter, ha, decide_False]

theorem get_player_score_eq (b : board_t) (name : Nat) (hv : valid_board b) :
    get_player_score b name = some (owned_score b name % 4294967296) := by
  unfold get_player_score
  rw [toU32_cells b hv]
  rw [for_loop_fold b.cells
    (fun score c =>
      if c.player_pseudo_name = name then (score + c.flag_score) % 4294967296 else score)
    (get_player_score_body b name)
    (by
      intro i s a ha
      simp [get_player_score_body, ha])
    b.cells.length 0 0 (by omega)]
  rw [List.drop_zero, score_foldl name b.cells 0 (by omega)]
  simp [owned_score]

theorem update_players_score_eq (b : board_t) (ps : List player_t) (update_glob : Nat)
    (hv : valid_board b) :
    update_players_score b ps ps.length update_glob =
      some (ps.map (fun p =>
        { p with
          total_score := owned_score b p.pseudo_name % 4294967296,
          global_score :=
            if update_glob = 1 then
              (p.global_score + owned_score b p.pseudo_name % 4294967296) % 4294967296
            else p.global_score })) := by
  unfold update_players_score
  rw [for_loop_map
    (fun p : player_t => { p with total_score := owned_score b p.pseudo_name % 4294967296 })
    (update_total_body b)
    (by
      intro i l a ha
      simp [update_total_body, ha, get_player_score_eq b _ hv])
    ps]
  simp only
  by_cases hu : update_glob = 1
  · rw [if_pos hu]
    have hlen : ps.length = (ps.map (fun p : player_t =>
        { p with total_score := owned_score b p.pseudo_name % 4294967296 })).length := by
      simp
    rw [hlen, for_loop_map
      (fun p : player_t =>
        { p with global_score := (p.global_score + p.total_score) % 4294967296 })
      update_global_body
      (by
        intro i l a ha
        simp [update_global_body, ha])]
    simp [hu]
  · rw [if_neg hu]
    simp [hu]

/-- C8 fails as stated where the sum leaves the range of `unsigned int`: on
`overflow_board` player 65 owns scores 4294967295 and 1, whose sum is 2^32,
and `update_players_score` with `update_glob = 1` leaves both `total_score`
and `global_score` at 0. -/
theorem update_players_score_wraps :
    owned_score overflow_board 65 = 4294967296 ∧
    get_player_score overflow_board 65 = some 0 ∧
    update_players_score overflow_board [⟨0, 0, 65, 0, 0, 0, 0⟩] 1 1 =
      some [⟨0, 0, 65, 0, 0, 0, 0⟩] := by
  decide

/-- C8, amended: on a valid board `update_players_score` returns, and for
each player it sets `total_score` to what `get_player_score` returns for the
player, the sum of `flag_score` over the cells the player owns reduced modulo
2^32; with `update_glob = 1` the new `global_score` is the old one plus that
value, again modulo 2^32, and with `update_glob = 0` it is the old one; no
other field of a player changes. When the sums are below 2^32 they are the
plain sum and the plain increase. The board is an argument that is only
read. -/
theorem update_players_score_mod (b : board_t) (ps : List player_t) (update_glob : Nat)
    (hv : valid_board b) :
    ∃ ps1 : List player_t, update_players_score b ps ps.length update_glob = some ps1 ∧
      ps1.length = ps.length ∧
      ∀ (i : Nat) (p : player_t), ps[i]? = some p →
        get_player_score b p.pseudo_name = some (owned_score b p.pseudo_name % 4294967296) ∧
        ∃ p1 : player_t, ps1[i]? = some p1 ∧
          p1.total_score = owned_score b p.pseudo_name % 4294967296 ∧
          (update_glob = 1 → p1.global_score =
            (p.global_score + owned_score b p.pseudo_name % 4294967296) % 4294967296) ∧
          (update_glob = 0 → p1.global_score = p.global_score) ∧
          p1.mq_id = p.mq_id ∧ p1.pid = p.pid ∧ p1.pseudo_name = p.pseudo_name ∧
          p1.available_moves = p.available_moves ∧ p1.total_moves = p.total_moves ∧
          (owned_score b p.pseudo_name < 4294967296 →
            p1.total_score = owned_score b p.pseudo_name) ∧
          (update_glob = 1 → p.global_score + owned_score b p.pseudo_name < 4294967296 →
            p1.global_score = p.global_score + owned_score b p.pseudo_name) := by
  refine ⟨_, update_players_score_eq b ps update_glob hv, by simp, ?_⟩
  intro i p hp
  refine ⟨get_player_score_eq b _ hv, ?_⟩
  rw [List.getElem?_map, hp]
  refine ⟨_, rfl, rfl, ?_, ?_, rfl, rfl, rfl, rfl, rfl, ?_, ?_⟩
  · intro hu; simp [hu]
  · intro hu; simp [hu]
  · intro h; exact Nat.mod_eq_of_lt h
  · intro hu h
    simp only [hu, if_true]
    omega

/-- C8, amended, on a 1 by 3 board where player 65 owns scores 4 and 6 and
player 66 owns nothing. -/
theorem update_players_score_mod_witness :
    valid_board ⟨1, 3, 0, 0, 0, 0, [⟨65, 4, 2, 0⟩, ⟨65, 6, 2, 0⟩, ⟨0, 3, 1, 0⟩]⟩ ∧
    update_players_score ⟨1, 3, 0, 0, 0, 0, [⟨65, 4, 2, 0⟩, ⟨65, 6, 2, 0⟩, ⟨0, 3, 1, 0⟩]⟩
        [⟨7, 70, 65, 9, 20, 0, 5⟩, ⟨8, 80, 66, 8, 20, 0, 2⟩] 2 1 =
      some [⟨7, 70, 65, 9, 20, 10, 15⟩, ⟨8, 80, 66, 8, 20, 0, 2⟩] ∧
    ∃ ps1, update_players_score
        ⟨1, 3, 0, 0, 0, 0, [⟨65, 4, 2, 0⟩, ⟨65, 6, 2, 0⟩, ⟨0, 3, 1, 0⟩]⟩
        [⟨7, 70, 65, 9, 20, 0, 5⟩, ⟨8, 80, 66, 8, 20, 0, 2⟩]
        ([⟨7, 70, 65, 9, 20, 0, 5⟩, ⟨8, 80, 66, 8, 20, 0, 2⟩] : List player_t).length 1 =
          some ps1 ∧
      ps1.length = ([⟨7, 70, 65, 9, 20, 0, 5⟩, ⟨8, 80, 66, 8, 20, 0, 2⟩] :
        List player_t).length :=
  ⟨by decide, by decide,
    (update_players_score_mod ⟨1, 3, 0, 0, 0, 0, [⟨65, 4, 2, 0⟩, ⟨65, 6, 2, 0⟩, ⟨0, 3, 1, 0⟩]⟩
      [⟨7, 70, 65, 9, 20, 0, 5⟩, ⟨8, 80, 66, 8, 20, 0, 2⟩] 1 (by decide)).elim
      (fun ps1 h => ⟨ps1, h.1, h.2.1⟩)⟩

/-! ## Coordinator: the Ready barrier and the placement rotation -/

theorem handle_messages_cons (cfg : config) (now : Int) (s : coordinator_t) (m : message_t)
    (ms : List message_t) :
    handle_messages cfg now s (m :: ms) =
      match handle_message cfg now s m with
      | none => none
      | some (s1, out1) =>
        match handle_messages cfg now s1 ms with
        | none => none
        | some (s2, out2) => some (s2, out1 ++ out2) := rfl

theorem handle_messages_append (cfg : config) (now : Int) (ms1 : List message_t) :
    ∀ (s : coordinator_t) (ms2 : List message_t) (s1 : coordinator_t) (out1 : List effect),
      handle_messages cfg now s ms1 = some (s1, out1) →
      handle_messages cfg now s (ms1 ++ ms2) =
        (handle_messages cfg now s1 ms2).map (fun r => (r.1, out1 ++ r.2)) := by
  induction ms1 with
  | nil =>
    intro s ms2 s1 out1 h
    simp only [handle_messages, Option.some.injEq, Prod.mk.injEq] at h
    obtain ⟨h1, h2⟩ := h
    subst h1; subst h2
    cases h : handle_messages cfg now s ms2 <;> simp [h]
  | cons m t ih =>
    intro s ms2 s1 out1 h
    rw [List.cons_append, handle_messages_cons]
    rw [handle_messages_cons] at h
    cases hm : handle_message cfg now s m with
    | none => rw [hm] at h; simp at h
    | some r =>
      obtain ⟨sa, oa⟩ := r
      rw [hm] at h
      simp only at h ⊢
      cases ht : handle_messages cfg now sa t with
      | none => rw [ht] at h; simp at h
      | some r2 =>
        obtain ⟨sb, ob⟩ := r2
        rw [ht] at h
        simp only [Option.some.injEq, Prod.mk.injEq] at h
        obtain ⟨h1, h2⟩ := h
        subst h1; subst h2
        rw [ih sa ms2 sb ob ht]
        cases h3 : handle_messages cfg now sb ms2 <;> simp

theorem handle_ready_below (cfg : config) (now : Int) (s : coordinator_t) (m : message_t)
    (hm : m.message_type = 1) (hN : cfg.SO_NUM_G < 4294967296)
    (hlt : s.ready_players + 1 < cfg.SO_NUM_G) :
    handle_message cfg now s m =
      some ({ s with ready_players := s.ready_players + 1 }, []) := by
  have h1 : (s.ready_players + 1) % 4294967296 = s.ready_players + 1 := by omega
  have h2 : s.ready_players + 1 ≠ cfg.SO_NUM_G := by omega
  simp [handle_message, hm, h1, h2]

theorem handle_ready_last (cfg : config) (now : Int) (s : coordinator_t) (m : message_t)
    (p0 : player_t) (hm : m.message_type = 1) (hN : cfg.SO_NUM_G < 4294967296)
    (heq : s.ready_players + 1 = cfg.SO_NUM_G) (hp0 : s.player_list[0]? = some p0) :
    handle_message cfg now s m =
      some ({ s with ready_players := 0, current_placing_player := 0 },
        [effect.send p0.mq_id { message_type := 2, player_pseudo_name := 0 }]) := by
  have h1 : (s.ready_players + 1) % 4294967296 = cfg.SO_NUM_G := by omega
  simp only [handle_message, hm, h1, if_true, allow_pawn_placing]
  rw [hp0]

theorem ready_run_below (cfg : config) (now : Int) (hN : cfg.SO_NUM_G < 4294967296)
    (ms : List message_t) :
    ∀ s : coordinator_t, (∀ m ∈ ms, m.message_type = 1) →
      s.ready_players + ms.length < cfg.SO_NUM_G →
      handle_messages cfg now s ms =
        some ({ s with ready_players := s.ready_players + ms.length }, []) := by
  induction ms with
  | nil => intro s _ _; simp [handle_messages]
  | cons m t ih =>
    intro s hall hlt
    simp only [List.length_cons] at hlt
    have hm := hall m (List.mem_cons_self _ _)
    rw [handle_messages_cons]
    rw [handle_ready_below cfg now s m hm hN (by omega)]
    simp only
    rw [ih _ (fun x hx => hall x (List.mem_cons_of_mem _ hx)) (by simp; omega)]
    simp only [List.length_cons, List.append_nil, Option.some.injEq, Prod.mk.injEq, and_true]
    congr 1
    omega

theorem ready_run_full (cfg : config) (now : Int) (hN : cfg.SO_NUM_G < 4294967296)
    (ms : List message_t) :
    ∀ (s : coordinator_t) (p0 : player_t), (∀ m ∈ ms, m.message_type = 1) →
      ms ≠ [] → s.ready_players + ms.length = cfg.SO_NUM_G →
      s.player_list[0]? = some p0 →
      handle_messages cfg now s ms =
        some ({ s with ready_players := 0, current_placing_player := 0 },
          [effect.send p0.mq_id { message_type := 2, player_pseudo_name := 0 }]) := by
  induction ms with
  | nil => intro s p0 _ hne; exact absurd rfl hne
  | cons m t ih =>
    intro s p0 hall _ hlen hp0
    simp only [List.length_cons] at hlen
    have hm := hall m (List.mem_cons_self _ _)
    rw [handle_messages_cons]
    cases t with
    | nil =>
      simp only [List.length_nil] at hlen
      rw [handle_ready_last cfg now s m p0 hm hN (by omega) hp0]
      simp [handle_messages]
    | cons m2 t2 =>
      simp only [List.length_cons] at hlen
      rw [handle_ready_below cfg now s m hm hN (by omega)]
      simp only
      rw [ih { s with ready_players := s.ready_players + 1 } p0
        (fun x hx => hall x (List.mem_cons_of_mem _ hx)) (by simp)
        (by simp; omega) hp0]
      simp

/-- C9: from a state whose ready counter is 0, with `N = SO_NUM_G` players in
`player_list` (`N` at least 1), handling fewer than `N` Ready messages (type
1) emits nothing and only counts them; handling `N` of them emits exactly one
message, AllowPlacement (type 2) to the queue of the player at index 0, and
leaves the ready counter and `current_placing_player` at 0. -/
theorem ready_barrier (cfg : config) (now : Int) (s : coordinator_t) (ms : List message_t)
    (hN0 : 0 < cfg.SO_NUM_G) (hN : cfg.SO_NUM_G < 4294967296)
    (hlen : s.player_list.length = cfg.SO_NUM_G) (h0 : s.ready_players = 0)
    (hall : ∀ m ∈ ms, m.message_type = 1) :
    (ms.length < cfg.SO_NUM_G →
      handle_messages cfg now s ms = some ({ s with ready_players := ms.length }, [])) ∧
    (ms.length = cfg.SO_NUM_G →
      ∃ p0, s.player_list[0]? = some p0 ∧
        handle_messages cfg now s ms =
          some ({ s with ready_players := 0, current_placing_player := 0 },
            [effect.send p0.mq_id { message_type := 2, player_pseudo_name := 0 }])) := by
  constructor
  · intro hlt
    rw [ready_run_below cfg now hN ms s hall (by omega)]
    simp [h0]
  · intro heq
    have hp : 0 < s.player_list.length := by omega
    refine ⟨s.player_list[0], List.getElem?_eq_getElem hp, ?_⟩
    apply ready_run_full cfg now hN ms s _ hall
    · intro h; rw [h] at heq; simp at heq; omega
    · omega
    · exact List.getElem?_eq_getElem hp

/-- C9 in the scenario with two players: the first Ready emits nothing, the
second one emits AllowPlacement to queue 101, that of the first player. -/
theorem ready_barrier_witness :
    handle_messages scenario_config 0 scenario_state [⟨1, 0⟩] =
      some ({ scenario_state with ready_players := 1 }, []) ∧
    handle_messages scenario_config 0 scenario_state [⟨1, 0⟩, ⟨1, 0⟩] =
      some (scenario_state, [effect.send 101 ⟨2, 0⟩]) ∧
    ((([⟨1, 0⟩, ⟨1, 0⟩] : List message_t).length < scenario_config.SO_NUM_G →
      handle_messages scenario_config 0 scenario_state [⟨1, 0⟩, ⟨1, 0⟩] =
        some ({ scenario_state with
          ready_players := ([⟨1, 0⟩, ⟨1, 0⟩] : List message_t).length }, [])) ∧
    (([⟨1, 0⟩, ⟨1, 0⟩] : List message_t).length = scenario_config.SO_NUM_G →
      ∃ p0, scenario_state.player_list[0]? = some p0 ∧
        handle_messages scenario_config 0 scenario_state [⟨1, 0⟩, ⟨1, 0⟩] =
          some ({ scenario_state with ready_players := 0, current_placing_player := 0 },
            [effect.send p0.mq_id { message_type := 2, player_pseudo_name := 0 }]))) :=
  ⟨by decide, by decide,
    ready_barrier scenario_config 0 scenario_state [⟨1, 0⟩, ⟨1, 0⟩]
      (by decide) (by decide) (by decide) (by decide) (by decide)⟩

theorem handle_placed (cfg : config) (now : Int) (s : coordinator_t) (m : message_t)
    (hm : m.message_type = 3) (hN : cfg.SO_NUM_G < 4294967296)
    (hlen : s.player_list.length = cfg.SO_NUM_G)
    (hp : s.current_placing_player < cfg.SO_NUM_G) :
    ∃ q, s.player_list[(s.current_placing_player + 1) % cfg.SO_NUM_G]? = some q ∧
      handle_message cfg now s m =
        some ({ s with current_placing_player :=
                  (s.current_placing_player + 1) % cfg.SO_NUM_G },
          [effect.send q.mq_id { message_type := 2, player_pseudo_name := 0 }]) := by
  have hlt : (s.current_placing_player + 1) % cfg.SO_NUM_G < s.player_list.length := by
    rw [hlen]; exact Nat.mod_lt _ (by omega)
  refine ⟨s.player_list[(s.current_placing_player + 1) % cfg.SO_NUM_G],
    List.getElem?_eq_getElem hlt, ?_⟩
  have h3 : ¬ (3 : Nat) = 1 := by decide
  have hget := List.getElem?_eq_getElem hlt
  by_cases hw : s.current_placing_player + 1 = cfg.SO_NUM_G
  · have hmod : (s.current_placing_player + 1) % cfg.SO_NUM_G = 0 := by
      rw [hw]; exact Nat.mod_self _
    have h1 : (s.current_placing_player + 1) % 4294967296 = cfg.SO_NUM_G := by omega
    simp only [hmod] at hget ⊢
    simp only [handle_message, hm, h3, h1, if_true, if_false, allow_pawn_placing]
    rw [hget]
  · have hmod : (s.current_placing_player + 1) % cfg.SO_NUM_G =
        s.current_placing_player + 1 := Nat.mod_eq_of_lt (by omega)
    have h1 : (s.current_placing_player + 1) % 4294967296 = s.current_placing_player + 1 := by
      omega
    simp only [hmod] at hget ⊢
    simp only [handle_message, hm, h3, h1, hw, if_true, if_false, allow_pawn_placing]
    rw [hget]

theorem rotation_index (a j n : Nat) :
    ((a + 1) % n + j + 1) % n = (a + (j + 1) + 1) % n := by
  rw [Nat.add_assoc ((a + 1) % n) j 1, Nat.mod_add_mod]
  congr 1
  omega

theorem placed_run (cfg : config) (now : Int) (hN : cfg.SO_NUM_G < 4294967296)
    (ms : List message_t) :
    ∀ s : coordinator_t, (∀ m ∈ ms, m.message_type = 3) →
      s.player_list.length = cfg.SO_NUM_G → s.current_placing_player < cfg.SO_NUM_G →
      ∃ out, handle_messages cfg now s ms =
          some ({ s with current_placing_player :=
                    (s.current_placing_player + ms.length) % cfg.SO_NUM_G }, out) ∧
        out.length = ms.length ∧
        ∀ j, j < ms.length →
          ∃ q, s.player_list[(s.current_placing_player + j + 1) % cfg.SO_NUM_G]? = some q ∧
            out[j]? = some (effect.send q.mq_id { message_type := 2, player_pseudo_name := 0 }) := by
  induction ms with
  | nil =>
    intro s _ _ hp
    refine ⟨[], ?_, rfl, ?_⟩
    · simp [handle_messages, Nat.mod_eq_of_lt hp]
    · intro j hj; simp at hj
  | cons m t ih =>
    intro s hall hlen hp
    obtain ⟨q, hq, hstep⟩ := handle_placed cfg now s m (hall m (List.mem_cons_self _ _)) hN hlen hp
    obtain ⟨out, hrun, hol, hout⟩ :=
      ih { s with current_placing_player := (s.current_placing_player + 1) % cfg.SO_NUM_G }
        (fun x hx => hall x (List.mem_cons_of_mem _ hx)) hlen (Nat.mod_lt _ (by omega))
    refine ⟨effect.send q.mq_id { message_type := 2, player_pseudo_name := 0 } :: out,
      ?_, by simp [hol], ?_⟩
    · rw [handle_messages_cons, hstep]
      simp only
      rw [hrun]
      simp only [List.singleton_append, List.length_cons, Option.some.injEq, Prod.mk.injEq,
        and_true]
      congr 1
      rw [Nat.mod_add_mod]
      congr 1
      omega
    · intro j hj
      cases j with
      | zero => exact ⟨q, by simpa using hq, by simp⟩
      | succ j =>
        obtain ⟨q2, hq2, ho2⟩ := hout j (by simp at hj; omega)
        simp only at hq2
        rw [rotation_index] at hq2
        exact ⟨q2, hq2, by simpa using ho2⟩

/-- C10: in a state whose pointer `current_placing_player` is `p < N`, with
`N = SO_NUM_G` players in `player_list`: handling one PawnPlaced (type 3)
sets the pointer to `(p + 1) % N` and emits exactly one message,
AllowPlacement (type 2) to the player at the new pointer; handling `k` of
them in a row emits `k` AllowPlacement messages, the one of index `j` to the
player at `(p + j + 1) % N`; and from a state with ready counter 0, `N` Ready
messages followed by `k` PawnPlaced messages emit `k + 1` AllowPlacement
messages, the one of index `j` to the player at `j % N`: players
0, 1, ..., N-1, 0, 1, ... in turn. -/
theorem placement_rotation (cfg : config) (now : Int) (s : coordinator_t) (m : message_t)
    (readys placeds : List message_t) (hN : cfg.SO_NUM_G < 4294967296)
    (hlen : s.player_list.length = cfg.SO_NUM_G)
    (hp : s.current_placing_player < cfg.SO_NUM_G) (hm : m.message_type = 3)
    (hpl : ∀ x ∈ placeds, x.message_type = 3) :
    (∃ q, s.player_list[(s.current_placing_player + 1) % cfg.SO_NUM_G]? = some q ∧
      handle_message cfg now s m =
        some ({ s with current_placing_player :=
                  (s.current_placing_player + 1) % cfg.SO_NUM_G },
          [effect.send q.mq_id { message_type := 2, player_pseudo_name := 0 }])) ∧
    (∃ out, handle_messages cfg now s placeds =
        some ({ s with current_placing_player :=
                  (s.current_placing_player + placeds.length) % cfg.SO_NUM_G }, out) ∧
      out.length = placeds.length ∧
      ∀ j, j < placeds.length →
        ∃ q, s.player_list[(s.current_placing_player + j + 1) % cfg.SO_NUM_G]? = some q ∧
          out[j]? = some (effect.send q.mq_id { message_type := 2, player_pseudo_name := 0 })) ∧
    (s.ready_players = 0 → (∀ x ∈ readys, x.message_type = 1) →
      readys.length = cfg.SO_NUM_G →
      ∃ out, handle_messages cfg now s (readys ++ placeds) =
          some ({ s with ready_players := 0,
                         current_placing_player := placeds.length % cfg.SO_NUM_G }, out) ∧
        out.length = placeds.length + 1 ∧
        ∀ j, j ≤ placeds.length →
          ∃ q, s.player_list[j % cfg.SO_NUM_G]? = some q ∧
            out[j]? = some (effect.send q.mq_id { message_type := 2, player_pseudo_name := 0 })) := by
  refine ⟨handle_placed cfg now s m hm hN hlen hp, placed_run cfg now hN placeds s hpl hlen hp, ?_⟩
  intro h0 hre hrl
  have hpos : 0 < s.player_list.length := by omega
  have hp0 : s.player_list[0]? = some s.player_list[0] := List.getElem?_eq_getElem hpos
  have hne : readys ≠ [] := by
    intro h; rw [h] at hrl; simp at hrl; omega
  have hready := ready_run_full cfg now hN readys s _ hre hne (by omega) hp0
  obtain ⟨out, hrun, hol, hout⟩ := placed_run cfg now hN placeds
    { s with ready_players := 0, current_placing_player := 0 } hpl hlen (by simp; omega)
  refine ⟨effect.send (s.player_list[0]).mq_id { message_type := 2, player_pseudo_name := 0 }
    :: out, ?_, by simp [hol], ?_⟩
  · rw [handle_messages_append cfg now readys s placeds _ _ hready, hrun]
    simp
  · intro j hj
    cases j with
    | zero => exact ⟨s.player_list[0], by simp [hp0], by simp⟩
    | succ j =>
      obtain ⟨q2, hq2, ho2⟩ := hout j (by omega)
      simp only [Nat.zero_add] at hq2
      exact ⟨q2, hq2, by simpa using ho2⟩

/-- C10 in the scenario with two players: after the two Ready messages, three
PawnPlaced messages; AllowPlacement goes to queues 101, 102, 101, 102. -/
theorem placement_rotation_witness :
    handle_messages scenario_config 0 scenario_state
        ([⟨1, 65⟩, ⟨1, 66⟩] ++ [⟨3, 0⟩, ⟨3, 0⟩, ⟨3, 0⟩]) =
      some ({ scenario_state with current_placing_player := 1 },
        [effect.send 101 ⟨2, 0⟩, effect.send 102 ⟨2, 0⟩, effect.send 101 ⟨2, 0⟩,
          effect.send 102 ⟨2, 0⟩]) ∧
    ∃ out, handle_messages scenario_config 0 scenario_state
        ([⟨1, 65⟩, ⟨1, 66⟩] ++ [⟨3, 0⟩, ⟨3, 0⟩, ⟨3, 0⟩]) =
          some ({ scenario_state with
                  ready_players := 0,
                  current_placing_player :=
                    (([⟨3, 0⟩, ⟨3, 0⟩, ⟨3, 0⟩] : List message_t).length %
                      scenario_config.SO_NUM_G) },
            out) ∧
        out.length = ([⟨3, 0⟩, ⟨3, 0⟩, ⟨3, 0⟩] : List message_t).length + 1 ∧
        ∀ j, j ≤ ([⟨3, 0⟩, ⟨3, 0⟩, ⟨3, 0⟩] : List message_t).length →
          ∃ q, scenario_state.player_list[j % scenario_config.SO_NUM_G]? = some q ∧
            out[j]? = some (effect.send q.mq_id { message_type := 2, player_pseudo_name := 0 }) :=
  ⟨by decide,
    (placement_rotation scenario_config 0 scenario_state ⟨3, 0⟩ [⟨1, 65⟩, ⟨1, 66⟩]
      [⟨3, 0⟩, ⟨3, 0⟩, ⟨3, 0⟩] (by decide) (by decide) (by decide) (by decide)
      (by decide)).2.2 (by decide) (by decide) (by decide)⟩

/-! ## Coordinator: broadcasts and the RoundReady barrier -/

theorem foldl_append_singleton {α β : Type} (f : α → β) (l : List α) :
    ∀ init : List β, l.foldl (fun out a => out ++ [f a]) init = init ++ l.map f := by
  induction l with
  | nil => intro init; simp
  | cons a t ih => intro init; simp [List.foldl_cons, ih]

theorem broadcast_signal_to_players_eq (ps : List player_t) (type : Nat) :
    broadcast_signal_to_players ps ps.length type =
      some (ps.map (fun p =>
        effect.send p.mq_id { message_type := type, player_pseudo_name := 0 })) := by
  unfold broadcast_signal_to_players
  rw [for_loop_fold ps
    (fun out p => out ++ [effect.send p.mq_id { message_type := type, player_pseudo_name := 0 }])
    (broadcast_signal_body ps type)
    (by
      intro i s a ha
      simp [broadcast_signal_body, ha])
    ps.length 0 [] (by omega)]
  rw [List.drop_zero, foldl_append_singleton]
  simp

theorem broadcast_signal_eq (ps : List player_t) (n type : Nat) (hlen : ps.length = n) :
    broadcast_signal_to_players ps n type = some (signal_to_all ps type) := by
  subst hlen
  exact broadcast_signal_to_players_eq ps type

theorem signal_to_all_congr (ps : List player_t) (f : player_t → player_t) (type : Nat)
    (hf : ∀ p, (f p).mq_id = p.mq_id) :
    signal_to_all (ps.map f) type = signal_to_all ps type := by
  simp [signal_to_all, List.map_map, Function.comp, hf]

theorem mem_signal_to_all (ps : List player_t) (type : Nat) (e : effect)
    (he : e ∈ signal_to_all ps type) :
    ∃ q, e = effect.send q { message_type := type, player_pseudo_name := 0 } := by
  simp only [signal_to_all, List.mem_map] at he
  obtain ⟨p, _, hp⟩ := he
  exact ⟨p.mq_id, hp.symm⟩

theorem exec_round_eq (cfg : config) (s : coordinator_t)
    (hlen : s.player_list.length = cfg.SO_NUM_G) :
    exec_round cfg s =
      (spawn_flags { s.game_board with round_in_progress := 1 }
          cfg.SO_FLAG_MIN cfg.SO_FLAG_MAX cfg.SO_ROUND_SCORE s.draws).map
        (fun r =>
          ({ s with conquered_flags := 0,
                    current_round := (s.current_round + 1) % 4294967296,
                    game_board := r.1, flag_count := r.2.1, draws := r.2.2 },
            signal_to_all s.player_list 5)) := by
  unfold exec_round
  simp only
  cases h : spawn_flags { s.game_board with round_in_progress := 1 }
      cfg.SO_FLAG_MIN cfg.SO_FLAG_MAX cfg.SO_ROUND_SCORE s.draws with
  | none => simp
  | some r =>
    obtain ⟨b, c, d⟩ := r
    simp [broadcast_signal_eq s.player_list cfg.SO_NUM_G 5 hlen]

theorem owned_score_congr (b b1 : board_t) (name : Nat) (h : b1.cells = b.cells) :
    owned_score b1 name = owned_score b name := by
  simp [owned_score, h]

theorem end_round_eq (cfg : config) (now : Int) (s : coordinator_t)
    (hv : valid_board s.game_board) (hlen : s.player_list.length = cfg.SO_NUM_G) :
    end_round cfg now s =
      some ({ s with
              game_board := { s.game_board with round_in_progress := 0 },
              player_list := s.player_list.map (scored s.game_board),
              total_playing_time :=
                toU32 ((s.total_playing_time : Int) + (now - s.round_start_time)) },
        [effect.alarm 0]) := by
  have hv0 : valid_board { s.game_board with round_in_progress := 0 } := hv
  have hu := update_players_score_eq { s.game_board with round_in_progress := 0 }
    s.player_list 1 hv0
  rw [hlen] at hu
  unfold end_round
  simp only [hu]
  simp [scored, owned_score]

theorem restore_moves_eq (ps : List player_t) (moves n : Nat) (hlen : ps.length = n) :
    for_loop (restore_moves_body moves) n 0 ps =
      some (ps.map (fun p => { p with available_moves := moves })) := by
  subst hlen
  exact for_loop_map (fun p : player_t => { p with available_moves := moves })
    (restore_moves_body moves)
    (by
      intro i l a ha
      simp [restore_moves_body, ha])
    ps

theorem start_over_again_eq (cfg : config) (s : coordinator_t)
    (hv : valid_board s.game_board) (hlen : s.player_list.length = cfg.SO_NUM_G) :
    start_over_again cfg s =
      (exec_round cfg
        { s with
          player_list := s.player_list.map (fun p =>
            { p with available_moves := (cfg.SO_NUM_P * cfg.SO_N_MOVES) % 4294967296 }),
          game_board := { s.game_board with cells := s.game_board.cells.map cleared } }).map
        (fun r => (r.1, signal_to_all s.player_list 12 ++ r.2)) := by
  unfold start_over_again
  simp only [restore_moves_eq s.player_list _ cfg.SO_NUM_G hlen, remove_flags_eq s.game_board hv]
  rw [broadcast_signal_eq _ cfg.SO_NUM_G 12 (by simpa using hlen)]
  rw [signal_to_all_congr _ _ _ (by intro p; rfl)]
  simp only
  cases h : exec_round cfg
      { s with
        player_list := s.player_list.map (fun p =>
          { p with available_moves := (cfg.SO_NUM_P * cfg.SO_N_MOVES) % 4294967296 }),
        game_board := { s.game_board with cells := s.game_board.cells.map cleared } } with
  | none => simp
  | some r => obtain ⟨s3, o⟩ := r; simp

theorem round_end_transition_eq (cfg : config) (now : Int) (s : coordinator_t)
    (hv : valid_board s.game_board) (hlen : s.player_list.length = cfg.SO_NUM_G) :
    round_end_transition cfg now s =
      (spawn_flags (next_round_board s.game_board)
          cfg.SO_FLAG_MIN cfg.SO_FLAG_MAX cfg.SO_ROUND_SCORE s.draws).map
        (fun r =>
          ({ s with
              conquered_flags := 0,
              current_round := (s.current_round + 1) % 4294967296,
              total_playing_time :=
                toU32 ((s.total_playing_time : Int) + (now - s.round_start_time)),
              player_list := s.player_list.map (next_round_player cfg s.game_board),
              game_board := r.1, flag_count := r.2.1, draws := r.2.2 },
            [effect.alarm 0] ++ signal_to_all s.player_list 12 ++
              signal_to_all s.player_list 5)) := by
  unfold round_end_transition
  rw [end_round_eq cfg now s hv hlen]
  simp only
  rw [start_over_again_eq cfg _ (by exact hv) (by simpa using hlen)]
  rw [exec_round_eq cfg _ (by simpa using hlen)]
  cases h : spawn_flags (next_round_board s.game_board)
      cfg.SO_FLAG_MIN cfg.SO_FLAG_MAX cfg.SO_ROUND_SCORE s.draws with
  | none =>
    simp only [next_round_board] at h
    simp [h]
  | some r =>
    simp only [next_round_board] at h
    simp [h, next_round_player, signal_to_all, List.map_map, Function.comp]
    rfl

theorem handle_flag_captured_eq (cfg : config) (now : Int) (s : coordinator_t) (m : message_t)
    (hm : m.message_type = 9) (hlen : s.player_list.length = cfg.SO_NUM_G) :
    handle_message cfg now s m =
      if (s.conquered_flags + 1) % 4294967296 = s.flag_count then
        (round_end_transition cfg now
          { s with conquered_flags := (s.conquered_flags + 1) % 4294967296 }).map
          (fun r => (r.1, signal_to_all s.player_list 9 ++ r.2))
      else
        some ({ s with conquered_flags := (s.conquered_flags + 1) % 4294967296 },
          signal_to_all s.player_list 9) := by
  have h1 : ¬ (9 : Nat) = 1 := by decide
  have h3 : ¬ (9 : Nat) = 3 := by decide
  have h4 : ¬ (9 : Nat) = 4 := by decide
  have h6 : ¬ (9 : Nat) = 6 := by decide
  simp only [handle_message, hm, h1, h3, h4, h6, if_false, if_true,
    broadcast_signal_eq s.player_list cfg.SO_NUM_G 9 hlen, round_end_transition]
  by_cases hc : (s.conquered_flags + 1) % 4294967296 = s.flag_count
  · simp only [hc, if_true]
    cases he : end_round cfg now
        { s with conquered_flags := s.flag_count } with
    | none => simp
    | some r2 =>
      obtain ⟨s2, out2⟩ := r2
      simp only
      cases hs : start_over_again cfg s2 with
      | none => simp
      | some r3 => obtain ⟨s3, out3⟩ := r3; simp
  · simp only [hc, if_false]

theorem spawn_flags_placed (b b1 : board_t) (min max max_score c : Nat) (draws rest : List Nat)
    (hret : spawn_flags b min max max_score draws = some (b1, c, rest)) :
    ∃ placed : List Nat, placed.length = c ∧ flags_placed b b1 placed := by
  unfold spawn_flags at hret
  cases draws with
  | nil => simp at hret
  | cons r t =>
    simp only at hret
    split at hret
    · simp at hret
    · split at hret
      · simp at hret
      · rename_i s hloop
        simp only [Option.some.injEq, Prod.mk.injEq] at hret
        obtain ⟨hb1, hc, _⟩ := hret
        subst hb1
        obtain ⟨placed, hlen, hpl⟩ := spawn_flags_loop_places b _ _ s hloop rfl
        exact ⟨placed, by omega, hpl⟩

theorem pawn_kept_by_cleared (b : board_t) (i : Nat) (h : occupant_at b i = some 2) :
    occupant_at (next_round_board b) i = some 2 ∧
      owner_at (next_round_board b) i = owner_at b i := by
  simp only [occupant_at, owner_at, next_round_board, List.getElem?_map] at h ⊢
  cases hc : b.cells[i]? with
  | none => rw [hc] at h; simp at h
  | some c =>
    rw [hc] at h
    simp only [Option.map_some', Option.some.injEq] at h
    simp [cleared, h]

theorem pawn_kept_by_spawn (b b1 : board_t) (placed : List Nat) (i : Nat)
    (hpl : flags_placed b b1 placed) (h : occupant_at b i = some 2) :
    occupant_at b1 i = some 2 ∧ owner_at b1 i = owner_at b i := by
  have hnot : i ∉ placed := by
    intro hmem
    have h0 := (hpl.2.2.1 i hmem).1
    rw [h] at h0
    simp at h0
  have hsame := hpl.2.2.2 i hnot
  simp only [occupant_at, owner_at, hsame] at h ⊢
  exact ⟨h, trivial⟩

theorem filter_signal_same (ps : List player_t) (type : Nat) :
    (signal_to_all ps type).filter (is_send_of_type type) = signal_to_all ps type := by
  rw [List.filter_eq_self]
  intro e he
  obtain ⟨q, hq⟩ := mem_signal_to_all ps type e he
  subst hq
  simp [is_send_of_type]

theorem filter_signal_other (ps : List player_t) (t1 t2 : Nat) (hne : t2 ≠ t1) :
    (signal_to_all ps t2).filter (is_send_of_type t1) = [] := by
  rw [List.filter_eq_nil_iff]
  intro e he
  obtain ⟨q, hq⟩ := mem_signal_to_all ps t2 e he
  subst hq
  simp [is_send_of_type, hne]

theorem alarm_not_mem_signal (ps : List player_t) (type n : Nat) :
    effect.alarm n ∉ signal_to_all ps type := by
  intro he
  obtain ⟨q, hq⟩ := mem_signal_to_all ps type _ he
  simp at hq

/-- C12: with `N = SO_NUM_G` players in `player_list` and a valid board,
handling FlagCaptured (type 9) increments `conquered_flags` as an `unsigned
int` (by one, below 4294967295). If the incremented counter differs from
`flag_count`, nothing else happens: the new state is the old one with the new
counter and the effects are one FlagCaptured to each player. If it equals
`flag_count`, the result is that of `end_round` followed by
`start_over_again`, run on the state with the incremented counter, after the
same broadcast. In every run that returns, the messages of type 9 are exactly
one to each player, and the timer is disarmed (the first step of
`end_round`) if and only if the incremented counter equals `flag_count`. -/
theorem flag_captured_counts_and_ends_round (cfg : config) (now : Int) (s : coordinator_t)
    (m : message_t) (hm : m.message_type = 9)
    (hlen : s.player_list.length = cfg.SO_NUM_G) (hv : valid_board s.game_board) :
    ((s.conquered_flags + 1) % 4294967296 ≠ s.flag_count →
      handle_message cfg now s m =
        some ({ s with conquered_flags := (s.conquered_flags + 1) % 4294967296 },
          signal_to_all s.player_list 9)) ∧
    ((s.conquered_flags + 1) % 4294967296 = s.flag_count →
      handle_message cfg now s m =
        (round_end_transition cfg now
          { s with conquered_flags := (s.conquered_flags + 1) % 4294967296 }).map
          (fun r => (r.1, signal_to_all s.player_list 9 ++ r.2))) ∧
    (s.conquered_flags < 4294967295 →
      (s.conquered_flags + 1) % 4294967296 = s.conquered_flags + 1) ∧
    (∀ s1 out, handle_message cfg now s m = some (s1, out) →
      out.filter (is_send_of_type 9) = signal_to_all s.player_list 9 ∧
      (effect.alarm 0 ∈ out ↔ (s.conquered_flags + 1) % 4294967296 = s.flag_count)) := by
  have heq := handle_flag_captured_eq cfg now s m hm hlen
  refine ⟨?_, ?_, by omega, ?_⟩
  · intro hne; rw [heq, if_neg hne]
  · intro hc; rw [heq, if_pos hc]
  · intro s1 out hret
    rw [heq] at hret
    by_cases hc : (s.conquered_flags + 1) % 4294967296 = s.flag_count
    · rw [if_pos hc, round_end_transition_eq cfg now
      { s with conquered_flags := (s.conquered_flags + 1) % 4294967296 } hv hlen] at hret
      simp only [Option.map_map] at hret
      cases hsp : spawn_flags (next_round_board s.game_board)
          cfg.SO_FLAG_MIN cfg.SO_FLAG_MAX cfg.SO_ROUND_SCORE s.draws with
      | none => simp [hsp] at hret
      | some r =>
        simp only [hsp, Option.map_some', Function.comp, Option.some.injEq,
          Prod.mk.injEq] at hret
        obtain ⟨_, hout⟩ := hret
        subst hout
        constructor
        · simp [List.filter_append, filter_signal_same, filter_signal_other, is_send_of_type]
        · simp [hc]
    · rw [if_neg hc] at hret
      simp only [Option.some.injEq, Prod.mk.injEq] at hret
      obtain ⟨_, hout⟩ := hret
      subst hout
      exact ⟨filter_signal_same _ _, by simp [hc, alarm_not_mem_signal]⟩

/-- C12 in the scenario: with one flag spawned and none conquered the round
ends, with two flags spawned it goes on. -/
theorem flag_captured_counts_and_ends_round_witness :
    handle_message scenario_config 45 { last_capture_state with flag_count := 2 } ⟨9, 65⟩ =
      some ({ last_capture_state with flag_count := 2, conquered_flags := 1 },
        [effect.send 101 ⟨9, 0⟩, effect.send 102 ⟨9, 0⟩]) ∧
    ((last_capture_state.conquered_flags + 1) % 4294967296 = last_capture_state.flag_count →
      handle_message scenario_config 45 last_capture_state ⟨9, 65⟩ =
        (round_end_transition scenario_config 45
          { last_capture_state with
            conquered_flags := (last_capture_state.conquered_flags + 1) % 4294967296 }).map
          (fun r => (r.1, signal_to_all last_capture_state.player_list 9 ++ r.2))) :=
  ⟨by decide,
    (flag_captured_counts_and_ends_round scenario_config 45 last_capture_state ⟨9, 65⟩
      (by decide) (by decide) (by decide)).2.1⟩

/-- C13 fails as stated when a `global_score` leaves the range of `unsigned
int`: in `full_score_state` the board is valid, the capture reported is the
last of the round, player 65 owns cell 0 with score 2 and has the
`global_score` 4294967295; after the round-end transition its `global_score`
is 1, not 4294967295 + 2. -/
theorem last_capture_global_score_wraps :
    valid_board full_score_state.game_board ∧
    (full_score_state.conquered_flags + 1) % 4294967296 = full_score_state.flag_count ∧
    full_score_state.player_list.map (fun p => (p.pseudo_name, p.global_score)) =
      [(65, 4294967295), (66, 0)] ∧
    owned_score full_score_state.game_board 65 = 2 ∧
    (handle_message scenario_config 45 full_score_state ⟨9, 65⟩).map
        (fun r => r.1.player_list.map (fun p => (p.pseudo_name, p.global_score))) =
      some [(65, 1), (66, 0)] ∧
    (4294967295 : Nat) + 2 ≠ 1 := by
  decide

/-- C13, amended: when FlagCaptured (type 9) is handled in a state where the
incremented counter equals `flag_count` (valid board, `N = SO_NUM_G` players),
the result is defined exactly when `spawn_flags` returns on the cleared board,
and then: the effects are, in this order, FlagCaptured to each player,
`alarm(0)`, ResetMoves (type 12) to each player and RoundReady (type 5) to
each player, so no AllowPlacement (type 2); each player's `global_score` has
grown by the sum of the scores on the cells the player owned before the flags
were removed (in `unsigned int` arithmetic: exactly that sum when the result
stays below 2^32); the board handed to `spawn_flags` has score 0 and no Flag
on every cell; the counters are those of a new round; and every cell that
held a Pawn holds a Pawn of the same owner afterwards. -/
theorem last_capture_round_end (cfg : config) (now : Int) (s : coordinator_t) (m : message_t)
    (hm : m.message_type = 9)
    (hlast : (s.conquered_flags + 1) % 4294967296 = s.flag_count)
    (hv : valid_board s.game_board) (hlen : s.player_list.length = cfg.SO_NUM_G) :
    handle_message cfg now s m =
      (spawn_flags (next_round_board s.game_board)
          cfg.SO_FLAG_MIN cfg.SO_FLAG_MAX cfg.SO_ROUND_SCORE s.draws).map
        (fun r =>
          ({ s with
              conquered_flags := 0,
              current_round := (s.current_round + 1) % 4294967296,
              total_playing_time :=
                toU32 ((s.total_playing_time : Int) + (now - s.round_start_time)),
              player_list := s.player_list.map (next_round_player cfg s.game_board),
              game_board := r.1, flag_count := r.2.1, draws := r.2.2 },
            signal_to_all s.player_list 9 ++ [effect.alarm 0] ++
              signal_to_all s.player_list 12 ++ signal_to_all s.player_list 5)) ∧
    (∀ (i : Nat) (c : cell_t), (next_round_board s.game_board).cells[i]? = some c →
      c.flag_score = 0 ∧ c.occupant_type ≠ 1) ∧
    (∀ p ∈ s.player_list,
      (next_round_player cfg s.game_board p).global_score =
        (p.global_score + owned_score s.game_board p.pseudo_name % 4294967296) % 4294967296 ∧
      (p.global_score + owned_score s.game_board p.pseudo_name < 4294967296 →
        (next_round_player cfg s.game_board p).global_score =
          p.global_score + owned_score s.game_board p.pseudo_name) ∧
      (next_round_player cfg s.game_board p).pseudo_name = p.pseudo_name ∧
      (next_round_player cfg s.game_board p).mq_id = p.mq_id) ∧
    (∀ s1 out, handle_message cfg now s m = some (s1, out) →
      (∀ e ∈ out, is_send_of_type 2 e = false) ∧
      (∀ i, occupant_at s.game_board i = some 2 →
        occupant_at s1.game_board i = some 2 ∧
          owner_at s1.game_board i = owner_at s.game_board i)) := by
  have heq : handle_message cfg now s m =
      (spawn_flags (next_round_board s.game_board)
          cfg.SO_FLAG_MIN cfg.SO_FLAG_MAX cfg.SO_ROUND_SCORE s.draws).map
        (fun r =>
          ({ s with
              conquered_flags := 0,
              current_round := (s.current_round + 1) % 4294967296,
              total_playing_time :=
                toU32 ((s.total_playing_time : Int) + (now - s.round_start_time)),
              player_list := s.player_list.map (next_round_player cfg s.game_board),
              game_board := r.1, flag_count := r.2.1, draws := r.2.2 },
            signal_to_all s.player_list 9 ++ [effect.alarm 0] ++
              signal_to_all s.player_list 12 ++ signal_to_all s.player_list 5)) := by
    rw [handle_flag_captured_eq cfg now s m hm hlen, if_pos hlast,
      round_end_transition_eq cfg now
      { s with conquered_flags := (s.conquered_flags + 1) % 4294967296 } hv hlen]
    cases hsp : spawn_flags (next_round_board s.game_board)
        cfg.SO_FLAG_MIN cfg.SO_FLAG_MAX cfg.SO_ROUND_SCORE s.draws with
    | none => simp [hsp]
    | some r => simp [hsp, List.append_assoc]
  refine ⟨heq, ?_, ?_, ?_⟩
  · intro i c hc
    simp only [next_round_board, List.getElem?_map] at hc
    cases h0 : s.game_board.cells[i]? with
    | none => rw [h0] at hc; simp at hc
    | some c0 =>
      rw [h0] at hc
      simp only [Option.map_some', Option.some.injEq] at hc
      subst hc
      by_cases h1 : c0.occupant_type = 1 <;> simp [cleared, h1]
  · intro p _
    refine ⟨rfl, ?_, rfl, rfl⟩
    intro h
    simp only [next_round_player, scored]
    omega
  · intro s1 out hret
    rw [heq] at hret
    cases hsp : spawn_flags (next_round_board s.game_board)
        cfg.SO_FLAG_MIN cfg.SO_FLAG_MAX cfg.SO_ROUND_SCORE s.draws with
    | none => simp [hsp] at hret
    | some r =>
      obtain ⟨b1, c, d⟩ := r
      simp only [hsp, Option.map_some', Option.some.injEq, Prod.mk.injEq] at hret
      obtain ⟨hs1, hout⟩ := hret
      subst hs1; subst hout
      constructor
      · intro e he
        simp only [List.mem_append, List.mem_singleton] at he
        rcases he with ((he | he) | he) | he
        · obtain ⟨q, hq⟩ := mem_signal_to_all _ _ e he
          subst hq; simp [is_send_of_type]
        · subst he; simp [is_send_of_type]
        · obtain ⟨q, hq⟩ := mem_signal_to_all _ _ e he
          subst hq; simp [is_send_of_type]
        · obtain ⟨q, hq⟩ := mem_signal_to_all _ _ e he
          subst hq; simp [is_send_of_type]
      · intro i hi
        obtain ⟨placed, _, hpl⟩ := spawn_flags_placed _ _ _ _ _ _ _ _ hsp
        obtain ⟨h1, h2⟩ := pawn_kept_by_cleared s.game_board i hi
        obtain ⟨h3, h4⟩ := pawn_kept_by_spawn _ b1 placed i hpl h1
        exact ⟨h3, by rw [h4, h2]⟩

/-- C13, amended, in the scenario: player 65 owns cell 0 with score 2 when the
only flag of the round is reported conquered; its `global_score` goes from 4
to 6, the score of cell 0 is reset, both pawns stay, two new flags are
spawned. -/
theorem last_capture_round_end_witness :
    handle_message scenario_config 45 last_capture_state ⟨9, 65⟩ =
      some ({ last_capture_state with
          current_round := 2, total_playing_time := 5, conquered_flags := 0, flag_count := 2,
          player_list := [⟨101, 1001, 65, 1, 1, 2, 6⟩, ⟨102, 1002, 66, 1, 1, 0, 0⟩],
          game_board := ⟨3, 3, 0, 0, 0, 1,
            [⟨65, 0, 2, 0⟩, ⟨0, 0, 0, 0⟩, ⟨0, 1, 1, 0⟩, ⟨0, 0, 0, 0⟩, ⟨0, 2, 1, 0⟩,
             ⟨0, 0, 0, 0⟩, ⟨0, 0, 0, 0⟩, ⟨0, 0, 0, 0⟩, ⟨66, 0, 2, 0⟩]⟩,
          draws := [] },
        [effect.send 101 ⟨9, 0⟩, effect.send 102 ⟨9, 0⟩, effect.alarm 0,
         effect.send 101 ⟨12, 0⟩, effect.send 102 ⟨12, 0⟩,
         effect.send 101 ⟨5, 0⟩, effect.send 102 ⟨5, 0⟩]) ∧
    (∀ p ∈ last_capture_state.player_list,
      (next_round_player scenario_config last_capture_state.game_board p).global_score =
        (p.global_score + owned_score last_capture_state.game_board p.pseudo_name %
          4294967296) % 4294967296 ∧
      (p.global_score + owned_score last_capture_state.game_board p.pseudo_name < 4294967296 →
        (next_round_player scenario_config last_capture_state.game_board p).global_score =
          p.global_score + owned_score last_capture_state.game_board p.pseudo_name) ∧
      (next_round_player scenario_config last_capture_state.game_board p).pseudo_name =
        p.pseudo_name ∧
      (next_round_player scenario_config last_capture_state.game_board p).mq_id = p.mq_id) :=
  ⟨by decide,
    (last_capture_round_end scenario_config 45 last_capture_state ⟨9, 65⟩
      (by decide) (by decide) (by decide) (by decide)).2.2.1⟩

/-! ## Coordinator: PawnMoved -/

theorem get_player_index_found (ps : List player_t) (name i : Nat) (p : player_t)
    (hN : ps.length ≤ 4294967295) (hp : ps[i]? = some p) (hname : p.pseudo_name = name)
    (hfirst : ∀ (j : Nat) (q : player_t), j < i → ps[j]? = some q → q.pseudo_name ≠ name) :
    get_player_index ps ps.length name = some i := by
  have hi : i < ps.length := by
    by_contra hge
    rw [List.getElem?_eq_none (by omega)] at hp
    simp at hp
  obtain ⟨r, hr, hP⟩ := for_loop_total (get_player_index_body ps name)
    (fun j idx => (j ≤ i ∧ idx = 4294967295) ∨ (i < j ∧ idx = i)) ps.length
    (by
      intro j idx hj hP
      have hq : ps[j]? = some ps[j] := List.getElem?_eq_getElem hj
      rcases hP with ⟨hle, hidx⟩ | ⟨hlt, hidx⟩
      · subst hidx
        by_cases hji : j = i
        · subst hji
          rw [hp] at hq
          refine ⟨j, ?_, Or.inr ⟨by omega, rfl⟩⟩
          simp [get_player_index_body, hp, hname]
        · have hne := hfirst j ps[j] (by omega) hq
          refine ⟨4294967295, ?_, Or.inl ⟨by omega, rfl⟩⟩
          simp [get_player_index_body, hq, hne]
      · have hne : idx ≠ 4294967295 := by omega
        refine ⟨idx, ?_, Or.inr ⟨by omega, hidx⟩⟩
        simp [get_player_index_body, hne])
    ps.length 0 4294967295 (by omega) (Or.inl ⟨by omega, rfl⟩)
  unfold get_player_index
  rw [hr]
  rcases hP with ⟨hle, _⟩ | ⟨_, hidx⟩
  · omega
  · rw [hidx]

theorem get_player_index_absent (ps : List player_t) (name : Nat)
    (habs : ∀ q ∈ ps, q.pseudo_name ≠ name) :
    get_player_index ps ps.length name = some 4294967295 := by
  obtain ⟨r, hr, hP⟩ := for_loop_total (get_player_index_body ps name)
    (fun _ idx => idx = 4294967295) ps.length
    (by
      intro j idx hj hP
      subst hP
      have hq : ps[j]? = some ps[j] := List.getElem?_eq_getElem hj
      have hne := habs ps[j] (List.getElem_mem hj)
      exact ⟨4294967295, by simp [get_player_index_body, hq, hne], rfl⟩)
    ps.length 0 4294967295 (by omega) rfl
  unfold get_player_index
  rw [hr, hP]

/-- C14 fails as stated when the counter is 0: in `last_capture_state` player
65 has `available_moves = 0`, and handling its PawnMoved leaves the counter
at 4294967295. -/
theorem pawn_moved_at_zero_wraps :
    (last_capture_state.player_list[0]?).map (fun p => (p.pseudo_name, p.available_moves)) =
      some (65, 0) ∧
    (handle_message scenario_config 45 last_capture_state ⟨10, 65⟩).map
        (fun r => (r.1.player_list.map (fun p => (p.pseudo_name, p.available_moves)), r.2)) =
      some ([(65, 4294967295), (66, 1)], []) := by
  decide

/-- C14, amended: with `N = SO_NUM_G` players in `player_list`, handling a
PawnMoved (type 10) whose identity is that of player `i`, the first player of
the list with that identity, gives the old state in which only
`available_moves` of player `i` has changed, by an `unsigned int` decrement:
one less when it was at least 1, 4294967295 when it was 0; no effect is
emitted. A PawnMoved whose identity is that of no player returns the state
unchanged, with no effect. -/
theorem pawn_moved_decrements (cfg : config) (now : Int) (s : coordinator_t) (m : message_t)
    (hm : m.message_type = 10) (hlen : s.player_list.length = cfg.SO_NUM_G)
    (hN : cfg.SO_NUM_G ≤ 4294967295) :
    (∀ (i : Nat) (p : player_t), s.player_list[i]? = some p →
      p.pseudo_name = m.player_pseudo_name →
      (∀ (j : Nat) (q : player_t), j < i → s.player_list[j]? = some q →
        q.pseudo_name ≠ m.player_pseudo_name) →
      handle_message cfg now s m =
        some ({ s with player_list := s.player_list.set i { p with
                  available_moves := subU32 p.available_moves 1 } }, []) ∧
      (1 ≤ p.available_moves → p.available_moves < 4294967296 →
        subU32 p.available_moves 1 = p.available_moves - 1) ∧
      (p.available_moves = 0 → subU32 p.available_moves 1 = 4294967295)) ∧
    ((∀ q ∈ s.player_list, q.pseudo_name ≠ m.player_pseudo_name) →
      handle_message cfg now s m = some (s, [])) := by
  have h1 : ¬ (10 : Nat) = 1 := by decide
  have h3 : ¬ (10 : Nat) = 3 := by decide
  have h4 : ¬ (10 : Nat) = 4 := by decide
  have h6 : ¬ (10 : Nat) = 6 := by decide
  have h9 : ¬ (10 : Nat) = 9 := by decide
  constructor
  · intro i p hp hname hfirst
    have hi : i < s.player_list.length := by
      by_contra hge
      rw [List.getElem?_eq_none (by omega)] at hp
      simp at hp
    have hidx := get_player_index_found s.player_list m.player_pseudo_name i p
      (by omega) hp hname hfirst
    rw [hlen] at hidx
    have hne : i ≠ 4294967295 := by omega
    refine ⟨?_, ?_, ?_⟩
    · simp only [handle_message, hm, h1, h3, h4, h6, h9, if_false, if_true, hidx, hp, hne,
        ne_eq, not_false_eq_true]
    · intro h hlt; unfold subU32; omega
    · intro h; unfold subU32; omega
  · intro habs
    have hidx := get_player_index_absent s.player_list m.player_pseudo_name habs
    rw [hlen] at hidx
    simp only [handle_message, hm, h1, h3, h4, h6, h9, if_false, if_true, hidx, ne_eq,
      not_true_eq_false]

/-- C14, amended, in the scenario: a PawnMoved of player 66, whose counter
is 1, and one of an identity that no player has. -/
theorem pawn_moved_decrements_witness :
    (handle_message scenario_config 45 last_capture_state ⟨10, 66⟩ =
      some ({ last_capture_state with
        player_list := last_capture_state.player_list.set 1 { (⟨102, 1002, 66, 1, 1, 0, 0⟩ :
          player_t) with available_moves := subU32 1 1 } }, []) ∧
      (1 ≤ 1 → 1 < 4294967296 → subU32 1 1 = 1 - 1) ∧
      ((1 : Nat) = 0 → subU32 1 1 = 4294967295)) ∧
    ((∀ q ∈ last_capture_state.player_list,
        q.pseudo_name ≠ (⟨10, 67⟩ : message_t).player_pseudo_name) →
      handle_message scenario_config 45 last_capture_state ⟨10, 67⟩ =
        some (last_capture_state, [])) :=
  ⟨(pawn_moved_decrements scenario_config 45 last_capture_state ⟨10, 66⟩
      (by decide) (by decide) (by decide)).1 1 ⟨102, 1002, 66, 1, 1, 0, 0⟩ (by decide)
      (by decide)
      (fun j q hj hq => by
        have hj0 : j = 0 := by omega
        subst hj0
        simp only [last_capture_state, List.getElem?_cons_zero, Option.some.injEq] at hq
        subst hq
        decide),
    (pawn_moved_decrements scenario_config 45 last_capture_state ⟨10, 67⟩
      (by decide) (by decide) (by decide)).2⟩

/-! ## Coordinator: the timeout -/

theorem kill_em_all_eq (cfg : config) (s : coordinator_t)
    (hlen : s.player_list.length = cfg.SO_NUM_G) :
    kill_em_all cfg s =
      some (signal_to_all s.player_list 11 ++
        s.player_list.map (fun p => effect.close_message_queue p.mq_id)) := by
  unfold kill_em_all
  rw [broadcast_signal_eq s.player_list cfg.SO_NUM_G 11 hlen]
  simp only
  rw [← hlen, for_loop_fold s.player_list
    (fun out p => out ++ [effect.close_message_queue p.mq_id])
    (close_queues_body s.player_list)
    (by
      intro i o a ha
      simp [close_queues_body, ha])
    s.player_list.length 0 [] (by omega)]
  rw [List.drop_zero, foldl_append_singleton]
  simp

theorem destroy_board_eq (b : board_t) (hv : valid_board b) :
    destroy_board b =
      some ((List.range b.cells.length).map effect.sem_destroy ++
        [effect.close_message_queue b.coordinator_mq_id]) := by
  unfold destroy_board
  rw [toU32_cells b hv]
  have h := for_loop_fold (List.range b.cells.length)
    (fun out i => out ++ [effect.sem_destroy i])
    (destroy_board_body b)
    (by
      intro i o a ha
      have hi : i < b.cells.length := by
        by_contra hge
        rw [List.getElem?_eq_none (by simp; omega)] at ha
        simp at ha
      rw [List.getElem?_range hi] at ha
      simp only [Option.some.injEq] at ha
      subst ha
      simp [destroy_board_body, List.getElem?_eq_getElem hi])
    b.cells.length 0 [] (by simp)
  rw [h, List.drop_zero, foldl_append_singleton]
  simp

theorem end_game_eq (cfg : config) (now : Int) (s : coordinator_t)
    (hv : valid_board s.game_board) (hlen : s.player_list.length = cfg.SO_NUM_G) :
    end_game cfg now s =
      some ({ s with
              game_board := { s.game_board with round_in_progress := 0 },
              player_list := s.player_list.map (scored s.game_board),
              total_playing_time :=
                toU32 ((s.total_playing_time : Int) + (now - s.round_start_time)) },
        end_game_effects s.game_board s.player_list) := by
  unfold end_game
  rw [end_round_eq cfg now s hv hlen]
  simp only
  rw [kill_em_all_eq cfg _ (by simpa using hlen)]
  simp only
  rw [destroy_board_eq _ (by exact hv)]
  simp [end_game_effects, signal_to_all, List.map_map, Function.comp]
  rfl

theorem end_game_effects_exit (b : board_t) (ps : List player_t) :
    (end_game_effects b ps).any is_exit = true := by
  simp [end_game_effects, is_exit]

theorem end_game_effects_types (b : board_t) (ps : List player_t) :
    (end_game_effects b ps).filter (is_send_of_type 11) = signal_to_all ps 11 ∧
    (∀ e ∈ end_game_effects b ps,
      is_send_of_type 7 e = false ∧ is_send_of_type 5 e = false ∧
        is_send_of_type 2 e = false) ∧
    (end_game_effects b ps).getLast? = some (effect.exit 0) := by
  refine ⟨?_, ?_, ?_⟩
  · simp only [end_game_effects, List.filter_append, filter_signal_same]
    have h1 : (ps.map (fun p => effect.close_message_queue p.mq_id)).filter
        (is_send_of_type 11) = [] := by
      rw [List.filter_eq_nil_iff]
      intro e he
      simp only [List.mem_map] at he
      obtain ⟨p, _, hp⟩ := he
      subst hp
      simp [is_send_of_type]
    have h2 : ((List.range b.cells.length).map effect.sem_destroy).filter
        (is_send_of_type 11) = [] := by
      rw [List.filter_eq_nil_iff]
      intro e he
      simp only [List.mem_map] at he
      obtain ⟨p, _, hp⟩ := he
      subst hp
      simp [is_send_of_type]
    rw [h1, h2]
    simp [is_send_of_type]
  · intro e he
    simp only [end_game_effects, List.mem_append, List.mem_singleton, List.mem_map] at he
    rcases he with ((((he | he) | he) | he) | he) | he
    · subst he; simp [is_send_of_type]
    · obtain ⟨q, hq⟩ := mem_signal_to_all _ _ e he
      subst hq; simp [is_send_of_type]
    · obtain ⟨p, _, hp⟩ := he
      subst hp; simp [is_send_of_type]
    · obtain ⟨p, _, hp⟩ := he
      subst hp; simp [is_send_of_type]
    · subst he; simp [is_send_of_type]
    · subst he; simp [is_send_of_type]
  · unfold end_game_effects
    exact List.getLast?_concat _

/-- C15: on a valid board with `N = SO_NUM_G` players, whatever
`conquered_flags` is, the handler of SIGALRM returns; every player's
`total_score` and `global_score` are finalized as by `end_round`
(`scored`); its effects are those of `end_game`: among them exactly one
Terminate (type 11) to each player, no RoundStart (7), RoundReady (5) or
AllowPlacement (2), and `exit(0)` at the end. The coordinator process that
takes the signal stops there: the events that follow are not handled, so
nothing is sent after it. -/
theorem timeout_ends_game (cfg : config) (now : Int) (s : coordinator_t) (evs : List event)
    (hv : valid_board s.game_board) (hlen : s.player_list.length = cfg.SO_NUM_G) :
    signal_handler cfg now s SIGALRM =
      some ({ s with
              game_board := { s.game_board with round_in_progress := 0 },
              player_list := s.player_list.map (scored s.game_board),
              total_playing_time :=
                toU32 ((s.total_playing_time : Int) + (now - s.round_start_time)) },
        end_game_effects s.game_board s.player_list) ∧
    coordinator_run cfg now s (event.signal SIGALRM :: evs) =
      signal_handler cfg now s SIGALRM ∧
    (end_game_effects s.game_board s.player_list).filter (is_send_of_type 11) =
      signal_to_all s.player_list 11 ∧
    (∀ e ∈ end_game_effects s.game_board s.player_list,
      is_send_of_type 7 e = false ∧ is_send_of_type 5 e = false ∧
        is_send_of_type 2 e = false) ∧
    (end_game_effects s.game_board s.player_list).getLast? = some (effect.exit 0) := by
  have hsig : signal_handler cfg now s SIGALRM =
      some ({ s with
              game_board := { s.game_board with round_in_progress := 0 },
              player_list := s.player_list.map (scored s.game_board),
              total_playing_time :=
                toU32 ((s.total_playing_time : Int) + (now - s.round_start_time)) },
        end_game_effects s.game_board s.player_list) := by
    simp only [signal_handler, if_true]
    exact end_game_eq cfg now s hv hlen
  obtain ⟨h1, h2, h3⟩ := end_game_effects_types s.game_board s.player_list
  refine ⟨hsig, ?_, h1, h2, h3⟩
  simp only [coordinator_run, coordinator_step]
  rw [hsig]
  simp only [end_game_effects_exit, if_true]

/-- C15 in the scenario, one flag not yet conquered: the timeout finalizes
the score of player 65 (4 + 2), sends Terminate to queues 101 and 102 and
exits; the PawnMoved and FlagCaptured that were still to come are not
handled. -/
theorem timeout_ends_game_witness :
    coordinator_run scenario_config 45 last_capture_state
        [event.signal SIGALRM, event.message ⟨10, 66⟩, event.message ⟨9, 65⟩] =
      some ({ last_capture_state with
          total_playing_time := 5,
          player_list := [⟨101, 1001, 65, 0, 1, 2, 6⟩, ⟨102, 1002, 66, 1, 1, 0, 0⟩],
          game_board := { last_capture_state.game_board with round_in_progress := 0 } },
        [effect.alarm 0, effect.send 101 ⟨11, 0⟩, effect.send 102 ⟨11, 0⟩,
         effect.close_message_queue 101, effect.close_message_queue 102,
         effect.sem_destroy 0, effect.sem_destroy 1, effect.sem_destroy 2,
         effect.sem_destroy 3, effect.sem_destroy 4, effect.sem_destroy 5,
         effect.sem_destroy 6, effect.sem_destroy 7, effect.sem_destroy 8,
         effect.close_message_queue 0, effect.exit 0]) ∧
    coordinator_run scenario_config 45 last_capture_state
        (event.signal SIGALRM :: [event.message ⟨10, 66⟩, event.message ⟨9, 65⟩]) =
      signal_handler scenario_config 45 last_capture_state SIGALRM :=
  ⟨by decide,
    (timeout_ends_game scenario_config 45 last_capture_state
      [event.message ⟨10, 66⟩, event.message ⟨9, 65⟩] (by decide) (by decide)).2.1⟩

/-! ## Scores stay on occupied cells -/

theorem getElem?_take_map_drop {α : Type} (f : α → α) (l : List α) (i : Nat)
    (hi : i < l.length) :
    ((l.take i).map f ++ l.drop i)[i]? = some l[i] := by
  rw [List.getElem?_append_right (by simp)]
  simp [List.getElem?_drop, Nat.min_eq_left (Nat.le_of_lt hi), List.getElem?_eq_getElem hi]

theorem set_take_map_drop {α : Type} (f : α → α) (l : List α) (i : Nat) (hi : i < l.length) :
    ((l.take i).map f ++ l.drop i).set i (f l[i]) =
      (l.take (i + 1)).map f ++ l.drop (i + 1) := by
  apply List.ext_getElem?
  intro j
  rw [List.getElem?_set]
  by_cases hj : i = j
  · subst hj
    have hlen : i < ((l.take i).map f ++ l.drop i).length := by
      simp; omega
    rw [if_pos rfl, if_pos hlen]
    rw [List.getElem?_append_left (by simp; omega)]
    simp [List.getElem?_take, List.getElem?_eq_getElem hi]
  · rw [if_neg hj]
    by_cases hlt : j < i
    · rw [List.getElem?_append_left (by simp; omega),
        List.getElem?_append_left (by simp; omega)]
      simp [List.getElem?_take, hlt, show j < i + 1 by omega]
    · rw [List.getElem?_append_right (by simp; omega),
        List.getElem?_append_right (by simp; omega)]
      simp only [List.length_map, List.length_take, List.getElem?_drop]
      congr 1
      omega

theorem generate_board_eq (width height : Int) (memory : List cell_t) (mq_id pid : Int)
    (hw : 0 < width) (hh : 0 < height) (hlt : width * height < 2147483648)
    (hlen : (memory.length : Int) = width * height) :
    generate_board width height memory mq_id pid =
      some { width := width, height := height, coordinator_mq_id := mq_id, waiting_time := 0,
             coordinator_pid := pid, round_in_progress := 0, cells := memory.map zeroed } := by
  have hhn : (height.toNat : Int) = height := Int.toNat_of_nonneg (by omega)
  have hwn : (width.toNat : Int) = width := Int.toNat_of_nonneg (by omega)
  have hlenN : memory.length = width.toNat * height.toNat := by
    have : (memory.length : Int) = ((width.toNat * height.toNat : Nat) : Int) := by
      push_cast; rw [hhn, hwn]; exact hlen
    exact_mod_cast this
  have hhlt := height_lt_of_cells_lt width height _ hw hh hlt
  have hhm : toU32 height = height.toNat := by unfold toU32; omega
  have hwlt : width < 2147483648 := by
    have := height_lt_of_cells_lt height width 2147483648 hh hw (by rw [mul_comm]; exact hlt)
    exact this
  have hwm : toU32 width = width.toNat := by unfold toU32; omega
  have hcells : width.toNat * height.toNat < 2147483648 := by
    have : ((width.toNat * height.toNat : Nat) : Int) < 2147483648 := by
      push_cast; rw [hhn, hwn]; exact hlt
    exact_mod_cast this
  unfold generate_board
  rw [hwm]
  generalize hWdef : width.toNat = W at *
  generalize hHdef : height.toNat = H at *
  -- the board after all cells below index `k` have been set
  let B : Nat → board_t := fun k =>
    { width := width, height := height, coordinator_mq_id := mq_id, waiting_time := 0,
      coordinator_pid := pid, round_in_progress := 0,
      cells := (memory.take k).map zeroed ++ memory.drop k }
  have hcol : ∀ x, x < W → generate_board_column height x (B (x * H)) = some (B ((x + 1) * H)) := by
    intro x hx
    have hxH : x * H + H ≤ W * H := by
      have : (x + 1) * H ≤ W * H := Nat.mul_le_mul_right H (by omega)
      have e : (x + 1) * H = x * H + H := by ring
      omega
    unfold generate_board_column
    rw [hhm]
    obtain ⟨b1, h1, h2⟩ := for_loop_total (generate_board_cell x)
      (fun y t => t = B (x * H + y)) H
      (by
        intro y t hy hP
        subst hP
        have hk : x * H + y < memory.length := by omega
        have hidx : compute_index_from_params (B (x * H + y)) x y = x * H + y := by
          simp only [compute_index_from_params, B, hhm]
          omega
        refine ⟨B (x * H + (y + 1)), ?_, rfl⟩
        simp only [generate_board_cell, hidx]
        have hget : (B (x * H + y)).cells[x * H + y]? = some memory[x * H + y] :=
          getElem?_take_map_drop zeroed memory _ hk
        rw [hget]
        simp only [set_cell, B, Option.some.injEq]
        rw [set_take_map_drop zeroed memory _ hk]
        rfl)
      H 0 (B (x * H)) (by omega) (by simp)
    rw [h1, h2]
    have e : (x + 1) * H = x * H + H := by ring
    simp [e]
  obtain ⟨b1, h1, h2⟩ := for_loop_total (generate_board_column height)
    (fun x t => t = B (x * H)) W
    (by
      intro x t hx hP
      subst hP
      exact ⟨_, hcol x hx, rfl⟩)
    W 0 (B 0) (by omega) (by simp)
  have hB0 : B 0 = ⟨width, height, mq_id, 0, pid, 0, memory⟩ := by
    simp [B]
  rw [← hB0, h1, h2]
  simp only [B, Nat.zero_add, Option.some.injEq]
  congr 1
  rw [← hlenN]
  simp

theorem scores_on_occupied_set_cell (b : board_t) (i : Nat) (c1 : cell_t)
    (hinv : scores_on_occupied b)
    (hc1 : c1.flag_score ≠ 0 → c1.occupant_type = 1 ∨ c1.occupant_type = 2) :
    scores_on_occupied (set_cell b i c1) := by
  intro c hc
  rw [cells_set_cell] at hc
  rcases List.mem_or_eq_of_mem_set hc with h | h
  · exact hinv c h
  · subst h; exact hc1

theorem place_pawn_keeps_scores (b b1 : board_t) (position : coords_t) (name r : Nat)
    (hinv : scores_on_occupied b) (hret : place_pawn b position name = some (b1, r)) :
    scores_on_occupied b1 := by
  unfold place_pawn at hret
  split at hret
  · simp at hret
  · rename_i c hc
    split at hret
    · simp only [Option.some.injEq, Prod.mk.injEq] at hret
      rw [← hret.1]
      exact scores_on_occupied_set_cell _ _ _ hinv (fun _ => Or.inr rfl)
    · split at hret
      · simp only [Option.some.injEq, Prod.mk.injEq] at hret
        rw [← hret.1]
        exact scores_on_occupied_set_cell _ _ _ hinv (fun _ => Or.inr rfl)
      · simp only [Option.some.injEq, Prod.mk.injEq] at hret
        rw [← hret.1]
        exact hinv

theorem move_pawn_keeps_scores (b b1 : board_t) (old_position new_position : coords_t)
    (name r : Nat) (hinv : scores_on_occupied b)
    (hsafe : score_at b old_position.index = some 0 ∨
      is_allowed_position b new_position = some 0)
    (hret : move_pawn b old_position new_position name = some (b1, r)) :
    scores_on_occupied b1 := by
  unfold move_pawn at hret
  split at hret
  · simp at hret
  · rename_i allowed hallow
    by_cases ha : allowed = 1
    · rw [if_pos ha] at hret
      subst ha
      split at hret
      · simp at hret
      · rename_i c hc
        rcases hsafe with hs | hs
        · have hscore : c.flag_score = 0 := by
            simpa [score_at, hc] using hs
          refine place_pawn_keeps_scores _ b1 new_position name r ?_ hret
          apply scores_on_occupied_set_cell _ _ _ hinv
          intro h
          exact absurd hscore h
        · rw [hallow] at hs
          simp at hs
    · rw [if_neg ha] at hret
      simp only [Option.some.injEq, Prod.mk.injEq] at hret
      rw [← hret.1]
      exact hinv

theorem spawn_flags_keeps_scores (b b1 : board_t) (min max max_score c : Nat)
    (draws rest : List Nat) (hinv : scores_on_occupied b)
    (hret : spawn_flags b min max max_score draws = some (b1, c, rest)) :
    scores_on_occupied b1 := by
  unfold spawn_flags at hret
  cases draws with
  | nil => simp at hret
  | cons r t =>
    simp only at hret
    split at hret
    · simp at hret
    · split at hret
      · simp at hret
      · rename_i s hloop
        simp only [Option.some.injEq, Prod.mk.injEq] at hret
        rw [← hret.1]
        have h := for_loop_invariant spawn_flags_body
          (fun _ t => scores_on_occupied t.game_board)
          (by
            intro i t t1 hP hb
            unfold spawn_flags_body at hb
            split at hb
            · simp at hb
            · split at hb
              · simp at hb
              · split at hb
                · simp at hb
                · split at hb
                  · simp at hb
                  · simp only [Option.some.injEq] at hb
                    rw [← hb]
                    exact scores_on_occupied_set_cell _ _ _ hP (fun _ => Or.inl rfl))
          _ 0 _ s hinv hloop
        exact h

theorem remove_flags_keeps_scores (b b1 : board_t) (hinv : scores_on_occupied b)
    (hret : remove_flags b = some b1) : scores_on_occupied b1 := by
  unfold remove_flags at hret
  exact for_loop_invariant remove_flags_body (fun _ t => scores_on_occupied t)
    (by
      intro i t t1 hP hb
      unfold remove_flags_body at hb
      split at hb
      · simp at hb
      · simp only [Option.some.injEq] at hb
        rw [← hb]
        exact scores_on_occupied_set_cell _ _ _ hP (fun h => absurd rfl h))
    _ 0 b b1 hinv hret

theorem place_pawn_returns (b : board_t) (position : coords_t) (name : Nat)
    (hin : position.index < b.cells.length) :
    ∃ b1 r, place_pawn b position name = some (b1, r) := by
  obtain ⟨c, hc⟩ := exists_cell_of_lt b position.index hin
  by_cases h0 : c.occupant_type = 0
  · exact ⟨_, _, place_pawn_empty b position name c hc h0⟩
  · by_cases h1 : c.occupant_type = 1
    · exact ⟨_, _, place_pawn_flag b position name c hc h1⟩
    · exact ⟨_, _, place_pawn_other b position name c hc h0 h1⟩

theorem move_pawn_returns (b : board_t) (old_position new_position : coords_t) (name : Nat)
    (hold : old_position.index < b.cells.length)
    (hnew : new_position.index < b.cells.length) :
    ∃ b1 r, move_pawn b old_position new_position name = some (b1, r) := by
  obtain ⟨co, hco⟩ := exists_cell_of_lt b old_position.index hold
  obtain ⟨cn, hcn⟩ := exists_cell_of_lt b new_position.index hnew
  unfold move_pawn is_allowed_position
  rw [hcn]
  simp only [hco]
  by_cases ha : cn.occupant_type ≤ 1
  · simp only [ha, if_true]
    have hlen : new_position.index < (set_cell b old_position.index
        { co with occupant_type := 0, player_pseudo_name := 0 }).cells.length := by
      rw [cells_set_cell, List.length_set]; exact hnew
    obtain ⟨c2, hc2⟩ := exists_cell_of_lt _ new_position.index hlen
    unfold place_pawn
    rw [hc2]
    by_cases h0 : c2.occupant_type = 0
    · simp [h0]
    · by_cases h1 : c2.occupant_type = 1
      · simp [h1]
      · simp [h0, h1]
  · simp [ha]

/-- C16 fails as stated for `move_pawn`: on `captured_flag_board` the
predicate holds; moving the pawn of cell 0, whose score is 2, to the Empty
cell 1 leaves cell 0 Empty with score 2, and the predicate no longer holds. -/
theorem move_pawn_leaves_score_behind :
    scores_on_occupied captured_flag_board ∧
    move_pawn captured_flag_board ⟨0, 0, 0⟩ ⟨0, 1, 1⟩ 65 =
      some (⟨1, 2, 0, 0, 0, 1, [⟨0, 2, 0, 0⟩, ⟨65, 0, 2, 0⟩]⟩, 0) ∧
    ¬ scores_on_occupied ⟨1, 2, 0, 0, 0, 1, [⟨0, 2, 0, 0⟩, ⟨65, 0, 2, 0⟩]⟩ := by
  decide

/-- C16, amended: the predicate "every cell whose `flag_score` is not 0 has
occupant Flag or Pawn" holds on the board that `generate_board` returns for
positive dimensions (and `generate_board` returns); on a board where it holds
it holds again after `place_pawn` at any position inside the board, after
`spawn_flags` and after `remove_flags` whenever they return, and after
`move_pawn` between positions inside the board provided the cell at the old
position has score 0 or the move is refused (`move_pawn` clears the occupant
of the old cell and leaves its score). -/
theorem scores_stay_on_occupied_cells (b : board_t) (hinv : scores_on_occupied b) :
    (∀ (width height : Int) (memory : List cell_t) (mq_id pid : Int),
      0 < width → 0 < height → width * height < 2147483648 →
      (memory.length : Int) = width * height →
      ∃ b0, generate_board width height memory mq_id pid = some b0 ∧
        scores_on_occupied b0) ∧
    (∀ (position : coords_t) (name : Nat), position.index < b.cells.length →
      ∃ b1 r, place_pawn b position name = some (b1, r) ∧ scores_on_occupied b1) ∧
    (∀ (old_position new_position : coords_t) (name : Nat),
      old_position.index < b.cells.length → new_position.index < b.cells.length →
      (score_at b old_position.index = some 0 ∨
        is_allowed_position b new_position = some 0) →
      ∃ b1 r, move_pawn b old_position new_position name = some (b1, r) ∧
        scores_on_occupied b1) ∧
    (∀ (min max max_score c : Nat) (draws rest : List Nat) (b1 : board_t),
      spawn_flags b min max max_score draws = some (b1, c, rest) → scores_on_occupied b1) ∧
    (∀ b1, remove_flags b = some b1 → scores_on_occupied b1) := by
  refine ⟨?_, ?_, ?_, ?_, ?_⟩
  · intro width height memory mq_id pid hw hh hlt hlen
    refine ⟨_, generate_board_eq width height memory mq_id pid hw hh hlt hlen, ?_⟩
    intro c hc
    simp only [List.mem_map] at hc
    obtain ⟨c0, _, hc0⟩ := hc
    subst hc0
    intro h
    simp [zeroed] at h
  · intro position name hin
    obtain ⟨b1, r, hret⟩ := place_pawn_returns b position name hin
    exact ⟨b1, r, hret, place_pawn_keeps_scores b b1 position name r hinv hret⟩
  · intro old_position new_position name hold hnew hsafe
    obtain ⟨b1, r, hret⟩ := move_pawn_returns b old_position new_position name hold hnew
    exact ⟨b1, r, hret, move_pawn_keeps_scores b b1 _ _ name r hinv hsafe hret⟩
  · intro min max max_score c draws rest b1 hret
    exact spawn_flags_keeps_scores b b1 min max max_score c draws rest hinv hret
  · intro b1 hret
    exact remove_flags_keeps_scores b b1 hinv hret

/-- C16, amended, on `captured_flag_board`: the pawn is placed on the Empty
cell 1 and the predicate still holds. -/
theorem scores_stay_on_occupied_cells_witness :
    scores_on_occupied captured_flag_board ∧
    place_pawn captured_flag_board ⟨0, 1, 1⟩ 66 =
      some (⟨1, 2, 0, 0, 0, 1, [⟨65, 2, 2, 0⟩, ⟨66, 0, 2, 0⟩]⟩, 0) ∧
    generate_board 1 2 [⟨7, 7, 7, 7⟩, ⟨9, 9, 1, 9⟩] 5 6 =
      some ⟨1, 2, 5, 0, 6, 0, [⟨0, 0, 0, 7⟩, ⟨0, 0, 0, 9⟩]⟩ ∧
    (∀ b1, remove_flags captured_flag_board = some b1 → scores_on_occupied b1) :=
  ⟨by decide, by decide, by decide,
    (scores_stay_on_occupied_cells captured_flag_board (by decide)).2.2.2.2⟩

/-! ## Pawn: the next position -/

theorem subU32_one (a : Nat) (h0 : a ≠ 0) (h1 : a < 4294967296) : subU32 a 1 + 1 = a := by
  unfold subU32; omega

theorem succ_mod_u32 (a : Nat) (h1 : a < 4294967295) : (a + 1) % 4294967296 = a + 1 := by
  omega

theorem compute_index_coords (b : board_t) (x y i j : Nat) :
    compute_index b ⟨x, y, i⟩ = compute_index b ⟨x, y, j⟩ := by
  simp only [compute_index]

theorem get_next_position_cons (b : board_t) (cur : coords_t) (r : Nat) (rest : List Nat) :
    get_next_position b cur (r :: rest) =
      if Int.tmod (r : Int) 5 = 1 then
        if cur.y = 0 then get_next_position b cur rest
        else some (⟨cur.x, subU32 cur.y 1,
          compute_index b ⟨cur.x, subU32 cur.y 1, 0⟩⟩, rest)
      else if Int.tmod (r : Int) 5 = 2 then
        if cur.x = toU32 b.width then get_next_position b cur rest
        else some (⟨(cur.x + 1) % 4294967296, cur.y,
          compute_index b ⟨(cur.x + 1) % 4294967296, cur.y, 0⟩⟩, rest)
      else if Int.tmod (r : Int) 5 = 3 then
        if cur.y = toU32 b.height then get_next_position b cur rest
        else some (⟨cur.x, (cur.y + 1) % 4294967296,
          compute_index b ⟨cur.x, (cur.y + 1) % 4294967296, 0⟩⟩, rest)
      else if Int.tmod (r : Int) 5 = 4 then
        if cur.x = 0 then get_next_position b cur rest
        else some (⟨subU32 cur.x 1, cur.y,
          compute_index b ⟨subU32 cur.x 1, cur.y, 0⟩⟩, rest)
      else get_next_position b cur rest := rfl

theorem get_next_position_step (b : board_t) (cur : coords_t)
    (hx : cur.x < 4294967295) (hy : cur.y < 4294967295) :
    ∀ (draws : List Nat) (next : coords_t) (rest : List Nat),
      get_next_position b cur draws = some (next, rest) →
      next.index = compute_index b next ∧
      ((next.x = cur.x ∧ next.y + 1 = cur.y) ∨ (next.x = cur.x + 1 ∧ next.y = cur.y) ∨
        (next.x = cur.x ∧ next.y = cur.y + 1) ∨ (next.x + 1 = cur.x ∧ next.y = cur.y)) := by
  intro draws
  induction draws with
  | nil => intro next rest h; simp [get_next_position] at h
  | cons r t ih =>
    intro next rest h
    rw [get_next_position_cons] at h
    by_cases h1 : Int.tmod (r : Int) 5 = 1
    · rw [if_pos h1] at h
      by_cases hy0 : cur.y = 0
      · rw [if_pos hy0] at h; exact ih next rest h
      · rw [if_neg hy0] at h
        simp only [Option.some.injEq, Prod.mk.injEq] at h
        rw [← h.1]
        exact ⟨compute_index_coords _ _ _ _ _, Or.inl ⟨rfl, subU32_one cur.y hy0 (Nat.lt_succ_of_lt hy)⟩⟩
    · rw [if_neg h1] at h
      by_cases h2 : Int.tmod (r : Int) 5 = 2
      · rw [if_pos h2] at h
        by_cases hxw : cur.x = toU32 b.width
        · rw [if_pos hxw] at h; exact ih next rest h
        · rw [if_neg hxw] at h
          simp only [Option.some.injEq, Prod.mk.injEq] at h
          rw [← h.1]
          exact ⟨compute_index_coords _ _ _ _ _, Or.inr (Or.inl ⟨succ_mod_u32 cur.x hx, rfl⟩)⟩
      · rw [if_neg h2] at h
        by_cases h3 : Int.tmod (r : Int) 5 = 3
        · rw [if_pos h3] at h
          by_cases hyh : cur.y = toU32 b.height
          · rw [if_pos hyh] at h; exact ih next rest h
          · rw [if_neg hyh] at h
            simp only [Option.some.injEq, Prod.mk.injEq] at h
            rw [← h.1]
            exact ⟨compute_index_coords _ _ _ _ _, Or.inr (Or.inr (Or.inl ⟨rfl, succ_mod_u32 cur.y hy⟩))⟩
        · rw [if_neg h3] at h
          by_cases h4 : Int.tmod (r : Int) 5 = 4
          · rw [if_pos h4] at h
            by_cases hx0 : cur.x = 0
            · rw [if_pos hx0] at h; exact ih next rest h
            · rw [if_neg hx0] at h
              simp only [Option.some.injEq, Prod.mk.injEq] at h
              rw [← h.1]
              exact ⟨compute_index_coords _ _ _ _ _, Or.inr (Or.inr (Or.inr
                ⟨subU32_one cur.x hx0 (Nat.lt_succ_of_lt hx), rfl⟩))⟩
          · rw [if_neg h4] at h
            exact ih next rest h

/-- C17 at the right and bottom edges of the 3 by 3 board: from (2, 1) the
draw 2 (right) is accepted, because 2 is not the width 3, and the result is
(3, 1), outside the board, with index 10 beyond the 9 cells, so that
`is_allowed_position` reads outside the array; from (1, 2) the draw 3 (down)
gives (1, 3), whose index 6 is that of cell (2, 0). -/
theorem get_next_position_leaves_board :
    get_next_position empty_board_3x3 ⟨2, 1, 7⟩ [2] = some (⟨3, 1, 10⟩, []) ∧
    is_allowed_position empty_board_3x3 ⟨3, 1, 10⟩ = none ∧
    get_next_position empty_board_3x3 ⟨1, 2, 5⟩ [3] = some (⟨1, 3, 6⟩, []) ∧
    compute_index empty_board_3x3 ⟨2, 0, 0⟩ = 6 := by
  decide

/-! ## Pawn: the AllowMoving loop -/

theorem place_pawn_queue (b b1 : board_t) (position : coords_t) (name r : Nat)
    (hret : place_pawn b position name = some (b1, r)) :
    b1.coordinator_mq_id = b.coordinator_mq_id := by
  unfold place_pawn at hret
  split at hret
  · simp at hret
  · split at hret
    · simp only [Option.some.injEq, Prod.mk.injEq] at hret
      rw [← hret.1]; rfl
    · split at hret
      · simp only [Option.some.injEq, Prod.mk.injEq] at hret
        rw [← hret.1]; rfl
      · simp only [Option.some.injEq, Prod.mk.injEq] at hret
        rw [← hret.1]

theorem move_pawn_queue (b b1 : board_t) (old_position new_position : coords_t) (name r : Nat)
    (hret : move_pawn b old_position new_position name = some (b1, r)) :
    b1.coordinator_mq_id = b.coordinator_mq_id := by
  unfold move_pawn at hret
  split at hret
  · simp at hret
  · split at hret
    · split at hret
      · simp at hret
      · rw [place_pawn_queue _ b1 new_position name r hret]; rfl
    · simp only [Option.some.injEq, Prod.mk.injEq] at hret
      rw [← hret.1]

theorem pawn_move_spec (s s1 : pawn_proc) (r : Nat) (out : List effect)
    (hpos : 0 < s.available_moves) (hb : s.available_moves < 4294967296)
    (hret : pawn_move s = some (s1, r, out)) :
    out = effect.send s.local_game_board.coordinator_mq_id ⟨10, s.player_pseudo_name⟩ ::
      (if r = 1 then
        [effect.send s.local_game_board.coordinator_mq_id ⟨9, s.player_pseudo_name⟩]
      else []) ∧
    s1.available_moves = (if r = 1 then 0 else s.available_moves - 1) ∧
    s1.max_moves = s.max_moves ∧ s1.player_pseudo_name = s.player_pseudo_name ∧
    s1.local_game_board.coordinator_mq_id = s.local_game_board.coordinator_mq_id := by
  unfold pawn_move at hret
  split at hret
  · simp at hret
  · rename_i next draws hnext
    split at hret
    · simp at hret
    · rename_i b1 captured hmove
      have hq := move_pawn_queue _ b1 _ _ _ _ hmove
      have hsub : subU32 s.available_moves 1 = s.available_moves - 1 := by
        unfold subU32; omega
      by_cases hc : captured = 1
      · simp only [hc, if_true, Option.some.injEq, Prod.mk.injEq] at hret
        obtain ⟨h1, h2, h3⟩ := hret
        subst h1; subst h2; subst h3
        simp [notify_movement, signal_achievement, hq]
      · simp only [hc, if_false, Option.some.injEq, Prod.mk.injEq] at hret
        obtain ⟨h1, h2, h3⟩ := hret
        subst h1; subst h2; subst h3
        simp [notify_movement, hq, hc, hsub]

theorem moving_loop_fuel (fuel1 : Nat) :
    ∀ (fuel2 : Nat) (s : pawn_proc), s.available_moves ≤ fuel1 → s.available_moves ≤ fuel2 →
      s.available_moves < 4294967296 → moving_loop fuel1 s = moving_loop fuel2 s := by
  induction fuel1 with
  | zero =>
    intro fuel2 s h1 _ _
    have h0 : ¬ s.available_moves > 0 := by omega
    cases fuel2 <;> simp [moving_loop, h0]
  | succ f1 ih =>
    intro fuel2 s h1 h2 hb
    by_cases hpos : s.available_moves > 0
    · cases fuel2 with
      | zero => omega
      | succ f2 =>
        simp only [moving_loop, hpos, if_true]
        cases hm : pawn_move s with
        | none => rfl
        | some r =>
          obtain ⟨s1, c, out⟩ := r
          obtain ⟨_, ham, _, _, _⟩ := pawn_move_spec s s1 c out hpos hb hm
          have hle : s1.available_moves ≤ s.available_moves - 1 := by
            rw [ham]; split <;> omega
          simp only
          rw [ih f2 s1 (by omega) (by omega) (by omega)]
    · cases fuel2 <;> simp [moving_loop, hpos]

theorem moving_loop_spec (fuel : Nat) :
    ∀ (s s1 : pawn_proc) (attempts : List (Nat × List effect)),
      s.available_moves ≤ fuel → s.available_moves < 4294967296 →
      moving_loop fuel s = some (s1, attempts) →
      attempts.length ≤ s.available_moves ∧ s1.available_moves = 0 ∧
      s1.max_moves = s.max_moves ∧ s1.player_pseudo_name = s.player_pseudo_name ∧
      s1.local_game_board.coordinator_mq_id = s.local_game_board.coordinator_mq_id ∧
      (∀ a ∈ attempts, a.2 =
        effect.send s.local_game_board.coordinator_mq_id ⟨10, s.player_pseudo_name⟩ ::
          (if a.1 = 1 then
            [effect.send s.local_game_board.coordinator_mq_id ⟨9, s.player_pseudo_name⟩]
          else [])) ∧
      (∀ (i : Nat) (a : Nat × List effect), attempts[i]? = some a → a.1 = 1 →
        i + 1 = attempts.length) := by
  induction fuel with
  | zero =>
    intro s s1 attempts h1 _ hret
    have h0 : ¬ s.available_moves > 0 := by omega
    simp only [moving_loop, h0, if_false, Option.some.injEq, Prod.mk.injEq] at hret
    obtain ⟨hs, ha⟩ := hret
    subst hs; subst ha
    simp
    omega
  | succ f ih =>
    intro s s1 attempts h1 hb hret
    by_cases hpos : s.available_moves > 0
    · simp only [moving_loop, hpos, if_true] at hret
      cases hm : pawn_move s with
      | none => rw [hm] at hret; simp at hret
      | some r =>
        obtain ⟨s2, c, out⟩ := r
        rw [hm] at hret
        obtain ⟨hout, ham, hmax, hname, hq⟩ := pawn_move_spec s s2 c out hpos hb hm
        have hle : s2.available_moves ≤ s.available_moves - 1 := by
          rw [ham]; split <;> omega
        simp only at hret
        cases hl : moving_loop f s2 with
        | none => rw [hl] at hret; simp at hret
        | some r2 =>
          obtain ⟨s3, rest⟩ := r2
          rw [hl] at hret
          simp only [Option.some.injEq, Prod.mk.injEq] at hret
          obtain ⟨hs, ha⟩ := hret
          subst hs; subst ha
          obtain ⟨ilen, izero, imax, iname, iq, iout, ilast⟩ :=
            ih s2 s3 rest (by omega) (by omega) hl
          refine ⟨by simp only [List.length_cons]; omega, izero, by rw [imax, hmax],
            by rw [iname, hname], by rw [iq, hq], ?_, ?_⟩
          · intro a ha
            rcases List.mem_cons.1 ha with h | h
            · subst h; exact hout
            · rw [← hq, ← hname]; exact iout a h
          · intro i a hi ha
            cases i with
            | zero =>
              simp only [List.getElem?_cons_zero, Option.some.injEq] at hi
              subst hi
              simp only at ha
              rw [if_pos ha] at ham
              have hr : rest.length = 0 := by omega
              simp [hr]
            | succ j =>
              simp only [List.getElem?_cons_succ] at hi
              have := ilast j a hi ha
              simp only [List.length_cons]; omega
    · simp only [moving_loop, hpos, if_false, Option.some.injEq, Prod.mk.injEq] at hret
      obtain ⟨hs, ha⟩ := hret
      subst hs; subst ha
      simp
      omega

theorem attempts_output (moved captured : effect) :
    ∀ (attempts : List (Nat × List effect)),
      (∀ a ∈ attempts, a.2 = moved :: (if a.1 = 1 then [captured] else [])) →
      (∀ (i : Nat) (a : Nat × List effect), attempts[i]? = some a → a.1 = 1 →
        i + 1 = attempts.length) →
      (attempts.map (fun a => a.2)).flatten =
        List.replicate attempts.length moved ++
          (if attempts.any (fun a => decide (a.1 = 1)) = true then [captured] else []) := by
  intro attempts
  induction attempts with
  | nil => intro _ _; simp
  | cons a rest ih =>
    intro hout hlast
    have ha := hout a (List.mem_cons_self _ _)
    by_cases hc : a.1 = 1
    · have h1 := hlast 0 a (by simp) hc
      have hr : rest = [] := by
        apply List.eq_nil_of_length_eq_zero
        simp only [List.length_cons] at h1; omega
      subst hr
      simp [ha, hc]
    · have ih1 := ih (fun b hb => hout b (List.mem_cons_of_mem _ hb))
        (fun i b hi hb => by
          have := hlast (i + 1) b (by simpa using hi) hb
          simp only [List.length_cons] at this; omega)
      simp only [List.map_cons, List.flatten_cons, ih1, ha, hc, if_false, List.length_cons,
        List.replicate_succ, List.any_cons, decide_False, Bool.false_or]
      simp

/-- What a pawn does when it handles AllowMoving (type 8) with a budget
below 2^32, whenever the handler returns: it runs its loop at most budget
times, and the loop needs no more fuel than the budget. Each attempt sends
one PawnMoved (type 10) with the owner's name to the coordinator; an attempt
that captured also sends FlagCaptured (type 9) with that name and is the last
attempt, so the output is the PawnMoved messages followed by at most one
FlagCaptured. The budget is 0 afterwards and a second AllowMoving changes
nothing and sends nothing. The handler does not return from every state: a
pawn on the last column whose draw says right has no result. -/
theorem allow_moving_spends_budget (s : pawn_proc) (m : message_t)
    (hm : m.message_type = 8) (hb : s.available_moves < 4294967296) :
    (∀ fuel : Nat, s.available_moves ≤ fuel →
      moving_loop fuel s = moving_loop s.available_moves s) ∧
    ∀ (s1 : pawn_proc) (out : List effect), pawn_handle_message s m = some (s1, out) →
      ∃ attempts : List (Nat × List effect),
        moving_loop s.available_moves s = some (s1, attempts) ∧
        attempts.length ≤ s.available_moves ∧
        (∀ a ∈ attempts, a.2 =
          effect.send s.local_game_board.coordinator_mq_id ⟨10, s.player_pseudo_name⟩ ::
            (if a.1 = 1 then
              [effect.send s.local_game_board.coordinator_mq_id ⟨9, s.player_pseudo_name⟩]
            else [])) ∧
        (∀ (i : Nat) (a : Nat × List effect), attempts[i]? = some a → a.1 = 1 →
          i + 1 = attempts.length) ∧
        out = List.replicate attempts.length
            (effect.send s.local_game_board.coordinator_mq_id ⟨10, s.player_pseudo_name⟩) ++
          (if attempts.any (fun a => decide (a.1 = 1)) = true then
            [effect.send s.local_game_board.coordinator_mq_id ⟨9, s.player_pseudo_name⟩]
          else []) ∧
        s1.available_moves = 0 ∧
        pawn_handle_message s1 m = some (s1, []) := by
  refine ⟨fun fuel hf => moving_loop_fuel fuel s.available_moves s hf (Nat.le_refl _) hb, ?_⟩
  intro s1 out hret
  simp only [pawn_handle_message, hm, if_true] at hret
  cases hl : moving_loop s.available_moves s with
  | none => rw [hl] at hret; simp at hret
  | some r =>
    obtain ⟨s2, attempts⟩ := r
    rw [hl] at hret
    simp only [Option.some.injEq, Prod.mk.injEq] at hret
    obtain ⟨hs, ho⟩ := hret
    subst hs
    obtain ⟨hlen, hzero, _, _, _, hout, hlast⟩ :=
      moving_loop_spec s.available_moves s s2 attempts (Nat.le_refl _) hb hl
    refine ⟨attempts, rfl, hlen, hout, hlast, ?_, hzero, ?_⟩
    · rw [← ho]; exact attempts_output _ _ attempts hout hlast
    · simp [pawn_handle_message, hm, hzero, moving_loop]

/-- The scenario, where the handler returns: the pawn of player 65 has budget
3 and draws down, an invalid direction, down; the second attempt reaches the
flag. -/
theorem allow_moving_spends_budget_witness :
    (⟨8, 0⟩ : message_t).message_type = 8 ∧ scenario_pawn.available_moves < 4294967296 ∧
    ∃ (s1 : pawn_proc) (attempts : List (Nat × List effect)),
      pawn_handle_message scenario_pawn ⟨8, 0⟩ = some (s1,
        [effect.send 77 ⟨10, 65⟩, effect.send 77 ⟨10, 65⟩, effect.send 77 ⟨9, 65⟩]) ∧
      moving_loop 3 scenario_pawn = some (s1, attempts) ∧
      attempts.length ≤ 3 ∧ s1.available_moves = 0 ∧
      pawn_handle_message s1 ⟨8, 0⟩ = some (s1, []) := by
  have hm : (⟨8, 0⟩ : message_t).message_type = 8 := rfl
  have hb : scenario_pawn.available_moves < 4294967296 := by decide
  have hsome : (pawn_handle_message scenario_pawn ⟨8, 0⟩).map (fun r => r.2) =
      some [effect.send 77 ⟨10, 65⟩, effect.send 77 ⟨10, 65⟩, effect.send 77 ⟨9, 65⟩] := by
    decide
  cases hr : pawn_handle_message scenario_pawn ⟨8, 0⟩ with
  | none => rw [hr] at hsome; simp at hsome
  | some r =>
    obtain ⟨s1, out⟩ := r
    rw [hr] at hsome
    simp only [Option.map_some', Option.some.injEq] at hsome
    subst hsome
    obtain ⟨attempts, hl, hlen, _, _, _, hz, hagain⟩ :=
      (allow_moving_spends_budget scenario_pawn ⟨8, 0⟩ hm hb).2 s1 _ hr
    exact ⟨hm, hb, s1, attempts, rfl, hl, hlen, hz, hagain⟩

/-! ## Player: AllowPlacement -/

theorem set_length_append {α : Type} (A : List α) (a v : α) (L : List α) :
    (A ++ a :: L).set A.length v = A ++ v :: L := by
  induction A with
  | nil => rfl
  | cons x xs ih => simp [ih]

theorem player_after_nil (mq : Int) (name M moves : Nat) :
    player_after mq name M moves [] = player_start mq name M moves := by
  simp [player_after, player_start]

theorem player_placing_step (game_board : board_t) (mq : Int) (name M moves : Nat)
    (spawned : List pawn_t) (pawn : pawn_t) (m : message_t) (hm : m.message_type = 2)
    (hk : spawned.length < M) :
    player_handle_message game_board pawn (player_after mq name M moves spawned) m =
      some (player_after mq name M moves (pawn :: spawned),
        [pawn], [effect.send game_board.coordinator_mq_id ⟨3, 0⟩]) := by
  obtain ⟨d, hd⟩ : ∃ d, M = spawned.length + (d + 1) := ⟨M - spawned.length - 1, by omega⟩
  have h1 : M - spawned.length = d + 1 := by omega
  have h2 : M - (spawned.length + 1) = d := by omega
  have h3 : ((M : Int) - 1 - spawned.length).toNat = d := by omega
  have h4 : (M : Int) - 1 - spawned.length ≥ 0 := by omega
  have h5 : (M : Int) - 1 - spawned.length - 1 = (M : Int) - 1 - (spawned.length + 1 : Nat) := by
    push_cast; ring
  have h6 : (List.replicate (d + 1) (none : Option pawn_t) ++ spawned.map some).set d
      (some pawn) = List.replicate d none ++ (pawn :: spawned).map some := by
    rw [List.replicate_succ', List.append_assoc]
    have h := set_length_append (List.replicate d (none : Option pawn_t)) none (some pawn)
      (spawned.map some)
    rw [List.length_replicate] at h
    exact h
  simp only [player_handle_message, player_after, hm, if_true, h4, h3, h1, h2, h5,
    List.length_append, List.length_replicate, List.length_map, List.length_cons]
  rw [if_pos (by omega), h6]
  rfl

theorem player_placed_step (game_board : board_t) (mq : Int) (name M moves : Nat)
    (spawned : List pawn_t) (pawn : pawn_t) (m : message_t) (hm : m.message_type = 2)
    (hk : spawned.length = M) :
    player_handle_message game_board pawn (player_after mq name M moves spawned) m =
      some (player_after mq name M moves spawned,
        [], [effect.send game_board.coordinator_mq_id ⟨4, 0⟩]) := by
  have h4 : ¬ ((M : Int) - 1 - spawned.length ≥ 0) := by omega
  simp only [player_handle_message, player_after, hm, if_true, h4, if_false]
  rfl

theorem player_placing_run (game_board : board_t) (mq : Int) (name M moves : Nat) :
    ∀ (ins : List (pawn_t × message_t)) (spawned : List pawn_t),
      (∀ x ∈ ins, x.2.message_type = 2) → spawned.length ≤ M →
      player_run game_board (player_after mq name M moves spawned) ins =
        some (player_after mq name M moves
            (((ins.take (M - spawned.length)).map (fun x => x.1)).reverse ++ spawned),
          (ins.take (M - spawned.length)).map
              (fun x => ([x.1], [effect.send game_board.coordinator_mq_id ⟨3, 0⟩])) ++
            (ins.drop (M - spawned.length)).map
              (fun _ => ([], [effect.send game_board.coordinator_mq_id ⟨4, 0⟩]))) := by
  intro ins
  induction ins with
  | nil => intro spawned _ _; simp [player_run]
  | cons x xs ih =>
    intro spawned hins hk
    have hx := hins x (List.mem_cons_self _ _)
    have hxs : ∀ y ∈ xs, y.2.message_type = 2 := fun y hy => hins y (List.mem_cons_of_mem _ hy)
    by_cases hlt : spawned.length < M
    · obtain ⟨d, hd⟩ : ∃ d, M - spawned.length = d + 1 := ⟨M - spawned.length - 1, by omega⟩
      have hd1 : M - (x.1 :: spawned).length = d := by simp only [List.length_cons]; omega
      have hstep := player_placing_step game_board mq name M moves spawned x.1 x.2 hx hlt
      have hrec := ih (x.1 :: spawned) hxs (by simp only [List.length_cons]; omega)
      rw [hd1] at hrec
      simp only [player_run, hstep, List.any_cons, List.any_nil, is_exit, Bool.or_self,
        Bool.false_eq_true, if_false, hrec, hd, List.take_succ_cons, List.drop_succ_cons,
        List.map_cons, List.reverse_cons, List.append_assoc, List.singleton_append,
        List.cons_append, List.nil_append]
    · have heq : spawned.length = M := by omega
      have h0 : M - spawned.length = 0 := by omega
      have hstep := player_placed_step game_board mq name M moves spawned x.1 x.2 hx heq
      have hrec := ih spawned hxs hk
      rw [h0] at hrec
      simp only [List.take_zero, List.map_nil, List.reverse_nil, List.nil_append,
        List.drop_zero] at hrec
      simp only [player_run, h0, hstep, List.any_cons, List.any_nil, is_exit, Bool.or_self,
        Bool.false_eq_true, if_false, hrec, List.take_zero, List.map_nil, List.reverse_nil,
        List.nil_append, List.drop_zero, List.map_cons]

theorem held_pawns_after (mq : Int) (name M moves : Nat) (spawned : List pawn_t) :
    held_pawns (player_after mq name M moves spawned) = spawned := by
  simp only [held_pawns, player_after, List.filterMap_append]
  have h1 : ∀ n : Nat, (List.replicate n (none : Option pawn_t)).filterMap id = [] := by
    intro n
    induction n with
    | zero => rfl
    | succ k ih => simp [List.replicate_succ, ih]
  have h2 : (spawned.map some).filterMap id = spawned := by
    induction spawned with
    | nil => rfl
    | cons a l ih => simp [ih]
  rw [h1, h2]; rfl

theorem broadcast_signal_to_pawns_types (pawn_list : List (Option pawn_t)) (n type : Nat)
    (out : List effect) (h : broadcast_signal_to_pawns pawn_list n type = some out) :
    ∀ e ∈ out, ∃ q, e = effect.send q { message_type := type, player_pseudo_name := 0 } := by
  unfold broadcast_signal_to_pawns at h
  have := for_loop_invariant (broadcast_signal_to_pawns_body pawn_list type)
    (fun _ o => ∀ e ∈ o,
      ∃ q, e = effect.send q { message_type := type, player_pseudo_name := 0 })
    (by
      intro i s s1 hP hb
      unfold broadcast_signal_to_pawns_body at hb
      split at hb
      · simp only [Option.some.injEq] at hb
        subst hb
        intro e he
        rcases List.mem_append.1 he with h1 | h1
        · exact hP e h1
        · exact ⟨_, List.mem_singleton.1 h1⟩
      · simp at hb)
    n 0 [] out (by simp) h
  exact this

theorem destroy_pawns_effects (pawn_list : List (Option pawn_t)) (n : Nat)
    (out : List effect) (h : destroy_pawns pawn_list n = some out) :
    ∀ e ∈ out, (∃ q, e = effect.send q { message_type := 11, player_pseudo_name := 0 }) ∨
      ∃ q, e = effect.close_message_queue q := by
  unfold destroy_pawns at h
  split at h
  · simp at h
  · rename_i out1 h1
    split at h
    · simp at h
    · rename_i out2 h2
      simp only [Option.some.injEq] at h
      subst h
      have hc := for_loop_invariant (destroy_pawns_body pawn_list)
        (fun _ o => ∀ e ∈ o, ∃ q, e = effect.close_message_queue q)
        (by
          intro i s s1 hP hb
          unfold destroy_pawns_body at hb
          split at hb
          · simp only [Option.some.injEq] at hb
            subst hb
            intro e he
            rcases List.mem_append.1 he with h3 | h3
            · exact hP e h3
            · exact ⟨_, List.mem_singleton.1 h3⟩
          · simp at hb)
        n 0 [] out2 (by simp) h2
      intro e he
      rcases List.mem_append.1 he with h3 | h3
      · exact Or.inl (broadcast_signal_to_pawns_types pawn_list n 11 out1 h1 e h3)
      · exact Or.inr (hc e h3)

/-- What a player does with a message that is not AllowPlacement: the
variables stay, no pawn is forked, and every message sent has type 6 (to the
coordinator), 8, 9, 11 or 12 (to pawns). -/
theorem player_other_message (game_board : board_t) (pawn : pawn_t) (s s1 : player_proc)
    (m : message_t) (pawns : List pawn_t) (out : List effect) (hm : m.message_type ≠ 2)
    (h : player_handle_message game_board pawn s m = some (s1, pawns, out)) :
    s1 = s ∧ pawns = [] ∧
    ∀ (q : Int) (msg : message_t), effect.send q msg ∈ out →
      msg.player_pseudo_name = 0 ∧
      (msg.message_type = 6 ∨ msg.message_type = 8 ∨ msg.message_type = 9 ∨
        msg.message_type = 11 ∨ msg.message_type = 12) := by
  unfold player_handle_message at h
  rw [if_neg hm] at h
  split at h
  · simp only [Option.some.injEq, Prod.mk.injEq] at h
    obtain ⟨h1, h2, h3⟩ := h
    subst h1; subst h2; subst h3
    refine ⟨rfl, rfl, ?_⟩
    intro q msg hmem
    simp only [organization_completed, send_signal_message_to_master, List.mem_singleton,
      effect.send.injEq] at hmem
    rw [hmem.2]; simp
  · split at h
    · split at h
      · simp at h
      · rename_i o ho
        simp only [Option.some.injEq, Prod.mk.injEq] at h
        obtain ⟨h1, h2, h3⟩ := h
        subst h1; subst h2; subst h3
        refine ⟨rfl, rfl, ?_⟩
        intro q msg hmem
        obtain ⟨q1, hq1⟩ := broadcast_signal_to_pawns_types _ _ _ _ ho _ hmem
        simp only [effect.send.injEq] at hq1
        rw [hq1.2]; simp
    · split at h
      · split at h
        · simp at h
        · rename_i o ho
          simp only [Option.some.injEq, Prod.mk.injEq] at h
          obtain ⟨h1, h2, h3⟩ := h
          subst h1; subst h2; subst h3
          refine ⟨rfl, rfl, ?_⟩
          intro q msg hmem
          obtain ⟨q1, hq1⟩ := broadcast_signal_to_pawns_types _ _ _ _ ho _ hmem
          simp only [effect.send.injEq] at hq1
          rw [hq1.2]; simp
      · split at h
        · split at h
          · simp at h
          · rename_i o ho
            simp only [Option.some.injEq, Prod.mk.injEq] at h
            obtain ⟨h1, h2, h3⟩ := h
            subst h1; subst h2; subst h3
            refine ⟨rfl, rfl, ?_⟩
            intro q msg hmem
            rcases List.mem_append.1 hmem with h5 | h5
            · rcases destroy_pawns_effects _ _ _ ho _ h5 with ⟨q1, hq1⟩ | ⟨q1, hq1⟩
              · simp only [effect.send.injEq] at hq1
                rw [hq1.2]; simp
              · simp at hq1
            · simp at h5
        · split at h
          · split at h
            · simp at h
            · rename_i o ho
              simp only [Option.some.injEq, Prod.mk.injEq] at h
              obtain ⟨h1, h2, h3⟩ := h
              subst h1; subst h2; subst h3
              refine ⟨rfl, rfl, ?_⟩
              intro q msg hmem
              obtain ⟨q1, hq1⟩ := broadcast_signal_to_pawns_types _ _ _ _ ho _ hmem
              simp only [effect.send.injEq] at hq1
              rw [hq1.2]; simp
          · simp only [Option.some.injEq, Prod.mk.injEq] at h
            obtain ⟨h1, h2, h3⟩ := h
            subst h1; subst h2; subst h3
            exact ⟨rfl, rfl, fun q msg hmem => by simp at hmem⟩

theorem player_run_after (game_board : board_t) (mq : Int) (name M moves : Nat) :
    ∀ (ins : List (pawn_t × message_t)) (spawned : List pawn_t) (s1 : player_proc)
      (outs : List (List pawn_t × List effect)),
      spawned.length ≤ M →
      player_run game_board (player_after mq name M moves spawned) ins = some (s1, outs) →
      ∃ sp1, s1 = player_after mq name M moves sp1 ∧ sp1.length ≤ M ∧
        sp1 = ((outs.map (fun o => o.1)).flatten).reverse ++ spawned := by
  intro ins
  induction ins with
  | nil =>
    intro spawned s1 outs hk h
    simp only [player_run, Option.some.injEq, Prod.mk.injEq] at h
    obtain ⟨h1, h2⟩ := h
    subst h1; subst h2
    exact ⟨spawned, rfl, hk, by simp⟩
  | cons x xs ih =>
    intro spawned s1 outs hk h
    have hstep : ∃ sp, sp.length ≤ M ∧ ∃ pawns out,
        player_handle_message game_board x.1 (player_after mq name M moves spawned) x.2 =
          some (player_after mq name M moves sp, pawns, out) ∧ sp = pawns.reverse ++ spawned := by
      cases hh : player_handle_message game_board x.1 (player_after mq name M moves spawned) x.2 with
      | none => simp [player_run, hh] at h
      | some r =>
        obtain ⟨s2, pawns, out⟩ := r
        by_cases hm : x.2.message_type = 2
        · by_cases hlt : spawned.length < M
          · rw [player_placing_step game_board mq name M moves spawned x.1 x.2 hm hlt] at hh
            simp only [Option.some.injEq, Prod.mk.injEq] at hh
            obtain ⟨h1, h2, h3⟩ := hh
            subst h1; subst h2; subst h3
            exact ⟨x.1 :: spawned, by simp only [List.length_cons]; omega, [x.1], _, rfl,
              by simp⟩
          · rw [player_placed_step game_board mq name M moves spawned x.1 x.2 hm
              (by omega)] at hh
            simp only [Option.some.injEq, Prod.mk.injEq] at hh
            obtain ⟨h1, h2, h3⟩ := hh
            subst h1; subst h2; subst h3
            exact ⟨spawned, hk, [], _, rfl, by simp⟩
        · obtain ⟨h1, h2, _⟩ := player_other_message game_board x.1 _ s2 x.2 pawns out hm hh
          subst h1; subst h2
          exact ⟨spawned, hk, [], out, rfl, by simp⟩
    obtain ⟨sp, hsp, pawns, out, hh, hspeq⟩ := hstep
    simp only [player_run, hh] at h
    split at h
    · simp only [Option.some.injEq, Prod.mk.injEq] at h
      obtain ⟨h1, h2⟩ := h
      subst h1; subst h2
      exact ⟨sp, rfl, hsp, by simp [hspeq]⟩
    · cases hr : player_run game_board (player_after mq name M moves sp) xs with
      | none => simp [hr] at h
      | some r =>
        obtain ⟨s3, outs3⟩ := r
        rw [hr] at h
        simp only [Option.some.injEq, Prod.mk.injEq] at h
        obtain ⟨h1, h2⟩ := h
        subst h1; subst h2
        obtain ⟨sp1, e1, l1, q1⟩ := ih sp s3 outs3 hsp hr
        refine ⟨sp1, e1, l1, ?_⟩
        rw [q1, hspeq]
        simp

/-- C19: a player started with `M` pawns that handles AllowPlacement (type 2)
messages only forks one pawn for each of the first `M`, the pawn `spawn_pawn`
returned, and answers it with one PawnPlaced (type 3) to the coordinator;
each later one forks nothing and is answered with one AllPawnsPlaced (type
4). The pawns it holds afterwards are those forked. In any run from the
start, whatever the messages, the pawns held are the pawns forked and are at
most `M`; a message that is not AllowPlacement leaves the variables as they
are, forks nothing and sends no message of type 3 or 4. -/
theorem allow_placement_spawns_each_pawn_once (game_board : board_t) (mq : Int)
    (name M moves : Nat) :
    (∀ ins : List (pawn_t × message_t), (∀ x ∈ ins, x.2.message_type = 2) →
      ∃ s1, player_run game_board (player_start mq name M moves) ins =
          some (s1,
            (ins.take M).map
                (fun x => ([x.1], [effect.send game_board.coordinator_mq_id ⟨3, 0⟩])) ++
              (ins.drop M).map
                (fun _ => ([], [effect.send game_board.coordinator_mq_id ⟨4, 0⟩]))) ∧
        held_pawns s1 = ((ins.take M).map (fun x => x.1)).reverse ∧
        (held_pawns s1).length = min ins.length M ∧
        s1.remaining_pawns = (M : Int) - 1 - (min ins.length M : Nat)) ∧
    (∀ (ins : List (pawn_t × message_t)) (s1 : player_proc)
        (outs : List (List pawn_t × List effect)),
      player_run game_board (player_start mq name M moves) ins = some (s1, outs) →
      held_pawns s1 = ((outs.map (fun o => o.1)).flatten).reverse ∧
        (held_pawns s1).length ≤ M) ∧
    (∀ (pawn : pawn_t) (s s1 : player_proc) (m : message_t) (pawns : List pawn_t)
        (out : List effect), m.message_type ≠ 2 →
      player_handle_message game_board pawn s m = some (s1, pawns, out) →
      s1 = s ∧ pawns = [] ∧
        ∀ (q : Int) (msg : message_t), effect.send q msg ∈ out →
          msg.message_type ≠ 3 ∧ msg.message_type ≠ 4) := by
  refine ⟨?_, ?_, ?_⟩
  · intro ins hins
    have h := player_placing_run game_board mq name M moves ins [] hins (Nat.zero_le _)
    rw [player_after_nil] at h
    simp only [List.length_nil, Nat.sub_zero, List.append_nil] at h
    refine ⟨_, h, held_pawns_after _ _ _ _ _, ?_, ?_⟩
    · rw [held_pawns_after]
      simp [List.length_take, Nat.min_comm]
    · simp [player_after, List.length_take, Nat.min_comm]
  · intro ins s1 outs h
    rw [← player_after_nil] at h
    obtain ⟨sp1, e1, l1, q1⟩ :=
      player_run_after game_board mq name M moves ins [] s1 outs (Nat.zero_le _) h
    rw [e1, held_pawns_after]
    refine ⟨by rw [q1]; simp, l1⟩
  · intro pawn s s1 m pawns out hm h
    obtain ⟨h1, h2, h3⟩ := player_other_message game_board pawn s s1 m pawns out hm h
    refine ⟨h1, h2, ?_⟩
    intro q msg hmem
    obtain ⟨_, ht⟩ := h3 q msg hmem
    omega

/-- C19 for a player with 2 pawns that handles three AllowPlacement. -/
theorem allow_placement_spawns_each_pawn_once_witness :
    (∀ x ∈ [((⟨0, 11, 111⟩ : pawn_t), (⟨2, 0⟩ : message_t)), (⟨0, 12, 112⟩, ⟨2, 0⟩),
        (⟨0, 13, 113⟩, ⟨2, 0⟩)], x.2.message_type = 2) ∧
    ∃ s1, player_run empty_board_3x3 (player_start 5 65 2 3)
        [(⟨0, 11, 111⟩, ⟨2, 0⟩), (⟨0, 12, 112⟩, ⟨2, 0⟩), (⟨0, 13, 113⟩, ⟨2, 0⟩)] =
      some (s1, [([⟨0, 11, 111⟩], [effect.send 0 ⟨3, 0⟩]),
        ([⟨0, 12, 112⟩], [effect.send 0 ⟨3, 0⟩]), ([], [effect.send 0 ⟨4, 0⟩])]) ∧
      held_pawns s1 = [⟨0, 12, 112⟩, ⟨0, 11, 111⟩] := by
  have hins : ∀ x ∈ [((⟨0, 11, 111⟩ : pawn_t), (⟨2, 0⟩ : message_t)), (⟨0, 12, 112⟩, ⟨2, 0⟩),
      (⟨0, 13, 113⟩, ⟨2, 0⟩)], x.2.message_type = 2 := by decide
  obtain ⟨s1, h1, h2, _, _⟩ :=
    (allow_placement_spawns_each_pawn_once empty_board_3x3 5 65 2 3).1 _ hins
  exact ⟨hins, s1, h1, h2⟩

/-! ## The placement protocol -/

theorem find_player_get :
    ∀ (players : List player_proc) (i : Nat) (p : player_proc),
      (players.map (fun p => p.player_mq_id)).Nodup → players[i]? = some p →
      find_player players p.player_mq_id = some i := by
  intro players
  induction players with
  | nil => intro i p _ h; simp at h
  | cons a l ih =>
    intro i p hnd h
    simp only [List.map_cons, List.nodup_cons] at hnd
    cases i with
    | zero =>
      simp only [List.getElem?_cons_zero, Option.some.injEq] at h
      subst h
      simp [find_player]
    | succ j =>
      simp only [List.getElem?_cons_succ] at h
      have hne : a.player_mq_id ≠ p.player_mq_id := by
        intro heq
        apply hnd.1
        rw [heq]
        exact List.mem_map.2 ⟨p, List.getElem?_mem h, rfl⟩
      simp [find_player, hne, ih j p hnd.2 h]

theorem sends_of_append (sender : Int) (a b : List effect) :
    sends_of sender (a ++ b) = sends_of sender a ++ sends_of sender b := by
  induction a with
  | nil => rfl
  | cons e l ih =>
    cases e <;> simp [sends_of, ih]

theorem mem_sends_of (sender : Int) (out : List effect) (m : in_flight)
    (h : m ∈ sends_of sender out) : effect.send m.dest m.msg ∈ out ∧ m.sender = sender := by
  induction out with
  | nil => simp [sends_of] at h
  | cons e l ih =>
    cases e with
    | send q msg =>
      simp only [sends_of, List.mem_cons] at h
      rcases h with h | h
      · subst h; simp
      · exact ⟨List.mem_cons_of_mem _ (ih h).1, (ih h).2⟩
    | alarm n => exact ⟨List.mem_cons_of_mem _ (ih (by simpa [sends_of] using h)).1,
        (ih (by simpa [sends_of] using h)).2⟩
    | close_message_queue q =>
      exact ⟨List.mem_cons_of_mem _ (ih (by simpa [sends_of] using h)).1,
        (ih (by simpa [sends_of] using h)).2⟩
    | sem_destroy n => exact ⟨List.mem_cons_of_mem _ (ih (by simpa [sends_of] using h)).1,
        (ih (by simpa [sends_of] using h)).2⟩
    | exit n => exact ⟨List.mem_cons_of_mem _ (ih (by simpa [sends_of] using h)).1,
        (ih (by simpa [sends_of] using h)).2⟩

theorem forked_by_append (sys : system) (mq mq1 : Int) (pawns : List pawn_t)
    (players : List player_proc) (queue : List in_flight) (exited : List Int) :
    forked_by { sys with
        players := players, queue := queue, exited := exited,
        forked := sys.forked ++ pawns.map (fun w => (mq1, w)) } mq =
      if mq = mq1 then forked_by sys mq ++ pawns else forked_by sys mq := by
  unfold forked_by
  simp only [List.filter_append, List.map_append]
  by_cases h : mq = mq1
  · subst h
    have : (pawns.map (fun w => (mq, w))).filter (fun f => decide (f.1 = mq)) =
        pawns.map (fun w => (mq, w)) := by
      apply List.filter_eq_self.2
      intro a ha
      obtain ⟨w, _, hw⟩ := List.mem_map.1 ha
      subst hw; simp
    simp [this, List.map_map, Function.comp]
  · have : (pawns.map (fun w => (mq1, w))).filter (fun f => decide (f.1 = mq)) = [] := by
      apply List.filter_eq_nil_iff.2
      intro a ha
      obtain ⟨w, _, hw⟩ := List.mem_map.1 ha
      subst hw
      simp only [decide_eq_true_eq]
      exact fun h1 => h h1.symm
    simp [this, h]

theorem ids_get_of_list (ps : List player_t) (ids : List Int)
    (h : ps.map (fun p => p.mq_id) = ids) (j : Nat) (mq : Int) (hj : ids[j]? = some mq) :
    ∃ p, ps[j]? = some p ∧ p.mq_id = mq := by
  subst h
  simp only [List.getElem?_map, Option.map_eq_some'] at hj
  exact hj

theorem row_bound (q M N i : Nat) (hq : q < M) (hi : i < N) : q * N + i < M * N := by
  have h1 : (q + 1) * N ≤ M * N := Nat.mul_le_mul_right N hq
  rw [Nat.succ_mul] at h1
  omega

theorem forked_by_congr (sys sys1 : system) (mq : Int) (h : sys1.forked = sys.forked) :
    forked_by sys1 mq = forked_by sys mq := by
  simp [forked_by, h]

theorem placing_inv_congr (cfg : config) (ids : List Int) (cq : Int) (sys sys1 : system)
    (h : placing_inv cfg ids cq sys)
    (h1 : sys1.exited = sys.exited)
    (h2 : sys1.coordinator.game_board.coordinator_mq_id =
      sys.coordinator.game_board.coordinator_mq_id)
    (h3 : sys1.coordinator.player_list = sys.coordinator.player_list)
    (h4 : sys1.players = sys.players) (h5 : sys1.forked = sys.forked)
    (h6 : ∀ m ∈ sys1.handled, m.message_type = 1 ∨ m.message_type = 3) :
    placing_inv cfg ids cq sys1 :=
  { exited_nil := by rw [h1]; exact h.exited_nil
    queue_id := by rw [h2]; exact h.queue_id
    list_ids := by rw [h3]; exact h.list_ids
    players_len := by rw [h4]; exact h.players_len
    players_get := by
      intro j mq hj
      rw [h4, forked_by_congr sys sys1 mq h5]
      exact h.players_get j mq hj
    forked_ids := by rw [h5]; exact h.forked_ids
    handled_types := h6 }

theorem phase_holds_pawn_start (cfg : config) (ids : List Int) (cq : Int) (sys : system)
    (p : placing_phase) (cells : List cell_t) (h : phase_holds cfg ids cq sys p) :
    ∃ sys1, system_step cfg sys (sys_event.pawn_start cells) = some sys1 ∧
      phase_holds cfg ids cq sys1 p := by
  refine ⟨_, rfl, ?_⟩
  cases p with
  | ready k =>
    obtain ⟨inv, h1, h2, h3⟩ := h
    exact ⟨placing_inv_congr cfg ids cq sys _ inv rfl rfl rfl rfl rfl inv.handled_types,
      h1, h2, h3⟩
  | allow q i =>
    obtain ⟨inv, h1, h2, h3, h4⟩ := h
    exact ⟨placing_inv_congr cfg ids cq sys _ inv rfl rfl rfl rfl rfl inv.handled_types,
      h1, h2, h3, h4⟩
  | placed q i =>
    obtain ⟨inv, h1, h2, h3, h4⟩ := h
    exact ⟨placing_inv_congr cfg ids cq sys _ inv rfl rfl rfl rfl rfl inv.handled_types,
      h1, h2, h3, h4⟩
  | all_placed =>
    obtain ⟨inv, h2, h3, h4⟩ := h
    exact ⟨placing_inv_congr cfg ids cq sys _ inv rfl rfl rfl rfl rfl inv.handled_types,
      h2, h3, h4⟩

theorem step_coordinator (cfg : config) (sys : system) (now : Int) (pawn : pawn_t)
    (m : in_flight) (rest : List in_flight) (c : coordinator_t) (out : List effect)
    (hq : sys.queue = m :: rest) (hex : sys.exited = [])
    (hd : m.dest = sys.coordinator.game_board.coordinator_mq_id)
    (hh : handle_message cfg now sys.coordinator m.msg = some (c, out)) :
    system_step cfg sys (sys_event.deliver now pawn) =
      some { sys with
        coordinator := c, queue := rest ++ sends_of m.dest out,
        exited := exited_after sys.exited m.dest out,
        handled := sys.handled ++ [m.msg] } := by
  simp only [system_step, hq, hex, List.not_mem_nil, if_false, hd, if_true]
  rw [hh]

theorem step_ready (cfg : config) (ids : List Int) (cq : Int) (sys : system) (k : Nat)
    (now : Int) (pawn : pawn_t) (hN : ids.length = cfg.SO_NUM_G)
    (hN32 : cfg.SO_NUM_G < 4294967296) (hk : k < cfg.SO_NUM_G)
    (h : phase_holds cfg ids cq sys (placing_phase.ready k)) :
    ∃ sys1, system_step cfg sys (sys_event.deliver now pawn) = some sys1 ∧
      phase_holds cfg ids cq sys1
        (phase_next cfg.SO_NUM_G cfg.SO_NUM_P (placing_phase.ready k)) := by
  obtain ⟨inv, hr, hq, hf⟩ := h
  have hkl : k < ids.length := by omega
  have hdrop : ids.drop k = ids[k] :: ids.drop (k + 1) := List.drop_eq_getElem_cons hkl
  rw [hdrop, List.map_cons] at hq
  by_cases hlt : k + 1 < cfg.SO_NUM_G
  · have hh := handle_ready_below cfg now sys.coordinator ⟨1, 0⟩ rfl hN32 (by rw [hr]; exact hlt)
    refine ⟨_, step_coordinator cfg sys now pawn _ _ _ _ hq inv.exited_nil
      inv.queue_id.symm hh, ?_⟩
    simp only [phase_next, if_pos hlt]
    refine ⟨placing_inv_congr cfg ids cq sys _ inv ?_ rfl rfl rfl rfl ?_, ?_, ?_, hf⟩
    · simp [exited_after, is_exit]
    · intro m hm
      simp only [List.mem_append, List.mem_singleton] at hm
      rcases hm with hm | hm
      · exact inv.handled_types m hm
      · subst hm; exact Or.inl rfl
    · simp [hr]
    · simp [sends_of]
  · have heq : k + 1 = cfg.SO_NUM_G := by omega
    have h0 : (0 : Nat) < ids.length := by omega
    obtain ⟨p0, hp0, hmq⟩ := ids_get_of_list _ ids inv.list_ids 0 ids[0]
      (List.getElem?_eq_getElem h0)
    have hh := handle_ready_last cfg now sys.coordinator ⟨1, 0⟩ p0 rfl hN32
      (by rw [hr]; exact heq) hp0
    refine ⟨_, step_coordinator cfg sys now pawn _ _ _ _ hq inv.exited_nil
      inv.queue_id.symm hh, ?_⟩
    simp only [phase_next, if_neg hlt]
    have hnil : ids.drop (k + 1) = [] := List.drop_eq_nil_of_le (by omega)
    refine ⟨placing_inv_congr cfg ids cq sys _ inv ?_ rfl rfl rfl rfl ?_, rfl,
      ⟨ids[0], List.getElem?_eq_getElem h0, ?_⟩, ?_, ?_⟩
    · simp [exited_after, is_exit]
    · intro m hm
      simp only [List.mem_append, List.mem_singleton] at hm
      rcases hm with hm | hm
      · exact inv.handled_types m hm
      · subst hm; exact Or.inl rfl
    · simp [hnil, sends_of, hmq]
    · simp [hf]
    · intro j mq _
      simp [forked_by, hf]

theorem ids_inj (ids : List Int) (hnd : ids.Nodup) (i j : Nat) (a b : Int)
    (hi : ids[i]? = some a) (hj : ids[j]? = some b) (hab : a = b) : i = j := by
  have hlt : i < ids.length := by
    rcases Nat.lt_or_ge i ids.length with h | h
    · exact h
    · rw [List.getElem?_eq_none h] at hi; simp at hi
  exact List.getElem?_inj hlt hnd (by rw [hi, hj, hab])

theorem players_ids (cfg : config) (ids : List Int) (cq : Int) (sys : system)
    (inv : placing_inv cfg ids cq sys) :
    sys.players.map (fun p => p.player_mq_id) = ids := by
  apply List.ext_getElem?
  intro j
  rw [List.getElem?_map]
  rcases Nat.lt_or_ge j ids.length with h | h
  · have hj : ids[j]? = some ids[j] := List.getElem?_eq_getElem h
    rw [inv.players_get j _ hj, hj]
    rfl
  · rw [List.getElem?_eq_none h, List.getElem?_eq_none (by rw [inv.players_len]; exact h)]
    rfl

theorem step_player (cfg : config) (ids : List Int) (cq : Int) (sys : system) (now : Int)
    (pawn : pawn_t) (i : Nat) (mq : Int) (msg : message_t) (p1 : player_proc)
    (pawns : List pawn_t) (out : List effect)
    (hnd : ids.Nodup) (hcq : cq ∉ ids) (inv : placing_inv cfg ids cq sys)
    (hi : ids[i]? = some mq) (hq : sys.queue = [⟨mq, cq, msg⟩])
    (hh : player_handle_message sys.coordinator.game_board pawn
      (player_after mq ((i + 65) % 256) cfg.SO_NUM_P cfg.SO_N_MOVES (forked_by sys mq).reverse)
      msg = some (p1, pawns, out)) :
    system_step cfg sys (sys_event.deliver now pawn) =
      some { sys with
        players := sys.players.set i p1, queue := [] ++ sends_of mq out,
        exited := exited_after sys.exited mq out,
        forked := sys.forked ++ pawns.map (fun w => (mq, w)) } := by
  have hmem : mq ∈ ids := List.getElem?_mem hi
  have hne : ¬ mq = sys.coordinator.game_board.coordinator_mq_id := by
    rw [inv.queue_id]
    intro h
    exact hcq (h ▸ hmem)
  have hp := inv.players_get i mq hi
  have hfind : find_player sys.players mq = some i := by
    have := find_player_get sys.players i _
      (by rw [players_ids cfg ids cq sys inv]; exact hnd) hp
    simpa [player_after] using this
  simp only [system_step, hq, inv.exited_nil, List.not_mem_nil, if_false, hne, hfind, hp, hh]

theorem step_allow (cfg : config) (ids : List Int) (cq : Int) (sys : system) (q i : Nat)
    (now : Int) (pawn : pawn_t) (hnd : ids.Nodup) (hcq : cq ∉ ids)
    (hq : q < cfg.SO_NUM_P)
    (h : phase_holds cfg ids cq sys (placing_phase.allow q i)) :
    ∃ sys1, system_step cfg sys (sys_event.deliver now pawn) = some sys1 ∧
      phase_holds cfg ids cq sys1 (placing_phase.placed q i) := by
  obtain ⟨inv, hc, ⟨mq, hi, hqueue⟩, hlen, hcount⟩ := h
  have hci := hcount i mq hi
  simp only [Nat.lt_irrefl, if_false, Nat.add_zero] at hci
  have hstep := player_placing_step sys.coordinator.game_board mq ((i + 65) % 256)
    cfg.SO_NUM_P cfg.SO_N_MOVES (forked_by sys mq).reverse pawn ⟨2, 0⟩ rfl
    (by rw [List.length_reverse, hci]; exact hq)
  refine ⟨_, step_player cfg ids cq sys now pawn i mq ⟨2, 0⟩ _ _ _ hnd hcq inv hi hqueue
    hstep, ?_⟩
  have hfb : ∀ mq1 : Int, forked_by { sys with
      players := sys.players.set i (player_after mq ((i + 65) % 256) cfg.SO_NUM_P
        cfg.SO_N_MOVES (pawn :: (forked_by sys mq).reverse)),
      queue := [] ++ sends_of mq [effect.send sys.coordinator.game_board.coordinator_mq_id
        ⟨3, 0⟩],
      exited := exited_after sys.exited mq
        [effect.send sys.coordinator.game_board.coordinator_mq_id ⟨3, 0⟩],
      forked := sys.forked ++ [pawn].map (fun w => (mq, w)) } mq1 =
        if mq1 = mq then forked_by sys mq1 ++ [pawn] else forked_by sys mq1 :=
    fun mq1 => forked_by_append sys mq1 mq [pawn] _ _ _
  refine ⟨?_, hc, ⟨mq, hi, ?_⟩, ?_, ?_⟩
  · exact
      { exited_nil := by simp [exited_after, is_exit, inv.exited_nil]
        queue_id := inv.queue_id
        list_ids := inv.list_ids
        players_len := by simp [inv.players_len]
        players_get := by
          intro j mq1 hj
          rw [hfb mq1]
          by_cases hji : j = i
          · subst hji
            have hmq : mq1 = mq := by rw [hi] at hj; exact (Option.some.inj hj).symm
            subst hmq
            have hjl : j < sys.players.length := by
              rw [inv.players_len]
              rcases Nat.lt_or_ge j ids.length with h | h
              · exact h
              · rw [List.getElem?_eq_none h] at hi; simp at hi
            simp [List.getElem?_set_self hjl]
          · have hmq : mq1 ≠ mq := fun e => hji (ids_inj ids hnd j i mq1 mq hj hi e)
            simp only [if_neg hmq]
            rw [List.getElem?_set_ne (fun e => hji e.symm)]
            exact inv.players_get j mq1 hj
        forked_ids := by
          intro f hf
          simp only [List.map_cons, List.map_nil, List.mem_append, List.mem_singleton] at hf
          rcases hf with hf | hf
          · exact inv.forked_ids f hf
          · subst hf; exact List.getElem?_mem hi
        handled_types := inv.handled_types }
  · simp [sends_of, inv.queue_id]
  · simp [hlen]
  · intro j mq1 hj
    rw [hfb mq1]
    by_cases hji : j = i
    · subst hji
      have hmq : mq1 = mq := by rw [hi] at hj; exact (Option.some.inj hj).symm
      subst hmq
      simp [hci]
    · have hmq : mq1 ≠ mq := fun e => hji (ids_inj ids hnd j i mq1 mq hj hi e)
      simp only [if_neg hmq]
      rw [hcount j mq1 hj]
      by_cases h1 : j < i
      · simp [h1, Nat.le_of_lt h1]
      · have h2 : ¬ j ≤ i := by omega
        simp [h1, h2]

theorem step_allow_last (cfg : config) (ids : List Int) (cq : Int) (sys : system)
    (now : Int) (pawn : pawn_t) (hnd : ids.Nodup) (hcq : cq ∉ ids)
    (h : phase_holds cfg ids cq sys (placing_phase.allow cfg.SO_NUM_P 0)) :
    ∃ sys1, system_step cfg sys (sys_event.deliver now pawn) = some sys1 ∧
      phase_holds cfg ids cq sys1 placing_phase.all_placed := by
  obtain ⟨inv, _, ⟨mq, hi, hqueue⟩, hlen, hcount⟩ := h
  have hci := hcount 0 mq hi
  simp only [Nat.lt_irrefl, if_false, Nat.add_zero] at hci
  have hstep := player_placed_step sys.coordinator.game_board mq ((0 + 65) % 256)
    cfg.SO_NUM_P cfg.SO_N_MOVES (forked_by sys mq).reverse pawn ⟨2, 0⟩ rfl
    (by rw [List.length_reverse, hci])
  refine ⟨_, step_player cfg ids cq sys now pawn 0 mq ⟨2, 0⟩ _ _ _ hnd hcq inv hi hqueue
    hstep, ?_⟩
  have hp := inv.players_get 0 mq hi
  have hset : sys.players.set 0 (player_after mq ((0 + 65) % 256) cfg.SO_NUM_P
      cfg.SO_N_MOVES (forked_by sys mq).reverse) = sys.players := by
    apply List.ext_getElem?
    intro j
    by_cases hj : j = 0
    · subst hj
      rw [hp, List.getElem?_set_self]
      rcases Nat.lt_or_ge 0 sys.players.length with h | h
      · exact h
      · rw [List.getElem?_eq_none h] at hp; simp at hp
    · rw [List.getElem?_set_ne (fun e => hj e.symm)]
  refine ⟨placing_inv_congr cfg ids cq sys _ inv ?_ rfl rfl ?_ ?_ inv.handled_types,
    ⟨mq, hi, ?_⟩, ?_, ?_⟩
  · simp [exited_after, is_exit]
  · exact hset
  · simp
  · simp [sends_of, inv.queue_id]
  · simp only [List.map_nil, List.append_nil, hlen, Nat.add_zero]
  · intro j mq1 hj
    have := hcount j mq1 hj
    simp only [Nat.not_lt_zero, if_false, Nat.add_zero] at this
    rw [← this]
    exact congrArg List.length (forked_by_congr sys _ mq1 (by simp))

theorem step_placed (cfg : config) (ids : List Int) (cq : Int) (sys : system) (q i : Nat)
    (now : Int) (pawn : pawn_t) (hN : ids.length = cfg.SO_NUM_G)
    (hN32 : cfg.SO_NUM_G < 4294967296) (hi : i < cfg.SO_NUM_G)
    (h : phase_holds cfg ids cq sys (placing_phase.placed q i)) :
    ∃ sys1, system_step cfg sys (sys_event.deliver now pawn) = some sys1 ∧
      phase_holds cfg ids cq sys1
        (phase_next cfg.SO_NUM_G cfg.SO_NUM_P (placing_phase.placed q i)) := by
  obtain ⟨inv, hc, ⟨mq, hmq, hqueue⟩, hlen, hcount⟩ := h
  have hpl : sys.coordinator.player_list.length = cfg.SO_NUM_G := by
    rw [← hN, ← inv.list_ids, List.length_map]
  obtain ⟨p, hp, hh⟩ := handle_placed cfg now sys.coordinator ⟨3, 0⟩ rfl hN32 hpl
    (by rw [hc]; exact hi)
  rw [hc] at hp hh
  have hpid : ids[(i + 1) % cfg.SO_NUM_G]? = some p.mq_id := by
    rw [← inv.list_ids, List.getElem?_map, hp]
    rfl
  refine ⟨_, step_coordinator cfg sys now pawn _ _ _ _ hqueue inv.exited_nil
    inv.queue_id.symm hh, ?_⟩
  have hinv : placing_inv cfg ids cq { sys with
      coordinator := { sys.coordinator with
        current_placing_player := (i + 1) % cfg.SO_NUM_G },
      queue := [] ++ sends_of (⟨cq, mq, ⟨3, 0⟩⟩ : in_flight).dest
        [effect.send p.mq_id { message_type := 2, player_pseudo_name := 0 }],
      exited := exited_after sys.exited (⟨cq, mq, ⟨3, 0⟩⟩ : in_flight).dest
        [effect.send p.mq_id { message_type := 2, player_pseudo_name := 0 }],
      handled := sys.handled ++ [(⟨cq, mq, ⟨3, 0⟩⟩ : in_flight).msg] } := by
    refine placing_inv_congr cfg ids cq sys _ inv ?_ rfl rfl rfl rfl ?_
    · simp [exited_after, is_exit]
    · intro m hm
      simp only [List.mem_append, List.mem_singleton] at hm
      rcases hm with hm | hm
      · exact inv.handled_types m hm
      · subst hm; exact Or.inr rfl
  by_cases hlt : i + 1 < cfg.SO_NUM_G
  · have hmod : (i + 1) % cfg.SO_NUM_G = i + 1 := Nat.mod_eq_of_lt hlt
    simp only [phase_next, if_pos hlt]
    rw [hmod] at hpid
    refine ⟨hinv, hmod, ⟨p.mq_id, hpid, ?_⟩, ?_, ?_⟩
    · simp [sends_of]
    · show sys.forked.length = q * ids.length + (i + 1)
      rw [hlen]; omega
    · intro j mq1 hj
      have := hcount j mq1 hj
      show (forked_by sys mq1).length = q + (if j < i + 1 then 1 else 0)
      rw [this]
      by_cases h1 : j ≤ i
      · simp [h1, Nat.lt_succ_of_le h1]
      · have h2 : ¬ j < i + 1 := by omega
        simp [h1, h2]
  · have heq : i + 1 = cfg.SO_NUM_G := by omega
    have hmod : (i + 1) % cfg.SO_NUM_G = 0 := by rw [heq]; exact Nat.mod_self _
    simp only [phase_next, if_neg hlt]
    rw [hmod] at hpid
    refine ⟨hinv, hmod, ⟨p.mq_id, hpid, ?_⟩, ?_, ?_⟩
    · simp [sends_of]
    · show sys.forked.length = (q + 1) * ids.length + 0
      rw [hlen, Nat.succ_mul, hN]; omega
    · intro j mq1 hj
      have hjl : j < ids.length := by
        rcases Nat.lt_or_ge j ids.length with h | h
        · exact h
        · rw [List.getElem?_eq_none h] at hj; simp at hj
      have := hcount j mq1 hj
      show (forked_by sys mq1).length = q + 1 + (if j < 0 then 1 else 0)
      rw [this]
      have h1 : j ≤ i := by omega
      simp [h1]

theorem phase_step (cfg : config) (ids : List Int) (cq : Int) (sys : system)
    (p : placing_phase) (now : Int) (pawn : pawn_t) (hN : ids.length = cfg.SO_NUM_G)
    (hN32 : cfg.SO_NUM_G < 4294967296) (hnd : ids.Nodup)
    (hcq : cq ∉ ids) (hv : phase_valid cfg.SO_NUM_G cfg.SO_NUM_P p)
    (hp : p ≠ placing_phase.all_placed) (h : phase_holds cfg ids cq sys p) :
    ∃ sys1, system_step cfg sys (sys_event.deliver now pawn) = some sys1 ∧
      phase_holds cfg ids cq sys1 (phase_next cfg.SO_NUM_G cfg.SO_NUM_P p) ∧
      phase_valid cfg.SO_NUM_G cfg.SO_NUM_P (phase_next cfg.SO_NUM_G cfg.SO_NUM_P p) ∧
      phase_steps cfg.SO_NUM_G cfg.SO_NUM_P (phase_next cfg.SO_NUM_G cfg.SO_NUM_P p) =
        phase_steps cfg.SO_NUM_G cfg.SO_NUM_P p + 1 := by
  cases p with
  | ready k =>
    obtain ⟨sys1, h1, h2⟩ := step_ready cfg ids cq sys k now pawn hN hN32 hv h
    refine ⟨sys1, h1, h2, ?_, ?_⟩
    · simp only [phase_next]
      split
      · assumption
      · simp only [phase_valid] at hv ⊢
        by_cases hM : 0 < cfg.SO_NUM_P
        · exact ⟨by omega, Or.inl hM⟩
        · exact ⟨by omega, Or.inr ⟨by omega, trivial⟩⟩
    · simp only [phase_next]
      simp only [phase_valid] at hv
      split
      · rfl
      · simp only [phase_steps]; omega
  | allow q i =>
    obtain ⟨hi, hq⟩ := hv
    rcases hq with hq | ⟨hq, hi0⟩
    · obtain ⟨sys1, h1, h2⟩ := step_allow cfg ids cq sys q i now pawn hnd hcq hq h
      simp only [phase_next, if_pos hq]
      exact ⟨sys1, h1, h2, ⟨hi, hq⟩, rfl⟩
    · subst hq; subst hi0
      obtain ⟨sys1, h1, h2⟩ := step_allow_last cfg ids cq sys now pawn hnd hcq h
      simp only [phase_next, Nat.lt_irrefl, if_false]
      exact ⟨sys1, h1, h2, trivial, by simp [phase_steps]⟩
  | placed q i =>
    obtain ⟨hi, hq⟩ := hv
    obtain ⟨sys1, h1, h2⟩ := step_placed cfg ids cq sys q i now pawn hN hN32 hi h
    refine ⟨sys1, h1, h2, ?_, ?_⟩
    · simp only [phase_next]
      split
      · exact ⟨by assumption, Or.inl hq⟩
      · refine ⟨by omega, ?_⟩
        by_cases hM : q + 1 < cfg.SO_NUM_P
        · exact Or.inl hM
        · exact Or.inr ⟨by omega, rfl⟩
    · simp only [phase_next]
      split
      · simp only [phase_steps]; omega
      · simp only [phase_steps, Nat.succ_mul]; omega
  | all_placed => exact absurd rfl hp

theorem phase_steps_bound (N M : Nat) (p : placing_phase) (hv : phase_valid N M p)
    (hp : p ≠ placing_phase.all_placed) :
    phase_steps N M p < N + 2 * (M * N) + 1 := by
  cases p with
  | ready k => simp only [phase_valid] at hv; simp only [phase_steps]; omega
  | allow q i =>
    obtain ⟨hi, hq⟩ := hv
    simp only [phase_steps]
    rcases hq with hq | ⟨hq, hi0⟩
    · have := row_bound q M N i hq hi; omega
    · subst hq; subst hi0; omega
  | placed q i =>
    obtain ⟨hi, hq⟩ := hv
    simp only [phase_steps]
    have := row_bound q M N i hq hi; omega
  | all_placed => exact absurd rfl hp

theorem phase_run (cfg : config) (ids : List Int) (cq : Int)
    (hN : ids.length = cfg.SO_NUM_G) (hN32 : cfg.SO_NUM_G < 4294967296) (hnd : ids.Nodup)
    (hcq : cq ∉ ids) :
    ∀ (evs : List sys_event) (sys : system) (p : placing_phase),
      (∀ e ∈ evs, is_deliver e = true ∨ is_pawn_start e = true) →
      phase_valid cfg.SO_NUM_G cfg.SO_NUM_P p → phase_holds cfg ids cq sys p →
      phase_steps cfg.SO_NUM_G cfg.SO_NUM_P p + (evs.filter is_deliver).length ≤
        cfg.SO_NUM_G + 2 * (cfg.SO_NUM_P * cfg.SO_NUM_G) + 1 →
      ∃ sys1 p1, system_run cfg sys evs = some sys1 ∧ phase_holds cfg ids cq sys1 p1 ∧
        phase_valid cfg.SO_NUM_G cfg.SO_NUM_P p1 ∧
        phase_steps cfg.SO_NUM_G cfg.SO_NUM_P p1 =
          phase_steps cfg.SO_NUM_G cfg.SO_NUM_P p + (evs.filter is_deliver).length := by
  intro evs
  induction evs with
  | nil => intro sys p _ hv h _; exact ⟨sys, p, rfl, h, hv, by simp⟩
  | cons e es ih =>
    intro sys p hall hv h hle
    have hes : ∀ x ∈ es, is_deliver x = true ∨ is_pawn_start x = true :=
      fun x hx => hall x (List.mem_cons_of_mem _ hx)
    cases e with
    | deliver now pawn =>
      simp only [List.filter_cons, is_deliver, if_true, List.length_cons] at hle ⊢
      have hp : p ≠ placing_phase.all_placed := by
        intro hp; subst hp
        simp only [phase_steps] at hle; omega
      obtain ⟨sys1, h1, h2, h3, h4⟩ :=
        phase_step cfg ids cq sys p now pawn hN hN32 hnd hcq hv hp h
      obtain ⟨sys2, p2, r1, r2, r3, r4⟩ := ih sys1 _ hes h3 h2 (by rw [h4]; omega)
      refine ⟨sys2, p2, ?_, r2, r3, by rw [r4, h4]; omega⟩
      simp only [system_run, h1, r1]
    | timeout now =>
      have := hall (sys_event.timeout now) (List.mem_cons_self _ _)
      simp [is_deliver, is_pawn_start] at this
    | pawn_start cells =>
      obtain ⟨sys1, h1, h2⟩ := phase_holds_pawn_start cfg ids cq sys p cells h
      simp only [List.filter_cons, is_deliver, Bool.false_eq_true, if_false] at hle ⊢
      obtain ⟨sys2, p2, r1, r2, r3, r4⟩ := ih sys1 p hes hv h2 hle
      refine ⟨sys2, p2, ?_, r2, r3, r4⟩
      simp only [system_run, h1, r1]
    | pawn_move a b c d =>
      have := hall (sys_event.pawn_move a b c d) (List.mem_cons_self _ _)
      simp [is_deliver, is_pawn_start] at this

theorem spawn_players_eq (game_board : board_t) (player_list : List player_t) (N : Nat)
    (M moves : Nat) (fresh : List (Int × Int)) (hl : player_list.length = N)
    (hf : fresh.length = N) :
    ∃ st, spawn_players game_board player_list N (M : Int) moves fresh = some st ∧
      st.player_list.map (fun p => p.mq_id) = fresh.map (fun id => id.1) ∧
      st.children.length = N ∧
      (∀ (j : Nat) (id : Int × Int), fresh[j]? = some id →
        st.children[j]? = some (player_start id.1 ((j + 65) % 256) (M : Int) moves)) ∧
      st.out = fresh.map (fun id => ⟨game_board.coordinator_mq_id, id.1, ⟨1, 0⟩⟩) := by
  unfold spawn_players
  obtain ⟨st, h1, h2⟩ := for_loop_total
    (spawn_players_body game_board (M : Int) moves fresh)
    (fun i st => st.player_list.length = N ∧ st.children.length = i ∧
      (∀ (j : Nat) (id : Int × Int), j < i → fresh[j]? = some id →
        (∃ p, st.player_list[j]? = some p ∧ p.mq_id = id.1) ∧
        st.children[j]? = some (player_start id.1 ((j + 65) % 256) (M : Int) moves)) ∧
      st.out = (fresh.take i).map
        (fun id => ⟨game_board.coordinator_mq_id, id.1, ⟨1, 0⟩⟩)) N
    (by
      intro i st hi hP
      obtain ⟨p1, p2, p3, p4⟩ := hP
      obtain ⟨a, b, hfi⟩ : ∃ a b, fresh[i]? = some (a, b) :=
        ⟨fresh[i].1, fresh[i].2, List.getElem?_eq_getElem (by omega)⟩
      have hil : i < st.player_list.length := by omega
      have hbody : spawn_players_body game_board (M : Int) moves fresh i st =
          some
            { player_list := st.player_list.set i
                ⟨a, b, (i + 65) % 256, (toU32 (M : Int) * moves) % 4294967296,
                  (toU32 (M : Int) * moves) % 4294967296, 0, 0⟩,
              children := st.children ++ [player_start a ((i + 65) % 256) (M : Int) moves],
              out := st.out ++ sends_of a (ready_up game_board) } := by
        simp only [spawn_players_body, hfi, if_pos hil]
      refine ⟨_, hbody, ?_, ?_, ?_, ?_⟩
      · simp [p1]
      · simp [p2]
      · intro j id hj hid
        by_cases hji : j = i
        · subst hji
          rw [hfi] at hid
          have hid1 := Option.some.inj hid
          subst hid1
          constructor
          · exact ⟨_, List.getElem?_set_self hil, rfl⟩
          · rw [List.getElem?_append_right (by omega)]
            simp [p2]
        · have hlt : j < i := by omega
          obtain ⟨⟨p, hp, hpm⟩, hc⟩ := p3 j id hlt hid
          constructor
          · exact ⟨p, by rw [List.getElem?_set_ne (fun e => hji e.symm)]; exact hp, hpm⟩
          · rw [List.getElem?_append_left (by omega)]
            exact hc
      · simp only [p4, List.take_succ, hfi, List.map_append, ready_up,
          send_signal_message_to_master, sends_of, Option.toList, List.map_cons, List.map_nil])
    N 0 { player_list := player_list, children := [], out := [] } (by omega)
    ⟨hl, rfl, by intro j id hj; omega, by simp⟩
  simp only [Nat.zero_add] at h1 h2
  obtain ⟨p1, p2, p3, p4⟩ := h2
  refine ⟨st, h1, ?_, p2, ?_, ?_⟩
  · apply List.ext_getElem?
    intro j
    simp only [List.getElem?_map]
    rcases Nat.lt_or_ge j N with h | h
    · have hfj : fresh[j]? = some fresh[j] := List.getElem?_eq_getElem (by omega)
      obtain ⟨⟨p, hp, hpm⟩, _⟩ := p3 j _ h hfj
      rw [hp, hfj]; simp [hpm]
    · rw [List.getElem?_eq_none (by omega), List.getElem?_eq_none (by omega)]
      rfl
  · intro j id hid
    have hj : j < N := by
      rcases Nat.lt_or_ge j fresh.length with h | h
      · omega
      · rw [List.getElem?_eq_none h] at hid; simp at hid
    exact (p3 j id hj hid).2
  · rw [p4, List.take_of_length_le (by omega)]

theorem system_start_ready (cfg : config) (c : coordinator_t) (fresh : List (Int × Int))
    (hl : c.player_list.length = cfg.SO_NUM_G) (hf : fresh.length = cfg.SO_NUM_G)
    (hr : c.ready_players = 0) :
    ∃ sys0, system_start cfg c fresh = some sys0 ∧
      phase_holds cfg (fresh.map (fun id => id.1)) c.game_board.coordinator_mq_id sys0
        (placing_phase.ready 0) := by
  obtain ⟨st, h1, h2, h3, h4, h5⟩ := spawn_players_eq c.game_board c.player_list
    cfg.SO_NUM_G cfg.SO_NUM_P cfg.SO_N_MOVES fresh hl hf
  have hs : system_start cfg c fresh =
      some
        { coordinator := { c with player_list := st.player_list },
          players := st.children, queue := st.out,
          exited := [], handled := [], forked := [] } := by
    simp only [system_start, h1]
  refine ⟨_, hs, ?_, hr, ?_, rfl⟩
  · exact
      { exited_nil := rfl
        queue_id := rfl
        list_ids := h2
        players_len := by simp [h3, hf]
        players_get := by
          intro j mq hj
          simp only [List.getElem?_map, Option.map_eq_some'] at hj
          obtain ⟨id, hid, hmq⟩ := hj
          subst hmq
          show st.children[j]? = _
          rw [h4 j id hid]
          simp [forked_by, player_after_nil]
        forked_ids := by intro f hf; simp at hf
        handled_types := by intro m hm; simp at hm }
  · show st.out = _
    rw [h5]
    simp [List.map_map, Function.comp]

theorem broadcast_signal_to_players_sends (ps : List player_t) (n type : Nat)
    (out : List effect) (h : broadcast_signal_to_players ps n type = some out) :
    ∀ (q : Int) (msg : message_t), effect.send q msg ∈ out → msg.message_type = type := by
  unfold broadcast_signal_to_players at h
  have := for_loop_invariant (broadcast_signal_body ps type)
    (fun _ o => ∀ (q : Int) (msg : message_t), effect.send q msg ∈ o → msg.message_type = type)
    (by
      intro i s s1 hP hb
      unfold broadcast_signal_body at hb
      split at hb
      · simp at hb
      · simp only [Option.some.injEq] at hb
        subst hb
        intro q msg he
        rcases List.mem_append.1 he with h1 | h1
        · exact hP q msg h1
        · simp only [List.mem_singleton, effect.send.injEq] at h1
          rw [h1.2])
    n 0 [] out (by simp) h
  exact this

theorem exec_round_sends (cfg : config) (s s1 : coordinator_t) (out : List effect)
    (h : exec_round cfg s = some (s1, out)) :
    ∀ (q : Int) (msg : message_t), effect.send q msg ∈ out → msg.message_type = 5 := by
  unfold exec_round at h
  simp only at h
  split at h
  · simp at h
  · split at h
    · simp at h
    · rename_i o ho
      simp only [Option.some.injEq, Prod.mk.injEq] at h
      rw [← h.2]
      exact broadcast_signal_to_players_sends _ _ _ _ ho

theorem end_round_sends (cfg : config) (now : Int) (s s1 : coordinator_t) (out : List effect)
    (h : end_round cfg now s = some (s1, out)) : out = [effect.alarm 0] := by
  unfold end_round at h
  simp only at h
  split at h
  · simp at h
  · simp only [Option.some.injEq, Prod.mk.injEq] at h
    exact h.2.symm

theorem start_over_again_sends (cfg : config) (s s1 : coordinator_t) (out : List effect)
    (h : start_over_again cfg s = some (s1, out)) :
    ∀ (q : Int) (msg : message_t), effect.send q msg ∈ out →
      msg.message_type = 12 ∨ msg.message_type = 5 := by
  unfold start_over_again at h
  simp only at h
  split at h
  · simp at h
  · split at h
    · simp at h
    · split at h
      · simp at h
      · rename_i o1 ho1
        split at h
        · simp at h
        · rename_i s2 o2 ho2
          simp only [Option.some.injEq, Prod.mk.injEq] at h
          rw [← h.2]
          intro q msg he
          rcases List.mem_append.1 he with h1 | h1
          · exact Or.inl (broadcast_signal_to_players_sends _ _ _ _ ho1 q msg h1)
          · exact Or.inr (exec_round_sends cfg _ _ _ ho2 q msg h1)

theorem kill_em_all_sends (cfg : config) (s : coordinator_t) (out : List effect)
    (h : kill_em_all cfg s = some out) :
    ∀ (q : Int) (msg : message_t), effect.send q msg ∈ out → msg.message_type = 11 := by
  unfold kill_em_all at h
  split at h
  · simp at h
  · rename_i o1 ho1
    split at h
    · simp at h
    · rename_i o2 ho2
      simp only [Option.some.injEq] at h
      subst h
      have hc := for_loop_invariant (close_queues_body s.player_list)
        (fun _ o => ∀ (q : Int) (msg : message_t), effect.send q msg ∉ o)
        (by
          intro i t t1 hP hb
          unfold close_queues_body at hb
          split at hb
          · simp at hb
          · simp only [Option.some.injEq] at hb
            subst hb
            intro q msg he
            rcases List.mem_append.1 he with h1 | h1
            · exact hP q msg h1
            · simp at h1)
        cfg.SO_NUM_G 0 [] o2 (by simp) ho2
      intro q msg he
      rcases List.mem_append.1 he with h1 | h1
      · exact broadcast_signal_to_players_sends _ _ _ _ ho1 q msg h1
      · exact absurd h1 (hc q msg)

theorem destroy_board_sends (b : board_t) (out : List effect)
    (h : destroy_board b = some out) :
    ∀ (q : Int) (msg : message_t), effect.send q msg ∉ out := by
  unfold destroy_board at h
  split at h
  · simp at h
  · rename_i o ho
    simp only [Option.some.injEq] at h
    subst h
    have hc := for_loop_invariant (destroy_board_body b)
      (fun _ o => ∀ (q : Int) (msg : message_t), effect.send q msg ∉ o)
      (by
        intro i t t1 hP hb
        unfold destroy_board_body at hb
        split at hb
        · simp at hb
        · simp only [Option.some.injEq] at hb
          subst hb
          intro q msg he
          rcases List.mem_append.1 he with h1 | h1
          · exact hP q msg h1
          · simp at h1)
      _ 0 [] o (by simp) ho
    intro q msg he
    rcases List.mem_append.1 he with h1 | h1
    · exact hc q msg h1
    · simp at h1

theorem signal_handler_sends (cfg : config) (now : Int) (s s1 : coordinator_t) (signo : Int)
    (out : List effect) (h : signal_handler cfg now s signo = some (s1, out)) :
    ∀ (q : Int) (msg : message_t), effect.send q msg ∈ out → msg.message_type = 11 := by
  unfold signal_handler at h
  split at h
  · unfold end_game at h
    split at h
    · simp at h
    · rename_i s2 o1 ho1
      split at h
      · simp at h
      · rename_i o2 ho2
        split at h
        · simp at h
        · rename_i o3 ho3
          simp only [Option.some.injEq, Prod.mk.injEq] at h
          rw [← h.2]
          have e1 := end_round_sends cfg now s s2 o1 ho1
          subst e1
          intro q msg he
          simp only [List.mem_append, List.mem_singleton, List.mem_cons, List.not_mem_nil,
            or_false] at he
          rcases he with ((h1 | h1) | h1) | h1
          · simp at h1
          · exact kill_em_all_sends cfg s2 o2 ho2 q msg h1
          · exact absurd h1 (destroy_board_sends _ o3 ho3 q msg)
          · simp at h1
  · simp only [Option.some.injEq, Prod.mk.injEq] at h
    rw [← h.2]
    intro q msg he
    simp at he

/-- The messages `handle_message` sends when the message handled is neither
Ready nor PawnPlaced have type 5, 7, 9 or 12: AllowPlacement (type 2) is sent
from cases 1 and 3 only. -/
theorem handle_message_sends (cfg : config) (now : Int) (s s1 : coordinator_t)
    (m : message_t) (out : List effect) (h1 : m.message_type ≠ 1) (h3 : m.message_type ≠ 3)
    (h : handle_message cfg now s m = some (s1, out)) :
    ∀ (q : Int) (msg : message_t), effect.send q msg ∈ out →
      msg.message_type = 5 ∨ msg.message_type = 7 ∨ msg.message_type = 9 ∨
        msg.message_type = 12 := by
  unfold handle_message at h
  rw [if_neg h1, if_neg h3] at h
  split at h
  · intro q msg he
    exact Or.inl (exec_round_sends cfg s s1 out h q msg he)
  · split at h
    · simp only at h
      split at h
      · split at h
        · simp at h
        · rename_i o ho
          simp only [Option.some.injEq, Prod.mk.injEq] at h
          rw [← h.2]
          intro q msg he
          simp only [List.mem_cons] at he
          rcases he with he | he
          · simp at he
          · exact Or.inr (Or.inl (broadcast_signal_to_players_sends _ _ _ _ ho q msg he))
      · simp only [Option.some.injEq, Prod.mk.injEq] at h
        rw [← h.2]
        intro q msg he
        simp at he
    · split at h
      · split at h
        · simp at h
        · rename_i o1 ho1
          have hb := broadcast_signal_to_players_sends _ _ _ _ ho1
          simp only at h
          split at h
          · split at h
            · simp at h
            · rename_i s2 o2 ho2
              split at h
              · simp at h
              · rename_i s3 o3 ho3
                simp only [Option.some.injEq, Prod.mk.injEq] at h
                rw [← h.2]
                have e2 := end_round_sends cfg now _ s2 o2 ho2
                subst e2
                intro q msg he
                simp only [List.mem_append, List.mem_singleton] at he
                rcases he with (he | he) | he
                · exact Or.inr (Or.inr (Or.inl (hb q msg he)))
                · simp at he
                · rcases start_over_again_sends cfg s2 s3 o3 ho3 q msg he with h5 | h5
                  · exact Or.inr (Or.inr (Or.inr h5))
                  · exact Or.inl h5
          · simp only [Option.some.injEq, Prod.mk.injEq] at h
            rw [← h.2]
            intro q msg he
            exact Or.inr (Or.inr (Or.inl (hb q msg he)))
      · split at h
        · split at h
          · simp at h
          · split at h
            · split at h
              · simp at h
              · simp only [Option.some.injEq, Prod.mk.injEq] at h
                rw [← h.2]
                intro q msg he
                simp at he
            · simp only [Option.some.injEq, Prod.mk.injEq] at h
              rw [← h.2]
              intro q msg he
              simp at he
        · simp only [Option.some.injEq, Prod.mk.injEq] at h
          rw [← h.2]
          intro q msg he
          simp at he

theorem system_step_after (cfg : config) (sys sys1 : system) (ev : sys_event)
    (hq : ∀ m ∈ sys.queue, m.msg.message_type ≠ 1 ∧ m.msg.message_type ≠ 2 ∧
      m.msg.message_type ≠ 3 ∧ m.msg.message_type ≠ 4)
    (h : system_step cfg sys ev = some sys1) :
    (∀ m ∈ sys1.queue, m.msg.message_type ≠ 1 ∧ m.msg.message_type ≠ 2 ∧
      m.msg.message_type ≠ 3 ∧ m.msg.message_type ≠ 4) ∧
    sys1.forked = sys.forked ∧
    sys1.handled.filter (fun m => decide (m.message_type = 4)) =
      sys.handled.filter (fun m => decide (m.message_type = 4)) := by
  cases ev with
  | deliver now pawn =>
    simp only [system_step] at h
    split at h
    · simp only [Option.some.injEq] at h
      subst h
      exact ⟨hq, rfl, rfl⟩
    · rename_i m rest hqueue
      have hm := hq m (by rw [hqueue]; exact List.mem_cons_self _ _)
      have hrest : ∀ x ∈ rest, x.msg.message_type ≠ 1 ∧ x.msg.message_type ≠ 2 ∧
          x.msg.message_type ≠ 3 ∧ x.msg.message_type ≠ 4 :=
        fun x hx => hq x (by rw [hqueue]; exact List.mem_cons_of_mem _ hx)
      split at h
      · simp only [Option.some.injEq] at h
        subst h
        exact ⟨hrest, rfl, rfl⟩
      · split at h
        · split at h
          · simp at h
          · rename_i c out hh
            simp only [Option.some.injEq] at h
            subst h
            refine ⟨?_, rfl, ?_⟩
            · intro x hx
              rcases List.mem_append.1 hx with hx | hx
              · exact hrest x hx
              · have := handle_message_sends cfg now _ c m.msg out hm.1 hm.2.2.1 hh
                  x.dest x.msg (mem_sends_of _ _ _ hx).1
                omega
            · simp only [List.filter_append, List.filter_cons, List.filter_nil]
              simp [hm.2.2.2]
        · split at h
          · simp only [Option.some.injEq] at h
            subst h
            exact ⟨hrest, rfl, rfl⟩
          · split at h
            · simp at h
            · rename_i p hp
              split at h
              · simp at h
              · rename_i p1 pawns out hh
                simp only [Option.some.injEq] at h
                subst h
                obtain ⟨_, e2, e3⟩ :=
                  player_other_message _ pawn p p1 m.msg pawns out hm.2.1 hh
                subst e2
                refine ⟨?_, by simp, rfl⟩
                intro x hx
                rcases List.mem_append.1 hx with hx | hx
                · exact hrest x hx
                · have := (e3 x.dest x.msg (mem_sends_of _ _ _ hx).1).2
                  omega
  | timeout now =>
    simp only [system_step] at h
    split at h
    · simp only [Option.some.injEq] at h
      subst h
      exact ⟨hq, rfl, rfl⟩
    · split at h
      · simp at h
      · rename_i c out hh
        simp only [Option.some.injEq] at h
        subst h
        refine ⟨?_, rfl, rfl⟩
        intro x hx
        rcases List.mem_append.1 hx with hx | hx
        · exact hq x hx
        · have := signal_handler_sends cfg now _ c SIGALRM out hh
            x.dest x.msg (mem_sends_of _ _ _ hx).1
          omega
  | pawn_start cells =>
    simp only [system_step, Option.some.injEq] at h
    subst h
    exact ⟨hq, rfl, rfl⟩
  | pawn_move pawn_mq_id cells name captured =>
    simp only [system_step, Option.some.injEq] at h
    subst h
    refine ⟨?_, rfl, rfl⟩
    intro x hx
    rcases List.mem_append.1 hx with hx | hx
    · exact hq x hx
    · have hmem := (mem_sends_of _ _ _ hx).1
      simp only [notify_movement, signal_achievement, List.mem_append, List.mem_singleton,
        effect.send.injEq] at hmem
      rcases hmem with hmem | hmem
      · rw [hmem.2]; simp
      · split at hmem
        · simp only [List.mem_singleton, effect.send.injEq] at hmem
          rw [hmem.2]; simp
        · simp at hmem

theorem system_run_after (cfg : config) :
    ∀ (evs : List sys_event) (sys sys1 : system),
      (∀ m ∈ sys.queue, m.msg.message_type ≠ 1 ∧ m.msg.message_type ≠ 2 ∧
        m.msg.message_type ≠ 3 ∧ m.msg.message_type ≠ 4) →
      system_run cfg sys evs = some sys1 →
      (∀ m ∈ sys1.queue, m.msg.message_type ≠ 1 ∧ m.msg.message_type ≠ 2 ∧
        m.msg.message_type ≠ 3 ∧ m.msg.message_type ≠ 4) ∧
      sys1.forked = sys.forked ∧
      sys1.handled.filter (fun m => decide (m.message_type = 4)) =
        sys.handled.filter (fun m => decide (m.message_type = 4)) := by
  intro evs
  induction evs with
  | nil =>
    intro sys sys1 hq h
    simp only [system_run, Option.some.injEq] at h
    subst h
    exact ⟨hq, rfl, rfl⟩
  | cons e es ih =>
    intro sys sys1 hq h
    simp only [system_run] at h
    split at h
    · simp at h
    · rename_i sys2 hstep
      obtain ⟨a1, a2, a3⟩ := system_step_after cfg sys sys2 e hq hstep
      obtain ⟨b1, b2, b3⟩ := ih sys2 sys1 a1 h
      exact ⟨b1, by rw [b2, a2], by rw [b3, a3]⟩

theorem signal_to_all_no_exit (ps : List player_t) (type : Nat) :
    (signal_to_all ps type).any is_exit = false := by
  induction ps with
  | nil => rfl
  | cons p l ih =>
    simp only [signal_to_all, List.map_cons, List.any_cons, is_exit, Bool.false_or] at ih ⊢
    exact ih

theorem sends_of_signal_to_all (sender : Int) (ps : List player_t) (type : Nat) :
    sends_of sender (signal_to_all ps type) =
      ps.map (fun p => ⟨p.mq_id, sender, ⟨type, 0⟩⟩) := by
  induction ps with
  | nil => rfl
  | cons p l ih =>
    simp only [signal_to_all, List.map_cons, sends_of] at ih ⊢
    rw [ih]

theorem step_all_placed (cfg : config) (ids : List Int) (cq : Int) (sys : system)
    (now : Int) (pawn : pawn_t) (hN : ids.length = cfg.SO_NUM_G)
    (h : phase_holds cfg ids cq sys placing_phase.all_placed) :
    system_step cfg sys (sys_event.deliver now pawn) =
      (exec_round cfg sys.coordinator).map (fun r =>
        { sys with
          coordinator := r.1,
          queue := sys.coordinator.player_list.map (fun p => ⟨p.mq_id, cq, ⟨5, 0⟩⟩),
          handled := sys.handled ++ [⟨4, 0⟩] }) := by
  obtain ⟨inv, ⟨mq, _, hqueue⟩, _, _⟩ := h
  have hpl : sys.coordinator.player_list.length = cfg.SO_NUM_G := by
    rw [← hN, ← inv.list_ids, List.length_map]
  have hh : handle_message cfg now sys.coordinator ⟨4, 0⟩ = exec_round cfg sys.coordinator := by
    simp [handle_message]
  simp only [system_step, hqueue, inv.exited_nil, List.not_mem_nil, if_false, inv.queue_id,
    if_true, hh]
  rw [exec_round_eq cfg sys.coordinator hpl]
  cases hs : spawn_flags { sys.coordinator.game_board with round_in_progress := 1 }
      cfg.SO_FLAG_MIN cfg.SO_FLAG_MAX cfg.SO_ROUND_SCORE sys.coordinator.draws with
  | none => simp
  | some r =>
    simp [exited_after, signal_to_all_no_exit, sends_of_signal_to_all, inv.exited_nil]

/-- C20: `N ≥ 1` players of `M` pawns, started by `spawn_players` with
distinct queues that differ from the coordinator's, the coordinator not
having counted any Ready yet. Whatever the times, the pawns `spawn_pawn`
returns and the moments at which forked pawns place themselves, after
`N + 2 * (M * N) + 1` deliveries the only message in flight is an
AllPawnsPlaced (type 4) sent by the first player to the coordinator, the
coordinator has received Ready and PawnPlaced messages only, so this is the
first AllPawnsPlaced, and every player has forked exactly `M` pawns, `N * M`
together. Its delivery is one call of `exec_round`, after which RoundReady
(type 5) to each player is all that is in flight; from then on, whatever
happens (deliveries, the timeout, pawns moving), no AllowPlacement (type 2) is
ever in flight, no pawn is forked and no second AllPawnsPlaced reaches the
coordinator. -/
theorem placement_completes_before_first_round (cfg : config) (c : coordinator_t)
    (fresh : List (Int × Int)) (evs : List sys_event)
    (hN0 : 0 < cfg.SO_NUM_G) (hN32 : cfg.SO_NUM_G < 4294967296)
    (hl : c.player_list.length = cfg.SO_NUM_G) (hf : fresh.length = cfg.SO_NUM_G)
    (hr : c.ready_players = 0) (hnd : (fresh.map (fun id => id.1)).Nodup)
    (hcq : c.game_board.coordinator_mq_id ∉ fresh.map (fun id => id.1))
    (hev : ∀ e ∈ evs, is_deliver e = true ∨ is_pawn_start e = true)
    (hcount : (evs.filter is_deliver).length =
      cfg.SO_NUM_G + 2 * (cfg.SO_NUM_P * cfg.SO_NUM_G) + 1) :
    ∃ (sys0 sys1 : system) (first : Int × Int),
      system_start cfg c fresh = some sys0 ∧ system_run cfg sys0 evs = some sys1 ∧
      fresh[0]? = some first ∧
      sys1.queue = [⟨c.game_board.coordinator_mq_id, first.1, ⟨4, 0⟩⟩] ∧
      (∀ m ∈ sys1.handled, m.message_type = 1 ∨ m.message_type = 3) ∧
      sys1.forked.length = cfg.SO_NUM_G * cfg.SO_NUM_P ∧
      (∀ id ∈ fresh, (forked_by sys1 id.1).length = cfg.SO_NUM_P) ∧
      sys1.exited = [] ∧
      (∀ (now : Int) (pawn : pawn_t),
        system_step cfg sys1 (sys_event.deliver now pawn) =
          (exec_round cfg sys1.coordinator).map (fun r =>
            { sys1 with
              coordinator := r.1,
              queue := sys1.coordinator.player_list.map
                (fun p => ⟨p.mq_id, c.game_board.coordinator_mq_id, ⟨5, 0⟩⟩),
              handled := sys1.handled ++ [⟨4, 0⟩] })) ∧
      (∀ (now : Int) (pawn : pawn_t) (sys2 : system),
        system_step cfg sys1 (sys_event.deliver now pawn) = some sys2 →
        ∀ (evs2 : List sys_event) (sys3 : system),
          system_run cfg sys2 evs2 = some sys3 →
          (∀ m ∈ sys3.queue, m.msg.message_type ≠ 2) ∧ sys3.forked = sys1.forked ∧
          sys3.handled.filter (fun m => decide (m.message_type = 4)) = [⟨4, 0⟩]) := by
  have hN : (fresh.map (fun id => id.1)).length = cfg.SO_NUM_G := by
    rw [List.length_map]; exact hf
  obtain ⟨sys0, hs0, hp0⟩ := system_start_ready cfg c fresh hl hf hr
  obtain ⟨sys1, p1, hrun, hp1, hv1, hst1⟩ :=
    phase_run cfg _ _ hN hN32 hnd hcq evs sys0 (placing_phase.ready 0) hev hN0 hp0
      (by simp only [phase_steps]; omega)
  have hall : p1 = placing_phase.all_placed := by
    by_contra hne
    have := phase_steps_bound cfg.SO_NUM_G cfg.SO_NUM_P p1 hv1 hne
    rw [hst1] at this
    simp only [phase_steps] at this
    omega
  subst hall
  have hstep : ∀ (now : Int) (pawn : pawn_t), _ :=
    fun now pawn => step_all_placed cfg _ _ sys1 now pawn hN hp1
  obtain ⟨inv, ⟨mq, hmq, hqueue⟩, hlen, hcnt⟩ := hp1
  simp only [List.getElem?_map, Option.map_eq_some'] at hmq
  obtain ⟨first, hfirst, hfm⟩ := hmq
  subst hfm
  refine ⟨sys0, sys1, first, hs0, hrun, hfirst, hqueue, inv.handled_types, ?_, ?_,
    inv.exited_nil, fun now pawn => hstep now pawn, ?_⟩
  · rw [hlen, hN, Nat.mul_comm]
  · intro id hid
    obtain ⟨j, hj⟩ := List.getElem?_of_mem hid
    exact hcnt j id.1 (by rw [List.getElem?_map, hj]; rfl)
  · intro now pawn sys2 h2 evs2 sys3 h3
    rw [hstep now pawn] at h2
    cases he : exec_round cfg sys1.coordinator with
    | none => rw [he] at h2; simp at h2
    | some r =>
      rw [he] at h2
      simp only [Option.map_some', Option.some.injEq] at h2
      subst h2
      obtain ⟨b1, b2, b3⟩ := system_run_after cfg evs2 _ sys3
        (by
          intro m hm
          simp only [List.mem_map] at hm
          obtain ⟨p, _, hp⟩ := hm
          subst hp
          simp)
        h3
      refine ⟨fun m hm => (b1 m hm).2.1, b2, ?_⟩
      rw [b3]
      have hnone : sys1.handled.filter (fun m => decide (m.message_type = 4)) = [] := by
        apply List.filter_eq_nil_iff.2
        intro m hm
        have := inv.handled_types m hm
        simp only [decide_eq_true_eq]
        omega
      simp [List.filter_append, hnone]

/-- C20 in the scenario: two players of one pawn each with queues 101 and
102, the coordinator's queue 77; seven deliveries and one pawn placing itself
in between. -/
theorem placement_completes_before_first_round_witness :
    (0 < scenario_config.SO_NUM_G ∧ scenario_config.SO_NUM_G < 4294967296 ∧
      scenario_before_spawn.ready_players = 0) ∧
    ((system_start scenario_config scenario_before_spawn [(101, 1001), (102, 1002)]).bind
        (fun s => system_run scenario_config s
          [sys_event.deliver 0 ⟨0, 11, 111⟩, sys_event.deliver 0 ⟨0, 12, 112⟩,
            sys_event.deliver 0 ⟨0, 13, 113⟩, sys_event.pawn_start empty_board_3x3.cells,
            sys_event.deliver 0 ⟨0, 14, 114⟩, sys_event.deliver 0 ⟨0, 15, 115⟩,
            sys_event.deliver 0 ⟨0, 16, 116⟩, sys_event.deliver 0 ⟨0, 17, 117⟩])).map
        (fun s => (s.queue, s.forked, s.handled)) =
      some ([⟨77, 101, ⟨4, 0⟩⟩], [(101, ⟨0, 13, 113⟩), (102, ⟨0, 15, 115⟩)],
        [⟨1, 0⟩, ⟨1, 0⟩, ⟨3, 0⟩, ⟨3, 0⟩]) ∧
    ∃ (sys0 sys1 : system),
      system_start scenario_config scenario_before_spawn [(101, 1001), (102, 1002)] =
        some sys0 ∧
      system_run scenario_config sys0
          [sys_event.deliver 0 ⟨0, 11, 111⟩, sys_event.deliver 0 ⟨0, 12, 112⟩,
            sys_event.deliver 0 ⟨0, 13, 113⟩, sys_event.pawn_start empty_board_3x3.cells,
            sys_event.deliver 0 ⟨0, 14, 114⟩, sys_event.deliver 0 ⟨0, 15, 115⟩,
            sys_event.deliver 0 ⟨0, 16, 116⟩, sys_event.deliver 0 ⟨0, 17, 117⟩] = some sys1 ∧
      sys1.queue = [⟨77, 101, ⟨4, 0⟩⟩] ∧ sys1.forked.length = 2 ∧
      ∀ (now : Int) (pawn : pawn_t) (sys2 : system),
        system_step scenario_config sys1 (sys_event.deliver now pawn) = some sys2 →
        ∀ (evs2 : List sys_event) (sys3 : system),
          system_run scenario_config sys2 evs2 = some sys3 →
          ∀ m ∈ sys3.queue, m.msg.message_type ≠ 2 := by
  refine ⟨⟨by decide, by decide, rfl⟩, by decide, ?_⟩
  obtain ⟨sys0, sys1, first, h0, h1, hfirst, hq, _, hlen, _, _, _, hafter⟩ :=
    placement_completes_before_first_round scenario_config scenario_before_spawn
      [(101, 1001), (102, 1002)]
      [sys_event.deliver 0 ⟨0, 11, 111⟩, sys_event.deliver 0 ⟨0, 12, 112⟩,
        sys_event.deliver 0 ⟨0, 13, 113⟩, sys_event.pawn_start empty_board_3x3.cells,
        sys_event.deliver 0 ⟨0, 14, 114⟩, sys_event.deliver 0 ⟨0, 15, 115⟩,
        sys_event.deliver 0 ⟨0, 16, 116⟩, sys_event.deliver 0 ⟨0, 17, 117⟩]
      (by decide) (by decide) (by decide) (by decide) rfl (by decide) (by decide)
      (by decide) (by decide)
  simp only [List.getElem?_cons_zero, Option.some.injEq] at hfirst
  subst hfirst
  exact ⟨sys0, sys1, h0, h1, hq, hlen, fun now pawn sys2 h2 evs2 sys3 h3 =>
    (hafter now pawn sys2 h2 evs2 sys3 h3).1⟩

/-! ## Coordinator: round setup -/

/-- C21: with `N = SO_NUM_G` players in `player_list`, handling
AllPawnsPlaced (type 4) is `exec_round`. It returns exactly when `spawn_flags`
returns for `SO_FLAG_MIN`, `SO_FLAG_MAX` and `SO_ROUND_SCORE` on the board
marked as in progress, and then: `conquered_flags` is 0, `current_round` has
been incremented as an `unsigned int` (by one, below 4294967295),
`flag_count`, the board and the draws are what `spawn_flags` returned, nothing
else in the state has changed, and the effects are exactly one RoundReady
(type 5) to each player, in the order of the list; no RoundStart (type 7) is
among them. -/
theorem all_pawns_placed_sets_up_round (cfg : config) (now : Int) (s : coordinator_t)
    (m : message_t) (hm : m.message_type = 4)
    (hlen : s.player_list.length = cfg.SO_NUM_G) :
    handle_message cfg now s m = exec_round cfg s ∧
    exec_round cfg s =
      (spawn_flags { s.game_board with round_in_progress := 1 }
          cfg.SO_FLAG_MIN cfg.SO_FLAG_MAX cfg.SO_ROUND_SCORE s.draws).map
        (fun r =>
          ({ s with conquered_flags := 0,
                    current_round := (s.current_round + 1) % 4294967296,
                    game_board := r.1, flag_count := r.2.1, draws := r.2.2 },
            signal_to_all s.player_list 5)) ∧
    (s.current_round < 4294967295 →
      (s.current_round + 1) % 4294967296 = s.current_round + 1) ∧
    (∀ (s1 : coordinator_t) (out : List effect), handle_message cfg now s m = some (s1, out) →
      s1.conquered_flags = 0 ∧
      s1.current_round = (s.current_round + 1) % 4294967296 ∧
      (∃ b1 rest, spawn_flags { s.game_board with round_in_progress := 1 }
          cfg.SO_FLAG_MIN cfg.SO_FLAG_MAX cfg.SO_ROUND_SCORE s.draws =
            some (b1, s1.flag_count, rest) ∧ s1.game_board = b1 ∧ s1.draws = rest) ∧
      out = s.player_list.map (fun p => effect.send p.mq_id ⟨5, 0⟩) ∧
      out.filter (is_send_of_type 5) = out ∧ out.filter (is_send_of_type 7) = []) := by
  have h1 : ¬ (4 : Nat) = 1 := by decide
  have h3 : ¬ (4 : Nat) = 3 := by decide
  have hh : handle_message cfg now s m = exec_round cfg s := by
    simp only [handle_message, hm, h1, h3, if_false, if_true]
  have heq := exec_round_eq cfg s hlen
  refine ⟨hh, heq, by omega, ?_⟩
  intro s1 out hret
  rw [hh, heq] at hret
  cases hs : spawn_flags { s.game_board with round_in_progress := 1 }
      cfg.SO_FLAG_MIN cfg.SO_FLAG_MAX cfg.SO_ROUND_SCORE s.draws with
  | none => rw [hs] at hret; simp at hret
  | some r =>
    obtain ⟨b1, c, rest⟩ := r
    rw [hs] at hret
    simp only [Option.map_some', Option.some.injEq, Prod.mk.injEq] at hret
    obtain ⟨e1, e2⟩ := hret
    subst e1; subst e2
    refine ⟨rfl, rfl, ⟨b1, rest, rfl, rfl, rfl⟩, rfl, filter_signal_same _ _,
      filter_signal_other _ _ _ (by decide)⟩

/-- C21 in the scenario: the first round of two players on the Empty 3 by 3
board, with the draws 3, 7, 1, 1, 2, 0, 2. -/
theorem all_pawns_placed_sets_up_round_witness :
    (⟨4, 0⟩ : message_t).message_type = 4 ∧
    scenario_state.player_list.length = scenario_config.SO_NUM_G ∧
    (handle_message scenario_config 0 scenario_state ⟨4, 0⟩).map
        (fun r => (r.1.conquered_flags, r.1.current_round, r.1.flag_count, r.2)) =
      some (0, 1, 2, [effect.send 101 ⟨5, 0⟩, effect.send 102 ⟨5, 0⟩]) ∧
    handle_message scenario_config 0 scenario_state ⟨4, 0⟩ =
      exec_round scenario_config scenario_state :=
  ⟨rfl, by decide, by decide,
    (all_pawns_placed_sets_up_round scenario_config 0 scenario_state ⟨4, 0⟩ rfl
      (by decide)).1⟩

/-! ## Player: relaying -/

theorem broadcast_signal_to_pawns_eq (pawns : List pawn_t) (type : Nat) :
    broadcast_signal_to_pawns (pawns.map some) pawns.length type =
      some (pawns.map (fun w =>
        effect.send w.mq_id { message_type := type, player_pseudo_name := 0 })) := by
  unfold broadcast_signal_to_pawns
  rw [for_loop_fold pawns
    (fun out w => out ++ [effect.send w.mq_id { message_type := type, player_pseudo_name := 0 }])
    (broadcast_signal_to_pawns_body (pawns.map some) type)
    (by
      intro i s a ha
      simp [broadcast_signal_to_pawns_body, ha])
    pawns.length 0 [] (by omega)]
  rw [List.drop_zero, foldl_append_singleton]
  simp

theorem destroy_pawns_eq (pawns : List pawn_t) :
    destroy_pawns (pawns.map some) pawns.length =
      some (pawns.map (fun w =>
          effect.send w.mq_id { message_type := 11, player_pseudo_name := 0 }) ++
        pawns.map (fun w => effect.close_message_queue w.mq_id)) := by
  unfold destroy_pawns
  rw [broadcast_signal_to_pawns_eq]
  simp only
  rw [for_loop_fold pawns
    (fun out w => out ++ [effect.close_message_queue w.mq_id])
    (destroy_pawns_body (pawns.map some))
    (by
      intro i s a ha
      simp [destroy_pawns_body, ha])
    pawns.length 0 [] (by omega)]
  rw [List.drop_zero, foldl_append_singleton]
  simp

/-- C22: a player whose array holds the `M` pawns `pawns` (`M` below 2^31,
the range of the `int` `pawn_count`). RoundReady (type 5) is answered with
one message of type 6 to the coordinator; RoundStart (type 7) sends
AllowMoving (type 8) to each pawn, FlagCaptured (type 9) sends type 9 to each
pawn, ResetMoves (type 12) sends type 12 to each pawn, each once and in the
order of the array; Terminate (type 11) sends type 11 to each pawn, closes
each pawn's queue and calls `exit(0)`, after which the process handles no
further message. These are all the effects; the variables never change and
no pawn is forked. A message of any other type but AllowPlacement has no
effect. -/
theorem player_relays_to_pawns (game_board : board_t) (pawn : pawn_t) (s : player_proc)
    (pawns : List pawn_t) (m : message_t) (hlist : s.pawn_list = pawns.map some)
    (hcount : s.pawn_count = (pawns.length : Int)) (hM : pawns.length < 2147483648) :
    (m.message_type = 5 →
      player_handle_message game_board pawn s m =
        some (s, [], [effect.send game_board.coordinator_mq_id ⟨6, 0⟩])) ∧
    (m.message_type = 7 →
      player_handle_message game_board pawn s m =
        some (s, [], pawns.map (fun w => effect.send w.mq_id ⟨8, 0⟩))) ∧
    (m.message_type = 9 →
      player_handle_message game_board pawn s m =
        some (s, [], pawns.map (fun w => effect.send w.mq_id ⟨9, 0⟩))) ∧
    (m.message_type = 12 →
      player_handle_message game_board pawn s m =
        some (s, [], pawns.map (fun w => effect.send w.mq_id ⟨12, 0⟩))) ∧
    (m.message_type = 11 →
      player_handle_message game_board pawn s m =
        some (s, [], pawns.map (fun w => effect.send w.mq_id ⟨11, 0⟩) ++
          pawns.map (fun w => effect.close_message_queue w.mq_id) ++ [effect.exit 0]) ∧
      ∀ rest : List (pawn_t × message_t),
        player_run game_board s ((pawn, m) :: rest) =
          some (s, [([], pawns.map (fun w => effect.send w.mq_id ⟨11, 0⟩) ++
            pawns.map (fun w => effect.close_message_queue w.mq_id) ++ [effect.exit 0])])) ∧
    (m.message_type ≠ 2 → m.message_type ≠ 5 → m.message_type ≠ 7 → m.message_type ≠ 9 →
      m.message_type ≠ 11 → m.message_type ≠ 12 →
      player_handle_message game_board pawn s m = some (s, [], [])) := by
  have hu : toU32 s.pawn_count = pawns.length := by
    rw [hcount]; unfold toU32; omega
  have h11 : m.message_type = 11 →
      player_handle_message game_board pawn s m =
        some (s, [], pawns.map (fun w => effect.send w.mq_id ⟨11, 0⟩) ++
          pawns.map (fun w => effect.close_message_queue w.mq_id) ++ [effect.exit 0]) := by
    intro h
    simp [player_handle_message, h, hu, hlist, destroy_pawns_eq]
  refine ⟨?_, ?_, ?_, ?_, ?_, ?_⟩
  · intro h
    simp [player_handle_message, h, organization_completed, send_signal_message_to_master]
  · intro h
    simp [player_handle_message, h, hu, hlist, broadcast_signal_to_pawns_eq]
  · intro h
    simp [player_handle_message, h, hu, hlist, broadcast_signal_to_pawns_eq]
  · intro h
    simp [player_handle_message, h, hu, hlist, broadcast_signal_to_pawns_eq]
  · intro h
    refine ⟨h11 h, ?_⟩
    intro rest
    simp only [player_run, h11 h]
    simp [is_exit]
  · intro h2 h5 h7 h9 h11 h12
    simp [player_handle_message, h2, h5, h7, h9, h11, h12]

/-- C22 for the player 65 of queue 101 that has forked two pawns, of queues
11 and 12. -/
theorem player_relays_to_pawns_witness :
    ((player_after 101 65 2 3 [⟨0, 12, 112⟩, ⟨0, 11, 111⟩]).pawn_list =
        ([⟨0, 12, 112⟩, ⟨0, 11, 111⟩] : List pawn_t).map some ∧
      (player_after 101 65 2 3 [⟨0, 12, 112⟩, ⟨0, 11, 111⟩]).pawn_count = 2) ∧
    player_handle_message empty_board_3x3 ⟨0, 0, 0⟩
        (player_after 101 65 2 3 [⟨0, 12, 112⟩, ⟨0, 11, 111⟩]) ⟨7, 0⟩ =
      some (player_after 101 65 2 3 [⟨0, 12, 112⟩, ⟨0, 11, 111⟩], [],
        [effect.send 12 ⟨8, 0⟩, effect.send 11 ⟨8, 0⟩]) ∧
    player_run empty_board_3x3 (player_after 101 65 2 3 [⟨0, 12, 112⟩, ⟨0, 11, 111⟩])
        [(⟨0, 0, 0⟩, ⟨11, 0⟩), (⟨0, 0, 0⟩, ⟨5, 0⟩)] =
      some (player_after 101 65 2 3 [⟨0, 12, 112⟩, ⟨0, 11, 111⟩],
        [([], [effect.send 12 ⟨11, 0⟩, effect.send 11 ⟨11, 0⟩,
          effect.close_message_queue 12, effect.close_message_queue 11, effect.exit 0])]) :=
  ⟨⟨by decide, by decide⟩,
    (player_relays_to_pawns empty_board_3x3 ⟨0, 0, 0⟩
      (player_after 101 65 2 3 [⟨0, 12, 112⟩, ⟨0, 11, 111⟩])
      [⟨0, 12, 112⟩, ⟨0, 11, 111⟩] ⟨7, 0⟩ (by decide) (by decide) (by decide)).2.1 rfl,
    ((player_relays_to_pawns empty_board_3x3 ⟨0, 0, 0⟩
      (player_after 101 65 2 3 [⟨0, 12, 112⟩, ⟨0, 11, 111⟩])
      [⟨0, 12, 112⟩, ⟨0, 11, 111⟩] ⟨11, 0⟩ (by decide) (by decide)
      (by decide)).2.2.2.2.1 rfl).2 [(⟨0, 0, 0⟩, ⟨5, 0⟩)]⟩

/-! ## The score loop of `spawn_flags` -/

theorem spawn_flags_body_pool (i : Nat) (s s1 : spawn_state) (r : Nat) (rest : List Nat)
    (hd : s.draws = r :: rest) (hb : spawn_flags_body i s = some s1) :
    subU32 s.max_score s.n ≠ 0 ∧
    s1.max_score = subU32 s.max_score ((r % subU32 s.max_score s.n + 1) % 4294967296) ∧
    s1.n = subU32 s.n 1 := by
  unfold spawn_flags_body at hb
  rw [hd] at hb
  simp only at hb
  split at hb
  · simp at hb
  · rename_i hne
    split at hb
    · simp at hb
    · split at hb
      · simp at hb
      · simp only [Option.some.injEq] at hb
        subst hb
        exact ⟨hne, rfl, rfl⟩

theorem score_loop_invariant (b : board_t) (c max_score : Nat) (draws : List Nat)
    (hc : c < max_score) (hpool : max_score < 4294967296) (k : Nat) (s : spawn_state)
    (hk : k ≤ c)
    (hloop : for_loop spawn_flags_body k 0
      { game_board := b, n := c, max_score := max_score, draws := draws } = some s) :
    s.n + k = c ∧ s.n < s.max_score ∧ s.max_score < 4294967296 ∧
    flag_score_sum s.game_board + s.max_score = flag_score_sum b + max_score ∧
    flag_score_sum b + k ≤ flag_score_sum s.game_board := by
  have h := for_loop_invariant spawn_flags_body
    (fun i t => i ≤ c → (t.n + i = c ∧ t.n < t.max_score ∧ t.max_score < 4294967296 ∧
      flag_cells t.game_board = flag_cells b + i ∧
      flag_score_sum t.game_board + t.max_score = flag_score_sum b + max_score ∧
      flag_score_sum b + i ≤ flag_score_sum t.game_board ∧
      ((∀ x ∈ b.cells, x.occupant_type = 1 → 1 ≤ x.flag_score) →
        ∀ x ∈ t.game_board.cells, x.occupant_type = 1 → 1 ≤ x.flag_score)))
    (by
      intro i t t1 hP hb hle
      exact spawn_flags_body_scores b max_score c i t t1 (by omega) (hP (by omega)) hb)
    k 0 _ s
    (by
      intro _
      refine ⟨by simp, by simp; omega, hpool, by simp, by simp, by simp, ?_⟩
      intro h; exact h)
    hloop
  simp only [Nat.zero_add] at h
  obtain ⟨h1, h2, h3, _, h5, h6, _⟩ := h hk
  exact ⟨h1, h2, h3, h5, h6⟩

/-- C23: the score loop of `spawn_flags` for `c` flags and a pool
`max_score`, `c < max_score < 2^32`, from any board and with any draws. After
any `k ≤ c` rounds that returned: `n` is `c - k` and is below what is left of
the pool, and the scores drawn so far sum to `max_score` minus what is left
of the pool, so to at most `max_score`, and to at least `k`. In round `k < c`
the modulus `max_score - n` is computed without wrapping and is at least 1,
so the remainder is defined; the score drawn is at least 1 and at most the
modulus; `max_score -= score` and `n--` do not wrap; and if the round
returns, the pool has shrunk by exactly the score. -/
theorem score_loop_never_divides_by_zero (b : board_t) (c max_score : Nat)
    (draws : List Nat) (hc : c < max_score) (hpool : max_score < 4294967296) (k : Nat)
    (s : spawn_state) (hk : k ≤ c)
    (hloop : for_loop spawn_flags_body k 0
      { game_board := b, n := c, max_score := max_score, draws := draws } = some s) :
    (s.n = c - k ∧ s.n < s.max_score ∧ s.max_score ≤ max_score ∧
      flag_score_sum s.game_board = flag_score_sum b + (max_score - s.max_score) ∧
      k ≤ max_score - s.max_score) ∧
    (k < c →
      1 ≤ subU32 s.max_score s.n ∧ subU32 s.max_score s.n = s.max_score - s.n ∧
      ∀ (r : Nat) (rest : List Nat), s.draws = r :: rest →
        1 ≤ (r % subU32 s.max_score s.n + 1) % 4294967296 ∧
        (r % subU32 s.max_score s.n + 1) % 4294967296 = r % (s.max_score - s.n) + 1 ∧
        (r % subU32 s.max_score s.n + 1) % 4294967296 ≤ s.max_score - s.n ∧
        subU32 s.max_score ((r % subU32 s.max_score s.n + 1) % 4294967296) =
          s.max_score - (r % subU32 s.max_score s.n + 1) % 4294967296 ∧
        1 ≤ s.n ∧ subU32 s.n 1 = s.n - 1 ∧
        ∀ s1, spawn_flags_body k s = some s1 →
          s1.max_score + (r % subU32 s.max_score s.n + 1) % 4294967296 = s.max_score ∧
          s1.n = s.n - 1 ∧ s1.n < s1.max_score) := by
  obtain ⟨h1, h2, h3, h4, h5⟩ :=
    score_loop_invariant b c max_score draws hc hpool k s hk hloop
  refine ⟨⟨by omega, h2, by omega, by omega, by omega⟩, ?_⟩
  intro hlt
  have hm : subU32 s.max_score s.n = s.max_score - s.n := by unfold subU32; omega
  refine ⟨by omega, hm, ?_⟩
  intro r rest hd
  have hr : r % (s.max_score - s.n) < s.max_score - s.n := Nat.mod_lt _ (by omega)
  have hscore : (r % subU32 s.max_score s.n + 1) % 4294967296 =
      r % (s.max_score - s.n) + 1 := by
    rw [hm]; omega
  have hm2 : subU32 s.max_score ((r % subU32 s.max_score s.n + 1) % 4294967296) =
      s.max_score - (r % subU32 s.max_score s.n + 1) % 4294967296 := by
    rw [hscore]; unfold subU32; omega
  have hn1 : subU32 s.n 1 = s.n - 1 := by unfold subU32; omega
  refine ⟨by omega, hscore, by omega, hm2, by omega, hn1, ?_⟩
  intro s1 hb
  obtain ⟨_, e1, e2⟩ := spawn_flags_body_pool k s s1 r rest hd hb
  rw [e1, e2, hm2, hn1, hscore]
  omega

/-- C23 on the Empty 3 by 3 board with 2 flags, the pool 5 and the draws 7,
1, 1, 2, 0, 2: the first round draws the score 2, and in the second round the
modulus is 3 - 1. -/
theorem score_loop_never_divides_by_zero_witness :
    (2 < 5 ∧ 1 ≤ 2 ∧
      for_loop spawn_flags_body 1 0
        { game_board := empty_board_3x3, n := 2, max_score := 5,
          draws := [7, 1, 1, 2, 0, 2] } =
        some ⟨set_cell empty_board_3x3 4 ⟨0, 2, 1, 0⟩, 1, 3, [2, 0, 2]⟩) ∧
    (1 ≤ subU32 3 1 ∧ subU32 3 1 = 3 - 1) ∧
    flag_score_sum (set_cell empty_board_3x3 4 ⟨0, 2, 1, 0⟩) =
      flag_score_sum empty_board_3x3 + (5 - 3) :=
  ⟨⟨by decide, by decide, by decide⟩,
    ⟨((score_loop_never_divides_by_zero empty_board_3x3 2 5 [7, 1, 1, 2, 0, 2]
        (by decide) (by decide) 1
        ⟨set_cell empty_board_3x3 4 ⟨0, 2, 1, 0⟩, 1, 3, [2, 0, 2]⟩ (by decide)
        (by decide)).2 (by decide)).1,
      ((score_loop_never_divides_by_zero empty_board_3x3 2 5 [7, 1, 1, 2, 0, 2]
        (by decide) (by decide) 1
        ⟨set_cell empty_board_3x3 4 ⟨0, 2, 1, 0⟩, 1, 3, [2, 0, 2]⟩ (by decide)
        (by decide)).2 (by decide)).2.1⟩,
    (score_loop_never_divides_by_zero empty_board_3x3 2 5 [7, 1, 1, 2, 0, 2]
      (by decide) (by decide) 1
      ⟨set_cell empty_board_3x3 4 ⟨0, 2, 1, 0⟩, 1, 3, [2, 0, 2]⟩ (by decide)
      (by decide)).1.2.2.2.1⟩

/-! ## Pawn: the recorded position -/

/-- C24 on `blocked_pawn`: the first attempt goes down to (0, 1), where the
pawn of player 66 stands; `move_pawn` refuses, the board is unchanged and the
pawn of 65 is still at (0, 0), but the loop records (0, 1) as its position.
The second attempt, to the right, then moves "from" (0, 1): the cell of
player 66's pawn is vacated, the pawn of 65 is put on (1, 1), and cell (0, 0)
still holds a Pawn of 65. -/
theorem pawn_loop_records_refused_target :
    (pawn_move blocked_pawn).map (fun r => (r.1.position, r.2.1, r.1.local_game_board)) =
      some (⟨0, 1, 1⟩, 0, blocked_pawn.local_game_board) ∧
    owner_at blocked_pawn.local_game_board 1 = some 66 ∧
    owner_at blocked_pawn.local_game_board 0 = some 65 ∧
    (pawn_handle_message blocked_pawn ⟨8, 0⟩).map
        (fun r => (r.1.position, r.1.local_game_board.cells)) =
      some (⟨1, 1, 4⟩,
        [⟨65, 0, 2, 0⟩, ⟨0, 0, 0, 0⟩, ⟨0, 0, 0, 0⟩, ⟨0, 0, 0, 0⟩, ⟨65, 0, 2, 0⟩,
         ⟨0, 0, 0, 0⟩, ⟨0, 0, 0, 0⟩, ⟨0, 0, 0, 0⟩, ⟨0, 0, 0, 0⟩]) := by
  decide

/-! ## Captures and the number of flags -/

theorem flag_count_set (l : List cell_t) :
    ∀ (p : Nat) (c c1 : cell_t), l[p]? = some c →
      ((l.set p c1).filter (fun c => c.occupant_type = 1)).length +
          (if c.occupant_type = 1 then 1 else 0) =
        (l.filter (fun c => c.occupant_type = 1)).length +
          (if c1.occupant_type = 1 then 1 else 0) := by
  induction l with
  | nil => intro p c c1 h; simp at h
  | cons a t ih =>
    intro p c c1 h
    cases p with
    | zero =>
      simp only [List.getElem?_cons_zero, Option.some.injEq] at h
      subst h
      simp only [List.set_cons_zero, List.filter_cons]
      by_cases h1 : a.occupant_type = 1 <;> by_cases h2 : c1.occupant_type = 1 <;>
        simp [h1, h2]
    | succ q =>
      simp only [List.getElem?_cons_succ] at h
      have := ih q c c1 h
      simp only [List.set_cons_succ, List.filter_cons]
      by_cases h1 : a.occupant_type = 1
      · simp only [h1, decide_True, if_true, List.length_cons]; omega
      · simp only [h1, decide_False, Bool.false_eq_true, if_false]; exact this

theorem flag_cells_set (b : board_t) (p : Nat) (c c1 : cell_t) (hc : b.cells[p]? = some c) :
    flag_cells (set_cell b p c1) + (if c.occupant_type = 1 then 1 else 0) =
      flag_cells b + (if c1.occupant_type = 1 then 1 else 0) :=
  flag_count_set b.cells p c c1 hc

theorem occupant_at_set_cell (b : board_t) (p j : Nat) (c c1 : cell_t)
    (hc : b.cells[p]? = some c) :
    occupant_at (set_cell b p c1) j =
      if j = p then some c1.occupant_type else occupant_at b j := by
  have hp : p < b.cells.length := by
    rcases Nat.lt_or_ge p b.cells.length with h | h
    · exact h
    · rw [List.getElem?_eq_none h] at hc; simp at hc
  by_cases hj : j = p
  · subst hj
    simp [occupant_at_set_cell_self b j c1 hp]
  · rw [if_neg hj]
    exact occupant_at_set_cell_ne b p j c1 (fun e => hj e.symm)

/-- What `place_pawn` does to the Flag cells when it returns: the value
returned is 1 exactly when the cell held a Flag, the number of Flag cells has
gone down by the value returned, no cell has become a Flag, and after a
capture the cell holds a Pawn. -/
theorem place_pawn_flags (b b1 : board_t) (position : coords_t) (name r : Nat)
    (h : place_pawn b position name = some (b1, r)) :
    (r = 0 ∨ r = 1) ∧ (r = 1 ↔ occupant_at b position.index = some 1) ∧
    flag_cells b1 + r = flag_cells b ∧
    (∀ j, occupant_at b1 j = some 1 → occupant_at b j = some 1) ∧
    (r = 1 → occupant_at b1 position.index = some 2) := by
  unfold place_pawn at h
  split at h
  · simp at h
  · rename_i c hc
    have hocc : occupant_at b position.index = some c.occupant_type := by
      simp [occupant_at, hc]
    split at h
    · rename_i h0
      simp only [Option.some.injEq, Prod.mk.injEq] at h
      obtain ⟨e1, e2⟩ := h
      subst e1; subst e2
      have hf := flag_cells_set b position.index c
        { c with occupant_type := 2, player_pseudo_name := name } hc
      simp only [h0, Nat.zero_ne_one, if_false, Nat.add_zero] at hf
      have h21 : ¬ (2 : Nat) = 1 := by decide
      simp only [h21, if_false, Nat.add_zero] at hf
      refine ⟨Or.inl rfl, ?_, by omega, ?_, by intro h; omega⟩
      · rw [hocc, h0]; simp
      · intro j hj
        rw [occupant_at_set_cell b position.index j c _ hc] at hj
        split at hj
        · simp at hj
        · exact hj
    · split at h
      · rename_i h0 h1
        simp only [Option.some.injEq, Prod.mk.injEq] at h
        obtain ⟨e1, e2⟩ := h
        subst e1; subst e2
        have hf := flag_cells_set b position.index c
          { c with occupant_type := 2, player_pseudo_name := name } hc
        simp only [h1, if_true] at hf
        have h21 : ¬ (2 : Nat) = 1 := by decide
        simp only [h21, if_false, Nat.add_zero] at hf
        refine ⟨Or.inr rfl, ?_, hf, ?_, ?_⟩
        · rw [hocc, h1]; simp
        · intro j hj
          rw [occupant_at_set_cell b position.index j c _ hc] at hj
          split at hj
          · simp at hj
          · exact hj
        · intro _
          rw [occupant_at_set_cell b position.index position.index c _ hc]
          simp
      · rename_i h0 h1
        simp only [Option.some.injEq, Prod.mk.injEq] at h
        obtain ⟨e1, e2⟩ := h
        subst e1; subst e2
        refine ⟨Or.inl rfl, ?_, rfl, fun j hj => hj, by intro h; omega⟩
        rw [hocc]
        simp only [Option.some.injEq]
        constructor
        · intro h; omega
        · intro h; exact absurd h h1

/-- What `move_pawn` does to the Flag cells when it returns: no cell becomes
a Flag, the Flag cells go down by at least the value returned, and by exactly
that value when the old position does not hold a Flag; the value returned is
1 only if the new position held a Flag, which then holds a Pawn. -/
theorem move_pawn_flags (b b1 : board_t) (old_position new_position : coords_t)
    (name r : Nat) (h : move_pawn b old_position new_position name = some (b1, r)) :
    (r = 0 ∨ r = 1) ∧ flag_cells b1 + r ≤ flag_cells b ∧
    (occupant_at b old_position.index ≠ some 1 → flag_cells b1 + r = flag_cells b) ∧
    (∀ j, occupant_at b1 j = some 1 → occupant_at b j = some 1) ∧
    (r = 1 → occupant_at b new_position.index = some 1 ∧
      occupant_at b1 new_position.index = some 2) := by
  unfold move_pawn at h
  split at h
  · simp at h
  · rename_i allowed ha
    split at h
    · split at h
      · simp at h
      · rename_i c hc
        obtain ⟨p1, p2, p3, p4, p5⟩ := place_pawn_flags _ b1 new_position name r h
        have hf := flag_cells_set b old_position.index c
          { c with occupant_type := 0, player_pseudo_name := 0 } hc
        have h01 : ¬ (0 : Nat) = 1 := by decide
        simp only [h01, if_false, Nat.add_zero] at hf
        have hocc : occupant_at b old_position.index = some c.occupant_type := by
          simp [occupant_at, hc]
        have hback : ∀ j, occupant_at (set_cell b old_position.index
            { c with occupant_type := 0, player_pseudo_name := 0 }) j = some 1 →
            occupant_at b j = some 1 := by
          intro j hj
          rw [occupant_at_set_cell b old_position.index j c _ hc] at hj
          split at hj
          · simp at hj
          · exact hj
        refine ⟨p1, ?_, ?_, fun j hj => hback j (p4 j hj), ?_⟩
        · split at hf <;> omega
        · intro hne
          rw [hocc] at hne
          have : ¬ c.occupant_type = 1 := fun e => hne (by rw [e])
          rw [if_neg this] at hf
          omega
        · intro hr
          exact ⟨hback _ (p2.1 hr), p5 hr⟩
    · simp only [Option.some.injEq, Prod.mk.injEq] at h
      obtain ⟨e1, e2⟩ := h
      subst e1; subst e2
      exact ⟨Or.inl rfl, Nat.le_refl _, fun _ => rfl, fun j hj => hj, by intro h; omega⟩

theorem apply_op_flags (b b1 : board_t) (op : board_op) (r : Nat)
    (h : apply_op b op = some (b1, r)) :
    (r = 0 ∨ r = 1) ∧ flag_cells b1 + r ≤ flag_cells b ∧
    (∀ j, occupant_at b1 j = some 1 → occupant_at b j = some 1) ∧
    (r = 1 → occupant_at b (op_target op) = some 1 ∧
      occupant_at b1 (op_target op) = some 2) := by
  cases op with
  | place position name =>
    obtain ⟨p1, p2, p3, p4, p5⟩ := place_pawn_flags b b1 position name r h
    exact ⟨p1, by omega, p4, fun hr => ⟨p2.1 hr, p5 hr⟩⟩
  | move old_position new_position name =>
    obtain ⟨p1, p2, _, p4, p5⟩ := move_pawn_flags b b1 old_position new_position name r h
    exact ⟨p1, p2, p4, p5⟩
  | vacate old_position =>
    simp only [apply_op] at h
    split at h
    · simp at h
    · rename_i c hc
      simp only [Option.some.injEq, Prod.mk.injEq] at h
      obtain ⟨e1, e2⟩ := h
      subst e1; subst e2
      have hf := flag_cells_set b old_position.index c
        { c with occupant_type := 0, player_pseudo_name := 0 } hc
      have h01 : ¬ (0 : Nat) = 1 := by decide
      simp only [h01, if_false, Nat.add_zero] at hf
      refine ⟨Or.inl rfl, ?_, ?_, by intro h; omega⟩
      · split at hf <;> omega
      · intro j hj
        rw [occupant_at_set_cell b old_position.index j c _ hc] at hj
        split at hj
        · simp at hj
        · exact hj

theorem run_ops_flags :
    ∀ (ops : List board_op) (b b1 : board_t) (captured : List Nat),
      run_ops b ops = some (b1, captured) →
      captured.length + flag_cells b1 ≤ flag_cells b ∧ captured.Nodup ∧
      (∀ i ∈ captured, occupant_at b i = some 1) ∧
      (∀ j, occupant_at b1 j = some 1 → occupant_at b j = some 1) := by
  intro ops
  induction ops with
  | nil =>
    intro b b1 captured h
    simp only [run_ops, Option.some.injEq, Prod.mk.injEq] at h
    obtain ⟨e1, e2⟩ := h
    subst e1; subst e2
    simp
  | cons op ops ih =>
    intro b b1 captured h
    simp only [run_ops] at h
    split at h
    · simp at h
    · rename_i b2 r hop
      split at h
      · simp at h
      · rename_i b3 cap hrun
        simp only [Option.some.injEq, Prod.mk.injEq] at h
        obtain ⟨e1, e2⟩ := h
        subst e1
        obtain ⟨q1, q2, q3, q4⟩ := apply_op_flags b b2 op r hop
        obtain ⟨i1, i2, i3, i4⟩ := ih b2 b3 cap hrun
        by_cases hr : r = 1
        · rw [if_pos hr] at e2
          subst e2
          obtain ⟨t1, t2⟩ := q4 hr
          refine ⟨by simp only [List.length_cons]; omega, ?_, ?_, fun j hj => q3 j (i4 j hj)⟩
          · rw [List.nodup_cons]
            refine ⟨?_, i2⟩
            intro hmem
            have := i3 _ hmem
            rw [t2] at this
            simp at this
          · intro i hi
            rcases List.mem_cons.1 hi with hi | hi
            · subst hi; exact t1
            · exact q3 i (i3 i hi)
        · rw [if_neg hr] at e2
          subst e2
          exact ⟨by omega, i2, fun i hi => q3 i (i3 i hi), fun j hj => q3 j (i4 j hj)⟩

/-- C25: on any board, `place_pawn` at a position inside the array, and
`move_pawn` between positions inside the array from a cell that holds a Pawn,
return; the value returned is 1 if and only if the number of Flag cells has
gone down by exactly one, and otherwise that number is unchanged. Over any
sequence of steps of pawns (calls of `place_pawn` and `move_pawn`, whole or
interleaved), the cells where a step returned 1 are distinct cells that held
a Flag on the board the sequence started from, and their number plus the
number of Flag cells left is at most the number of Flag cells at the start;
when the board is what `spawn_flags` returned with the count `c` on a board
without Flag cells, at most `c` steps return 1. -/
theorem capture_iff_flag_count_drops (b : board_t) :
    (∀ (position : coords_t) (name : Nat), position.index < b.cells.length →
      ∃ b1 r, place_pawn b position name = some (b1, r) ∧
        (r = 1 ↔ flag_cells b1 + 1 = flag_cells b) ∧
        (r ≠ 1 → flag_cells b1 = flag_cells b)) ∧
    (∀ (old_position new_position : coords_t) (name : Nat),
      old_position.index < b.cells.length → new_position.index < b.cells.length →
      occupant_at b old_position.index = some 2 →
      ∃ b1 r, move_pawn b old_position new_position name = some (b1, r) ∧
        (r = 1 ↔ flag_cells b1 + 1 = flag_cells b) ∧
        (r ≠ 1 → flag_cells b1 = flag_cells b)) ∧
    (∀ (ops : List board_op) (b1 : board_t) (captured : List Nat),
      run_ops b ops = some (b1, captured) →
      captured.length + flag_cells b1 ≤ flag_cells b ∧ captured.Nodup ∧
        ∀ i ∈ captured, occupant_at b i = some 1) ∧
    (∀ (b0 : board_t) (min max max_score c : Nat) (draws rest : List Nat)
        (ops : List board_op) (b1 : board_t) (captured : List Nat),
      flag_cells b0 = 0 → min ≤ max → max < max_score → max_score < 4294967296 →
      spawn_flags b0 min max max_score draws = some (b, c, rest) →
      run_ops b ops = some (b1, captured) → captured.length ≤ c) := by
  refine ⟨?_, ?_, ?_, ?_⟩
  · intro position name hin
    obtain ⟨b1, r, h⟩ := place_pawn_returns b position name hin
    obtain ⟨p1, _, p3, _, _⟩ := place_pawn_flags b b1 position name r h
    exact ⟨b1, r, h, by omega, by omega⟩
  · intro old_position new_position name hold hnew hocc
    obtain ⟨b1, r, h⟩ := move_pawn_returns b old_position new_position name hold hnew
    obtain ⟨p1, _, p3, _, _⟩ := move_pawn_flags b b1 old_position new_position name r h
    have := p3 (by rw [hocc]; simp)
    exact ⟨b1, r, h, by omega, by omega⟩
  · intro ops b1 captured h
    obtain ⟨q1, q2, q3, _⟩ := run_ops_flags ops b b1 captured h
    exact ⟨q1, q2, q3⟩
  · intro b0 min max max_score c draws rest ops b1 captured h0 hmin hmax hpool hsp h
    obtain ⟨q1, _, _, _⟩ := run_ops_flags ops b b1 captured h
    obtain ⟨s1, _, _, _⟩ := spawn_flags_scores b0 b min max max_score c draws rest hmin hmax
      hpool hsp
    omega

/-- C25 on the 1 by 2 board with a Flag of score 2 on cell 0 and a pawn of
player 66 on cell 1: the pawn moves onto the Flag, which returns 1; a pawn of
65 is then put on the same cell, which returns 0. -/
theorem capture_iff_flag_count_drops_witness :
    ((⟨0, 0, 0⟩ : coords_t).index <
        (⟨1, 2, 0, 0, 0, 1, [⟨0, 2, 1, 0⟩, ⟨66, 0, 2, 0⟩]⟩ : board_t).cells.length ∧
      occupant_at ⟨1, 2, 0, 0, 0, 1, [⟨0, 2, 1, 0⟩, ⟨66, 0, 2, 0⟩]⟩ 1 = some 2) ∧
    move_pawn ⟨1, 2, 0, 0, 0, 1, [⟨0, 2, 1, 0⟩, ⟨66, 0, 2, 0⟩]⟩ ⟨0, 1, 1⟩ ⟨0, 0, 0⟩ 66 =
      some (⟨1, 2, 0, 0, 0, 1, [⟨66, 2, 2, 0⟩, ⟨0, 0, 0, 0⟩]⟩, 1) ∧
    run_ops ⟨1, 2, 0, 0, 0, 1, [⟨0, 2, 1, 0⟩, ⟨66, 0, 2, 0⟩]⟩
        [board_op.move ⟨0, 1, 1⟩ ⟨0, 0, 0⟩ 66, board_op.place ⟨0, 0, 0⟩ 65] =
      some (⟨1, 2, 0, 0, 0, 1, [⟨66, 2, 2, 0⟩, ⟨0, 0, 0, 0⟩]⟩, [0]) ∧
    (∃ b1 r, move_pawn ⟨1, 2, 0, 0, 0, 1, [⟨0, 2, 1, 0⟩, ⟨66, 0, 2, 0⟩]⟩
        ⟨0, 1, 1⟩ ⟨0, 0, 0⟩ 66 = some (b1, r) ∧
      (r = 1 ↔ flag_cells b1 + 1 =
        flag_cells ⟨1, 2, 0, 0, 0, 1, [⟨0, 2, 1, 0⟩, ⟨66, 0, 2, 0⟩]⟩) ∧
      (r ≠ 1 → flag_cells b1 =
        flag_cells ⟨1, 2, 0, 0, 0, 1, [⟨0, 2, 1, 0⟩, ⟨66, 0, 2, 0⟩]⟩)) :=
  ⟨⟨by decide, by decide⟩, by decide, by decide,
    (capture_iff_flag_count_drops ⟨1, 2, 0, 0, 0, 1, [⟨0, 2, 1, 0⟩, ⟨66, 0, 2, 0⟩]⟩).2.1
      ⟨0, 1, 1⟩ ⟨0, 0, 0⟩ 66 (by decide) (by decide) (by decide)⟩

/-! ## Pawn: AllowMoving on the last column -/

theorem edge_pawn_next (rest : List Nat) :
    get_next_position edge_pawn.local_game_board edge_pawn.position (2 :: rest) =
      some (⟨3, 1, 10⟩, rest) := by
  rw [get_next_position_cons]
  have h1 : ¬ Int.tmod ((2 : Nat) : Int) 5 = 1 := by decide
  have h2 : Int.tmod ((2 : Nat) : Int) 5 = 2 := by decide
  have h3 : ¬ edge_pawn.position.x = toU32 edge_pawn.local_game_board.width := by decide
  have h4 : (edge_pawn.position.x + 1) % 4294967296 = 3 := by decide
  have h5 : compute_index edge_pawn.local_game_board ⟨3, edge_pawn.position.y, 0⟩ = 10 := by
    decide
  have h6 : edge_pawn.position.y = 1 := rfl
  rw [if_neg h1, if_pos h2, if_neg h3, h4, h5, h6]

/-- C18 on `edge_pawn`: the pawn stands inside the board, on the last
column, and its first draw says right. `get_next_position` accepts the step
to (3, 1), index 10, `move_pawn` then reads cell 10 of the 9 cells, and the
handler has no result, whatever draws follow: no attempt is completed and
the budget is never 0. -/
theorem allow_moving_blocks_on_last_column :
    occupant_at edge_pawn.local_game_board edge_pawn.position.index = some 2 ∧
    owner_at edge_pawn.local_game_board edge_pawn.position.index = some 65 ∧
    get_next_position edge_pawn.local_game_board edge_pawn.position [2] =
      some (⟨3, 1, 10⟩, []) ∧
    move_pawn edge_pawn.local_game_board edge_pawn.position ⟨3, 1, 10⟩ 65 = none ∧
    pawn_handle_message edge_pawn ⟨8, 0⟩ = none ∧
    ∀ (rest : List Nat) (fuel : Nat), 0 < fuel →
      moving_loop fuel { edge_pawn with draws := 2 :: rest } = none ∧
      pawn_handle_message { edge_pawn with draws := 2 :: rest } ⟨8, 0⟩ = none := by
  refine ⟨by decide, by decide, by decide, by decide, by decide, ?_⟩
  intro rest fuel hfuel
  have hmove : move_pawn edge_pawn.local_game_board edge_pawn.position ⟨3, 1, 10⟩ 65 = none := by
    decide
  have hstep : pawn_move { edge_pawn with draws := 2 :: rest } = none := by
    unfold pawn_move
    simp only [edge_pawn_next rest]
    have : move_pawn edge_pawn.local_game_board edge_pawn.position ⟨3, 1, 10⟩
        edge_pawn.player_pseudo_name = none := hmove
    rw [this]
  have hloop : ∀ f : Nat, 0 < f → moving_loop f { edge_pawn with draws := 2 :: rest } = none := by
    intro f hf
    cases f with
    | zero => omega
    | succ k =>
      have hpos : (3 : Nat) > 0 := by decide
      simp only [moving_loop, edge_pawn, hpos, if_true]
      have := hstep
      simp only [edge_pawn] at this
      rw [this]
  refine ⟨hloop fuel hfuel, ?_⟩
  have h8 : (⟨8, 0⟩ : message_t).message_type = 8 := rfl
  have h3 := hloop 3 (by decide)
  unfold pawn_handle_message
  rw [if_pos h8]
  have hl : moving_loop ({ edge_pawn with draws := 2 :: rest } : pawn_proc).available_moves
      { edge_pawn with draws := 2 :: rest } = none := h3
  rw [hl]

end Prochess
